import Mathlib

/-!
# Data-link layer simulator: byte stuffing, CRC-16, framing and retransmission

A shallow embedding of the data-link layer simulator
(`datalinklayer.cpp`, `crc.cpp`, `frame.cpp`, `main.cpp`, `viba.cpp`) and
theorems about it.

Conventions of the embedding:

* a `QByteArray` is a `List UInt8` (the byte values of its `char`s), a `QString`
  is a `String`, a `std::string` is the `List Char` of its characters;
* `int`/`size_t` quantities are unbounded naturals or integers: the sizes that
  occur (eight times a file size plus 99) are taken to fit the source's
  integer types;
* accumulators whose width matters (`quint32`, `quint16`, `quint8`,
  `uint32_t`) are naturals reduced explicitly modulo `2 ^ w`;
* `qDebug()` output and `QThread::msleep` delays are not observable and are
  left out; Qt signals are recorded as a list of events in emission order.
-/

/-! ## Definitions -/

/-- The macro `FRAME_FLAG` of `datalinklayer.h`. -/
def FRAME_FLAG : UInt8 := 0x7E

/-- The macro `ESCAPE_CHAR` of `datalinklayer.h`. -/
def ESCAPE_CHAR : UInt8 := 0x7D

namespace DataLinkWorker

/-- One iteration of the `for (const char &ch : data)` loop of
`applyByteStuffing`: `stuffed` is the output built so far. -/
def stuffStep (stuffed : List UInt8) (ch : UInt8) : List UInt8 :=
  if ch = FRAME_FLAG ∨ ch = ESCAPE_CHAR then
    (stuffed ++ [ESCAPE_CHAR]) ++ [ch ^^^ 0x20]
  else
    stuffed ++ [ch]

/-- The function `DataLinkWorker::applyByteStuffing`: start flag, the stuffed
payload, end flag. -/
def applyByteStuffing (data : List UInt8) : List UInt8 :=
  let stuffed : List UInt8 := [] ++ [FRAME_FLAG]
  let stuffed := data.foldl stuffStep stuffed
  stuffed ++ [FRAME_FLAG]

/-- One iteration of the loop of `removeByteStuffing` on the byte `ch`; the
state is the pair `(destuffed, escaped)`. -/
def destuffStep (st : List UInt8 × Bool) (ch : UInt8) : List UInt8 × Bool :=
  if st.2 then
    (st.1 ++ [ch ^^^ 0x20], false)
  else if ch = ESCAPE_CHAR then
    (st.1, true)
  else
    (st.1 ++ [ch], false)

/-- The function `DataLinkWorker::removeByteStuffing`. The loop
`for (int i = 1; i < stuffedData.size() - 1; i++)` visits the bytes at the
indices `1 .. size - 2`, that is the input without its first and its last
byte (no byte at all when the size is below 3). -/
def removeByteStuffing (stuffedData : List UInt8) : List UInt8 :=
  ((stuffedData.drop 1).dropLast.foldl destuffStep ([], false)).1

end DataLinkWorker

/-! ### Qt string conversions used by the CRC code -/

namespace Qt

/-- The text of `QString("%1").arg(value, fieldWidth, 16, QChar('0'))`: the
base-16 digits of `value` (lower case, no leading zeros), padded on the left
with `'0'` to at least `fieldWidth` characters. -/
def argHex (value fieldWidth : Nat) : List Char :=
  let digits := Nat.toDigits 16 value
  List.replicate (fieldWidth - digits.length) '0' ++ digits

/-- The characters of `QString::toUpper()`. -/
def toUpper (s : List Char) : List Char :=
  s.map Char.toUpper

/-- Value of one base-16 digit, `none` for any other character. -/
def hexDigitValue (c : Char) : Option Nat :=
  let n := c.toNat
  if 48 ≤ n ∧ n ≤ 57 then some (n - 48)
  else if 97 ≤ n ∧ n ≤ 102 then some (n - 87)
  else if 65 ≤ n ∧ n ≤ 70 then some (n - 55)
  else none

/-- Reads base-16 digits, most significant first, onto the accumulator. -/
def parseHex : List Char → Nat → Option Nat
  | [], acc => some acc
  | c :: cs, acc =>
    match hexDigitValue c with
    | none => none
    | some d => parseHex cs (acc * 16 + d)

/-- The call `s.toUShort(&ok, 16)` on a string of digits: `some v` stands for
`ok == true` with result `v`, `none` for `ok == false`. The conversion fails
on the empty string, on a character that is not a base-16 digit and on a
value above `0xFFFF`. (Qt also accepts surrounding white space, a sign and a
`0x` prefix; the strings converted in this program are the digit strings
written by `CRC::calculateCRC16`.) -/
def toUShort16 (s : String) : Option Nat :=
  if s.data = [] then none
  else
    match parseHex s.data 0 with
    | none => none
    | some v => if v ≤ 0xFFFF then some v else none

end Qt

/-! ### `crc.cpp` -/

namespace CRC

/-- Constant `CRC::POLYNOMIAL` of `crc.h`. -/
def POLYNOMIAL : Nat := 0x1021

/-- Constant `CRC::INITIAL_VALUE` of `crc.h`. -/
def INITIAL_VALUE : Nat := 0xFFFF

/-- Constant `CRC::FINAL_XOR_VALUE` of `crc.h`. -/
def FINAL_XOR_VALUE : Nat := 0x0000

/-- One iteration of the inner loop of `calculateCRC16Internal` on the
`quint32` accumulator `crc`. -/
def bitStep (crc : Nat) : Nat :=
  if crc &&& 0x8000 ≠ 0 then
    ((crc <<< 1) % 2 ^ 32) ^^^ POLYNOMIAL
  else
    (crc <<< 1) % 2 ^ 32

/-- One iteration of the outer loop of `calculateCRC16Internal`: the byte is
xored in at bits 8..15, then eight shift steps follow. -/
def byteStep (crc : Nat) (ch : UInt8) : Nat :=
  let byte := ch.toNat
  let crc := crc ^^^ (byte <<< 8)
  (List.range 8).foldl (fun c _ => bitStep c) crc

/-- The function `CRC::calculateCRC16Internal`: a `quint32` accumulator,
truncated to `quint16` on return. -/
def calculateCRC16Internal (data : List UInt8) : Nat :=
  let crc := data.foldl byteStep INITIAL_VALUE
  (crc ^^^ FINAL_XOR_VALUE) % 2 ^ 16

/-- The function `CRC::calculateCRC16`. -/
def calculateCRC16 (data : List UInt8) : String :=
  let crc := calculateCRC16Internal data
  String.mk (Qt.toUpper (Qt.argHex crc 4))

/-- The function `CRC::verifyCRC16`. -/
def verifyCRC16 (data : List UInt8) (crc : String) : Bool :=
  let calculatedCRC := calculateCRC16Internal data
  match Qt.toUShort16 crc with
  | none => false
  | some expectedCRC => decide (calculatedCRC = expectedCRC)

end CRC

/-! ### Reference CRC, written from the specification -/

namespace CrcReference

/-- One shift of a 16-bit CRC register, most significant bit first: the
register moves left by one within 16 bits and the polynomial is xored in when
the bit shifted out was set. -/
def shift16 (poly crc : Nat) : Nat :=
  if crc.testBit 15 then ((crc <<< 1) % 2 ^ 16) ^^^ poly else (crc <<< 1) % 2 ^ 16

/-- One byte of the byte-oriented reference CRC: the byte enters at the top of
the 16-bit register, followed by eight shifts. -/
def update16 (poly crc : Nat) (b : UInt8) : Nat :=
  shift16 poly (shift16 poly (shift16 poly (shift16 poly (shift16 poly
    (shift16 poly (shift16 poly (shift16 poly (crc ^^^ (b.toNat <<< 8)))))))))

/-- The byte-oriented reference CRC-16 with a 16-bit accumulator, parameters
`poly`, `init` and `xorOut`. -/
def crc16 (poly init xorOut : Nat) (data : List UInt8) : Nat :=
  data.foldl (update16 poly) init ^^^ xorOut

/-- CRC-16/CCITT-FALSE: polynomial 0x1021, initial value 0xFFFF, final XOR 0. -/
def crc16CcittFalse (data : List UInt8) : Nat :=
  crc16 0x1021 0xFFFF 0x0000 data

end CrcReference

/-! ### `frame.cpp` -/

/-- The class `Frame`; the error map `QMap<QString, QString>` is kept as an
association list with one entry per key (its iteration order is not used). -/
structure Frame where
  data : List UInt8
  crc : String
  frameNumber : Int
  valid : Bool
  bitCount : Int
  lastFrame : Bool
  hasPadding : Bool
  errorInfo : List (String × String)
deriving DecidableEq, Repr

namespace Frame

/-- The method `Frame::calculateCRC`. -/
def calculateCRC (f : Frame) : Frame :=
  { f with crc := CRC.calculateCRC16 f.data }

/-- The method `Frame::verifyCRC`. -/
def verifyCRC (f : Frame) : Bool :=
  CRC.verifyCRC16 f.data f.crc

/-- The default constructor `Frame::Frame()`. -/
def default : Frame :=
  { data := [], crc := "", frameNumber := -1, valid := true, bitCount := 0,
    lastFrame := false, hasPadding := false, errorInfo := [] }

/-- The constructor `Frame::Frame(const QByteArray &data)`: members are
initialised, then the body calls `calculateCRC()`. -/
def ofData (data : List UInt8) : Frame :=
  calculateCRC
    { data := data, crc := "", frameNumber := -1, valid := true,
      bitCount := (data.length : Int) * 8, lastFrame := false, hasPadding := false,
      errorInfo := [] }

/-- The method `Frame::setData`. -/
def setData (f : Frame) (newData : List UInt8) : Frame := { f with data := newData }

/-- The method `Frame::setCRC`. -/
def setCRC (f : Frame) (newCRC : String) : Frame := { f with crc := newCRC }

/-- The method `Frame::setFrameNumber`. -/
def setFrameNumber (f : Frame) (number : Int) : Frame := { f with frameNumber := number }

/-- The method `Frame::setValid`. -/
def setValid (f : Frame) (newValid : Bool) : Frame := { f with valid := newValid }

/-- The method `Frame::setBitCount`. -/
def setBitCount (f : Frame) (count : Int) : Frame := { f with bitCount := count }

/-- The method `Frame::setLastFrame`. -/
def setLastFrame (f : Frame) (isLast : Bool) : Frame := { f with lastFrame := isLast }

/-- The method `Frame::setHasPadding`. -/
def setHasPadding (f : Frame) (value : Bool) : Frame := { f with hasPadding := value }

/-- The assignment `map[key] = value` on the error map: the entry of `key` is
replaced when there is one, otherwise an entry is added. -/
def mapInsert (m : List (String × String)) (key value : String) : List (String × String) :=
  if m.any (fun e => decide (e.1 = key)) then
    m.map (fun e => if e.1 = key then (key, value) else e)
  else
    m ++ [(key, value)]

/-- The value stored under `key` in the error map (`none` when there is no
such key). -/
def mapLookup : List (String × String) → String → Option String
  | [], _ => none
  | e :: rest, key => if e.1 = key then some e.2 else mapLookup rest key

/-- The method `Frame::addErrorInfo`. -/
def addErrorInfo (f : Frame) (errorType description : String) : Frame :=
  { f with errorInfo := mapInsert f.errorInfo errorType description }

/-- The description recorded under the error kind `errorType`, that is
`getErrorInfo().value(errorType)` when the key is present. -/
def errorDescription (f : Frame) (errorType : String) : Option String :=
  mapLookup f.errorInfo errorType

end Frame

/-! ### Signals -/

/-- The Qt signals of `DataLinkWorker` and `DataLinkLayer` (the two classes
declare the same six signals), recorded as events. -/
inductive Event where
  | frameProcessed (frame : Frame)
  | transmissionComplete
  | errorOccurred (error : String)
  | statusUpdate (status : String)
  | checksumCalculated (checksum : String)
  | checksumFrameSent (checksumFrame : String)
deriving DecidableEq, Repr

/-! ### `datalinklayer.cpp`: state of the two classes and `loadFile` -/

/-- The data members of `DataLinkWorker` (the mutex apart). -/
structure DataLinkWorker where
  frames : List Frame
  checksum : String
  checksumFrame : String
deriving DecidableEq, Repr

/-- The data members of `DataLinkLayer` (thread and mutex apart); `worker` is
the state of the object behind the `worker` pointer. -/
structure DataLinkLayer where
  frames : List Frame
  checksum : String
  checksumFrame : String
  transmitting : Bool
  currentFilePath : String
  worker : DataLinkWorker
deriving DecidableEq, Repr

namespace DataLinkWorker

/-- The method `DataLinkWorker::setData`. -/
def setData (w : DataLinkWorker) (newFrames : List Frame) : DataLinkWorker :=
  { w with frames := newFrames }

end DataLinkWorker

namespace DataLinkLayer

/-- The local constant `frameBitSize` of `loadFile`. -/
def frameBitSize : Nat := 100

/-- The bit array built at the start of the framing step: `QBitArray
bits(fileData.size() * 8)` starts all clear, then bit `i * 8 + b` is set to
`fileData.at(i) & (1 << (7 - b))` for every byte index `i` and `b = 0 .. 7`. -/
def fileBits (fileData : List UInt8) : List Bool :=
  (List.range fileData.length).foldl
    (fun bits i =>
      (List.range 8).foldl
        (fun bits b =>
          bits.set (i * 8 + b) (decide ((fileData.getD i 0).toNat &&& (1 <<< (7 - b)) ≠ 0)))
        bits)
    (List.replicate (fileData.length * 8) false)

/-- The loop "Copy bits to the frame data" of `loadFile` for frame `i`:
`frameData` starts as `(frameBitSize + 7) / 8` zero bytes and, for every
`j < remainingBits` with `bits.testBit(i * frameBitSize + j)`, bit
`7 - j % 8` of byte `j / 8` is set by `frameData[byteIndex] |= (1 << bitIndex)`. -/
def fillFrameData (bits : List Bool) (i remainingBits : Nat) : List UInt8 :=
  (List.range remainingBits).foldl
    (fun frameData j =>
      if bits.getD (i * frameBitSize + j) false then
        let byteIndex := j / 8
        let bitIndex := 7 - (j % 8)
        frameData.set byteIndex
          (UInt8.ofNat ((frameData.getD byteIndex 0).toNat ||| (1 <<< bitIndex)))
      else frameData)
    (List.replicate ((frameBitSize + 7) / 8) 0)

/-- The body of the loop `for (int i = 0; i < totalFrames; ++i)` of `loadFile`:
the frame appended to `frames` and the events emitted by the iteration. The
loop "Add padding bits (0s)" writes to the local `frameData` after the frame
has been constructed from it and is not read again, so it has no effect and is
left out. -/
def loadFrameBody (bits : List Bool) (i : Nat) : Frame × List Event :=
  let remainingBits := min frameBitSize (bits.length - i * frameBitSize)
  let frameData := fillFrameData bits i remainingBits
  let frame := Frame.ofData frameData
  let frame := frame.setFrameNumber (i : Int)
  if remainingBits < frameBitSize then
    let frame := frame.setLastFrame true
    let frame := frame.setHasPadding true
    let frame := frame.setBitCount (frameBitSize : Int)
    (frame, [Event.statusUpdate
      ("Partial frame detected: Frame " ++ toString i ++ " padded to " ++
        toString frameBitSize ++ " bits")])
  else
    let frame := frame.setBitCount (frameBitSize : Int)
    (frame, [])

/-- The framing step of `loadFile` (from "Convert file data to bits" to the
end of the frame loop) on the bytes read from the file: the frames appended to
the cleared `frames` and the events emitted, in order. -/
def framingStep (fileData : List UInt8) : List Frame × List Event :=
  let bits := fileBits fileData
  let totalFrames := (bits.length + frameBitSize - 1) / frameBitSize
  (List.range totalFrames).foldl
    (fun st i =>
      let r := loadFrameBody bits i
      (st.1 ++ [r.1], st.2 ++ r.2))
    ([], [])

/-- The method `DataLinkLayer::loadFile`. The file system is represented by
`contents`: `none` when `file.open(QIODevice::ReadOnly)` fails, `some bytes`
for the result of `file.readAll()`. Returns the `bool` result, the new state
and the events emitted. -/
def loadFile (layer : DataLinkLayer) (filePath : String) (contents : Option (List UInt8)) :
    Bool × DataLinkLayer × List Event :=
  match contents with
  | none => (false, layer, [Event.errorOccurred "Failed to open file"])
  | some fileData =>
    let r := framingStep fileData
    let frames := r.1
    let layer :=
      { layer with
        currentFilePath := filePath
        frames := frames
        checksum := ""
        checksumFrame := ""
        worker := layer.worker.setData frames }
    (true, layer,
      r.2 ++ [Event.statusUpdate ("File loaded: " ++ toString frames.length ++ " frames created")])

end DataLinkLayer

/-! ### Reading a payload back as bits (used to state the framing claims) -/

/-- The eight bits of a byte, most significant first. -/
def byteBitsMsbFirst (b : UInt8) : List Bool :=
  (List.range 8).map (fun k => b.toNat.testBit (7 - k))

/-- The bit sequence of a byte sequence: most significant bit first per byte,
bytes in order. -/
def bytesToBits (bs : List UInt8) : List Bool :=
  bs.flatMap byteBitsMsbFirst

/-- Bit `j` of a byte sequence, counting from the most significant bit of the
first byte (`false` beyond the end). -/
def bitAt (bs : List UInt8) (j : Nat) : Bool :=
  (bs.getD (j / 8) 0).toNat.testBit (7 - j % 8)

/-- The bits read back from a list of frames: the first 100 bits of every
payload, most significant bit first per byte, in frame order. -/
def payloadBitStream (frames : List Frame) : List Bool :=
  frames.flatMap (fun f => (bytesToBits f.data).take 100)

namespace DataLinkLayer

/-- The state set up by the constructor `DataLinkLayer::DataLinkLayer`: no
frames, empty strings, `transmitting(false)` and a fresh worker. -/
def new : DataLinkLayer :=
  { frames := [], checksum := "", checksumFrame := "", transmitting := false,
    currentFilePath := "",
    worker := { frames := [], checksum := "", checksumFrame := "" } }

end DataLinkLayer

/-! ### `datalinklayer.cpp`: the channel simulation and `DataLinkWorker::process`

The ambient generator `QRandomGenerator::global()` is represented by the
sequence `rng` of the values its successive `generateDouble()` calls return,
together with the number `pos` of values drawn so far. The request flag read by
`QThread::currentThread()->isInterruptionRequested()` is set from another
thread; it is represented by `interrupted`, where `interrupted k` is what the
check made before the frame at index `k` reads. -/

namespace DataLinkWorker

/-- The local constant `MAX_RETRIES` of `process`. -/
def MAX_RETRIES : Nat := 3

/-- The method `simulateDataLoss`: one draw, compared with 0.10. Returns the
result and the new number of values drawn. -/
def simulateDataLoss (rng : Nat → ℚ) (pos : Nat) : Bool × Nat :=
  (decide (rng pos < 0.10), pos + 1)

/-- The method `simulateDataCorruption`: one draw, compared with 0.20. -/
def simulateDataCorruption (rng : Nat → ℚ) (pos : Nat) : Bool × Nat :=
  (decide (rng pos < 0.20), pos + 1)

/-- The method `simulateAckLoss`: one draw, compared with 0.15. -/
def simulateAckLoss (rng : Nat → ℚ) (pos : Nat) : Bool × Nat :=
  (decide (rng pos < 0.15), pos + 1)

/-- The method `simulateChecksumError`: one draw, compared with 0.05. -/
def simulateChecksumError (rng : Nat → ℚ) (pos : Nat) : Bool × Nat :=
  (decide (rng pos < 0.05), pos + 1)

/-- How one pass through the body of the retry loop ended (bookkeeping added
by the embedding; the source has no such value). -/
inductive AttemptOutcome where
  | lost
  | corrupted
  | ackLost
  | acked
deriving DecidableEq, Repr

/-- The variables of the retry loop of `process` for one frame: the frame, the
locals `retryCount` and `acked`, the number of random values drawn, the events
emitted so far for the frame and, as bookkeeping, the outcome of every pass
through the loop body. -/
structure RetryState where
  frame : Frame
  retryCount : Nat
  acked : Bool
  pos : Nat
  events : List Event
  attempts : List AttemptOutcome
deriving DecidableEq, Repr

/-- The text `(Attempt %1/%2)` with `retryCount + 1` and `MAX_RETRIES`. -/
def attemptText (retryCount : Nat) : String :=
  "(Attempt " ++ toString (retryCount + 1) ++ "/" ++ toString MAX_RETRIES ++ ")"

/-- One pass through the body of `while (!acked && retryCount < MAX_RETRIES)`.
None of the operations in the body throws, so the `catch` branch is not
taken. -/
def attempt (rng : Nat → ℚ) (st : RetryState) : RetryState :=
  let frame := st.frame.calculateCRC
  let stuffedData := applyByteStuffing frame.data
  let frame := frame.setData stuffedData
  let lost := simulateDataLoss rng st.pos
  if lost.1 then
    let frame := frame.setValid false
    let frame := frame.addErrorInfo "Lost"
      ("Frame lost during transmission " ++ attemptText st.retryCount)
    { st with
      frame := frame
      retryCount := st.retryCount + 1
      pos := lost.2
      events := st.events ++ [Event.statusUpdate
        ("Frame " ++ toString frame.frameNumber ++ " lost during transmission " ++
          attemptText st.retryCount)]
      attempts := st.attempts ++ [AttemptOutcome.lost] }
  else
    let corrupted := simulateDataCorruption rng lost.2
    if corrupted.1 then
      let frame := frame.setValid false
      let frame := frame.addErrorInfo "Corrupted"
        ("Frame corrupted during transmission " ++ attemptText st.retryCount)
      { st with
        frame := frame
        retryCount := st.retryCount + 1
        pos := corrupted.2
        events := st.events ++ [Event.statusUpdate
          ("Frame " ++ toString frame.frameNumber ++ " corrupted during transmission " ++
            attemptText st.retryCount)]
        attempts := st.attempts ++ [AttemptOutcome.corrupted] }
    else
      let events := st.events ++ [Event.frameProcessed frame]
      let destuffedData := removeByteStuffing frame.data
      let frame := frame.setData destuffedData
      let ackLost := simulateAckLoss rng corrupted.2
      if ackLost.1 then
        let frame := frame.setValid false
        let frame := frame.addErrorInfo "ACK Lost"
          ("ACK lost during transmission " ++ attemptText st.retryCount)
        { st with
          frame := frame
          retryCount := st.retryCount + 1
          pos := ackLost.2
          events := events ++ [Event.statusUpdate
            ("ACK lost for frame " ++ toString frame.frameNumber ++ " " ++
              attemptText st.retryCount)]
          attempts := st.attempts ++ [AttemptOutcome.ackLost] }
      else
        { st with
          frame := frame
          acked := true
          pos := ackLost.2
          events := events ++ [Event.statusUpdate
            ("Frame " ++ toString frame.frameNumber ++
              " successfully transmitted and acknowledged")]
          attempts := st.attempts ++ [AttemptOutcome.acked] }

set_option linter.unusedVariables false in
/-- The loop `while (!acked && retryCount < MAX_RETRIES)` of `process`, run to
its exit. -/
def retryLoop (rng : Nat → ℚ) (st : RetryState) : RetryState :=
  if h : (!st.acked && decide (st.retryCount < MAX_RETRIES)) = true then
    retryLoop rng (attempt rng st)
  else st
termination_by (if st.acked then 0 else MAX_RETRIES + 1 - st.retryCount)
decreasing_by
  simp only [Bool.and_eq_true, Bool.not_eq_true', decide_eq_true_eq] at h
  obtain ⟨h1, h2⟩ := h
  have key : (attempt rng st).acked = true ∨
      ((attempt rng st).acked = false ∧ (attempt rng st).retryCount = st.retryCount + 1) := by
    unfold attempt
    dsimp only
    split_ifs <;> simp [h1]
  rcases key with k | ⟨k1, k2⟩
  · simp only [k, h1, if_true, Bool.false_eq_true, if_false]
    omega
  · simp only [k1, k2, h1, Bool.false_eq_true, if_false]
    omega

/-- What `process` did with one frame: the frame as left in `localFrames`, the
final value of `acked`, whether the branch `if (!acked)` after the loop ran
(`failed`), the number of random values drawn, the events emitted for the
frame and the outcomes of its attempts. -/
structure FrameRun where
  frame : Frame
  acked : Bool
  failed : Bool
  pos : Nat
  events : List Event
  attempts : List AttemptOutcome
deriving DecidableEq, Repr

/-- The body of `for (Frame &frame : localFrames)` after the interruption
check: the retry loop, then the branch `if (!acked)`. -/
def processFrame (rng : Nat → ℚ) (frame : Frame) (pos : Nat) : FrameRun :=
  let st := retryLoop rng
    { frame := frame, retryCount := 0, acked := false, pos := pos, events := [], attempts := [] }
  if !st.acked then
    let frame := st.frame.setValid false
    let frame := frame.addErrorInfo "Transmission Failed"
      ("Maximum retry attempts (" ++ toString MAX_RETRIES ++ ") reached")
    { frame := frame, acked := st.acked, failed := true, pos := st.pos,
      events := st.events ++ [Event.statusUpdate
        ("Frame " ++ toString frame.frameNumber ++ " transmission failed after " ++
          toString MAX_RETRIES ++ " attempts")],
      attempts := st.attempts }
  else
    { frame := st.frame, acked := st.acked, failed := false, pos := st.pos,
      events := st.events, attempts := st.attempts }

/-- The state of the frame loop of `process`: the runs of the frames handled
so far, the events emitted by the loop, the number of random values drawn and
whether the loop was left by the `return` of the interruption check. -/
structure LoopResult where
  runs : List FrameRun
  events : List Event
  pos : Nat
  cancelled : Bool
deriving DecidableEq, Repr

/-- The loop `for (Frame &frame : localFrames)` of `process` on the frames not
yet visited; `frameCount` is the number of frames visited before. -/
def processFrames (rng : Nat → ℚ) (interrupted : Nat → Bool) :
    List Frame → Nat → LoopResult → LoopResult
  | [], _, acc => acc
  | frame :: rest, frameCount, acc =>
    if interrupted frameCount then
      { acc with
        events := acc.events ++ [Event.statusUpdate "Transmission stopped by user"]
        cancelled := true }
    else
      let run := processFrame rng frame acc.pos
      processFrames rng interrupted rest (frameCount + 1)
        { acc with
          runs := acc.runs ++ [run]
          events := acc.events ++ run.events
          pos := run.pos }

/-- The method `DataLinkWorker::calculateChecksum`: a `quint8` accumulator over
the member `frames`. Returns the text stored in `checksum` and emitted. -/
def calculateChecksum (frames : List Frame) : String :=
  let accum := frames.foldl
    (fun accum frame =>
      match Qt.toUShort16 frame.crc with
      | some crc => ((accum + crc) % 2 ^ 8) % 0x100
      | none => accum)
    0
  String.mk (Qt.toUpper (Qt.argHex accum 2))

/-- The macro `CHECKSUM_HEADER` of `datalinklayer.h`. -/
def CHECKSUM_HEADER : String := "CHK"

/-- The method `DataLinkWorker::escapeSpecialCharacters`: the escape character
is put before every character equal to it or to the first header character. -/
def escapeSpecialCharacters (data : String) : String :=
  String.mk (data.data.foldl
    (fun result c =>
      let result :=
        if c.toNat = ESCAPE_CHAR.toNat ∨ c = CHECKSUM_HEADER.data.headD ' ' then
          result ++ [Char.ofNat ESCAPE_CHAR.toNat]
        else result
      result ++ [c])
    [])

/-- The method `DataLinkWorker::prepareChecksumFrame`. -/
def prepareChecksumFrame (w : DataLinkWorker) : String :=
  escapeSpecialCharacters (CHECKSUM_HEADER ++ w.checksum)

/-- The outcome of one call of `process`: the worker state afterwards, the
events emitted in order, the local copy `localFrames` as it was when `process`
returned, the run of every frame visited, the number of random values drawn
and whether `process` returned at the interruption check. -/
structure ProcessResult where
  worker : DataLinkWorker
  events : List Event
  localFrames : List Frame
  runs : List FrameRun
  pos : Nat
  cancelled : Bool
deriving DecidableEq, Repr

/-- The slot `DataLinkWorker::process`. `pos` is the number of random values
drawn before the call. -/
def process (w : DataLinkWorker) (rng : Nat → ℚ) (interrupted : Nat → Bool) (pos : Nat) :
    ProcessResult :=
  if w.frames.isEmpty then
    { worker := w, events := [Event.errorOccurred "No frames to process"], localFrames := [],
      runs := [], pos := pos, cancelled := false }
  else
    let localFrames := w.frames
    let loop := processFrames rng interrupted localFrames 0
      { runs := [], events := [], pos := pos, cancelled := false }
    let localFrames := loop.runs.map FrameRun.frame ++ localFrames.drop loop.runs.length
    if loop.cancelled then
      { worker := w, events := loop.events, localFrames := localFrames, runs := loop.runs,
        pos := loop.pos, cancelled := true }
    else
      let checksum := calculateChecksum w.frames
      let w := { w with checksum := checksum }
      let events := loop.events ++ [Event.checksumCalculated checksum]
      let checksumFrame := prepareChecksumFrame w
      let events := events ++ [Event.checksumFrameSent checksumFrame]
      let err := simulateChecksumError rng loop.pos
      let events :=
        if err.1 then events ++ [Event.errorOccurred "Checksum error detected"] else events
      { worker := w, events := events ++ [Event.transmissionComplete],
        localFrames := localFrames, runs := loop.runs, pos := err.2, cancelled := false }

end DataLinkWorker

/-! ### `main.cpp` / `viba.cpp`: `MainFrame::CalculateCRC`

The two files define `CalculateCRC` with the same statements (one reads the
polynomial bit as `poly[16 - j]`, the other as `poly.test(16 - j)`), so one
definition stands for both. A `std::bitset<N>` is the natural number whose
binary digits are its bits (bit `k` is `testBit k`). -/

namespace MainFrame

/-- The constant `FRAME_SIZE_BITS`. -/
def FRAME_SIZE_BITS : Nat := 100

/-- The constant `CRC_POLY`, a `uint16_t`. -/
def CRC_POLY : Nat := 0x1021

/-- The number written by a string of binary digits, first character most
significant (any character other than `'1'` counts as 0). -/
def binaryValue (s : List Char) : Nat :=
  s.foldl (fun acc c => 2 * acc + (if c = '1' then 1 else 0)) 0

/-- The constructor `std::bitset<N>(const std::string&)`: `none` stands for the
`std::invalid_argument` thrown when a character is neither `'0'` nor `'1'`;
otherwise the first `N` characters give the bits, the last of them being
bit 0. -/
def bitsetOfString (N : Nat) (s : List Char) : Option Nat :=
  if s.all (fun c => decide (c = '0' ∨ c = '1')) then some (binaryValue (s.take N)) else none

/-- The constructor `std::bitset<N>(unsigned long long)`: the low `N` bits of
the value. -/
def bitsetOfValue (N : Nat) (value : Nat) : Nat :=
  value % 2 ^ N

/-- The assignment `bits[k] = v` on a bitset: bit `k` becomes `v`, the other
bits stay. -/
def bitsetAssign (bits k : Nat) (v : Bool) : Nat :=
  if bits.testBit k = v then bits else bits ^^^ (1 <<< k)

/-- The member `to_string()` of `std::bitset<N>`: `N` characters, bit `N - 1`
first. -/
def bitsetToString (N : Nat) (bits : Nat) : List Char :=
  (List.range N).map (fun k => if bits.testBit (N - 1 - k) then '1' else '0')

/-- The inner loop `for (int j = 0; j <= 16; ++j)` of `CalculateCRC` at
position `i`: `bits[i - j] = bits[i - j] ^ poly[16 - j]`. -/
def xorPolyAt (poly bits i : Nat) : Nat :=
  (List.range 17).foldl
    (fun bits j => bitsetAssign bits (i - j) (xor (bits.testBit (i - j)) (poly.testBit (16 - j))))
    bits

/-- The outer loop `for (int i = 115; i >= 16; --i)` of `CalculateCRC`: its
`k`-th iteration (from 0) has `i = 115 - k`. -/
def divisionLoop (poly bits : Nat) : Nat :=
  (List.range 100).foldl
    (fun bits k =>
      let i := 115 - k
      if bits.testBit i then xorPolyAt poly bits i else bits)
    bits

/-- The loop `for (int i = 0; i < 16; ++i) crc[i] = bits[i]` on a cleared
`std::bitset<16>`. -/
def lowSixteen (bits : Nat) : Nat :=
  (List.range 16).foldl (fun crc i => bitsetAssign crc i (bits.testBit i)) 0

/-- The function `MainFrame::CalculateCRC`; `none` stands for the exception
thrown by the bitset constructor. -/
def CalculateCRC (frame : List Char) : Option (List Char) :=
  let data := frame ++ List.replicate 16 '0'
  match bitsetOfString 116 data with
  | none => none
  | some bits =>
    let poly := bitsetOfValue 17 CRC_POLY
    let bits := divisionLoop poly bits
    let crc := lowSixteen bits
    some (bitsetToString 16 crc)

end MainFrame

/-! ### Bits as elements of GF(2), used to state what the CRC computes -/

/-- A bit as an element of GF(2). -/
def bitCoeff (b : Bool) : ZMod 2 :=
  if b then 1 else 0

/-! ### Closed form of the frame loop (used to state and prove the run claims) -/

namespace DataLinkWorker

/-- The runs of the frames of a list handled one after the other without
interruption, the first one starting at position `pos` of the random
sequence. -/
def frameRuns (rng : Nat → ℚ) : List Frame → Nat → List FrameRun
  | [], _ => []
  | frame :: rest, pos =>
    processFrame rng frame pos :: frameRuns rng rest (processFrame rng frame pos).pos

/-- The number of random values drawn once the runs `runs`, started at
position `pos`, are over. -/
def runsEndPos : List FrameRun → Nat → Nat
  | [], pos => pos
  | run :: rest, _ => runsEndPos rest run.pos

/-- The number of frames the frame loop visits: the frames before the first
index at which the interruption check reads `true`; `frameCount` is the index
of the first frame of the list. -/
def visitedCount (interrupted : Nat → Bool) : List Frame → Nat → Nat
  | [], _ => 0
  | _ :: rest, frameCount =>
    if interrupted frameCount then 0 else visitedCount interrupted rest (frameCount + 1) + 1

end DataLinkWorker

/-- Whether an event is a `frameProcessed` signal. -/
def Event.isFrameProcessed : Event → Bool
  | Event.frameProcessed _ => true
  | _ => false

/-- Whether an event is one of the three signals that close a run:
`checksumCalculated`, `checksumFrameSent` or `transmissionComplete`. -/
def Event.isSummary : Event → Bool
  | Event.checksumCalculated _ => true
  | Event.checksumFrameSent _ => true
  | Event.transmissionComplete => true
  | _ => false

/-! ### Sequences of `setData` / `calculateCRC` calls on a frame -/

/-- A call of one of the two `Frame` methods that touch the payload or the
CRC text. -/
inductive FrameOp where
  | setData (newData : List UInt8)
  | calculateCRC
deriving DecidableEq, Repr

namespace Frame

/-- The frame after one call. -/
def applyOp (f : Frame) : FrameOp → Frame
  | FrameOp.setData newData => f.setData newData
  | FrameOp.calculateCRC => f.calculateCRC

/-- The frame after a sequence of calls, first call first. -/
def applyOps (f : Frame) (ops : List FrameOp) : Frame :=
  ops.foldl applyOp f

/-- The payload a frame had at its most recent `calculateCRC()` call, given
the payload `base` it had at the previous one (or at construction) and its
current payload `current`, after the calls `ops`. -/
def crcBase : List UInt8 → List UInt8 → List FrameOp → List UInt8
  | base, _, [] => base
  | base, _, FrameOp.setData newData :: rest => crcBase base newData rest
  | _, current, FrameOp.calculateCRC :: rest => crcBase current current rest

end Frame

/-- Whether an attempt was delivered, that is neither lost nor corrupted. -/
def DataLinkWorker.AttemptOutcome.delivered : DataLinkWorker.AttemptOutcome → Bool
  | DataLinkWorker.AttemptOutcome.ackLost => true
  | DataLinkWorker.AttemptOutcome.acked => true
  | _ => false

/-- Whether an event is a `frameProcessed` or a `statusUpdate` signal, the two
signals emitted while a frame is handled. -/
def Event.isFrameLevel : Event → Bool
  | Event.frameProcessed _ => true
  | Event.statusUpdate _ => true
  | _ => false

namespace MainFrame

/-- What a call can throw: a `std::runtime_error` with its message, or the
`std::invalid_argument` of a bitset constructor. -/
inductive Thrown
  | runtime_error (what : String)
  | invalid_argument
  deriving DecidableEq, Repr

/-- The loop `for (const auto& frame : frames)` of `CalculateChecksum` on the
`uint32_t` accumulator `checksum`: `crc_value` is the `uint16_t` made from
`std::bitset<16>(crc).to_ulong()`, and the sum is taken in 32-bit unsigned
arithmetic before the mask `& 0xFFFFFFFF`. The loop is the same in `main.cpp`
and `viba.cpp`. -/
def checksumLoop : List (List Char) → Nat → Except Thrown Nat
  | [], checksum => Except.ok checksum
  | frame :: rest, checksum =>
    match CalculateCRC frame with
    | none => Except.error Thrown.invalid_argument
    | some crc =>
      match bitsetOfString 16 crc with
      | none => Except.error Thrown.invalid_argument
      | some crcBits =>
        let crc_value := crcBits % 2 ^ 16
        checksumLoop rest (((checksum + crc_value) % 2 ^ 32) &&& 0xFFFFFFFF)

/-- The text written by
`ss << std::hex << std::uppercase << std::setfill('0') << std::setw(width) << value`:
the base-16 digits of the value in upper case, padded on the left with `'0'`
to at least `width` characters. -/
def streamHexUpper (width value : Nat) : List Char :=
  let digits := (Nat.toDigits 16 value).map Char.toUpper
  List.replicate (width - digits.length) '0' ++ digits

/-- The function `MainFrame::CalculateChecksum` of `main.cpp`. -/
def CalculateChecksum (frames : List (List Char)) : Except Thrown (List Char) :=
  if frames.isEmpty then
    Except.error (Thrown.runtime_error "No frames to calculate checksum")
  else
    match checksumLoop frames 0 with
    | Except.error e => Except.error e
    | Except.ok checksum => Except.ok (streamHexUpper 8 checksum)

/-- The number written by the string that `CalculateCRC` returns for a frame
(0 when the call throws). -/
def crcValue (frame : List Char) : Nat :=
  match CalculateCRC frame with
  | some crc => binaryValue crc
  | none => 0

end MainFrame

namespace Viba

/-- The function `MainFrame::CalculateChecksum` of `viba.cpp`, which has no
check for the empty list. -/
def MainFrame.CalculateChecksum (frames : List (List Char)) :
    Except MainFrame.Thrown (List Char) :=
  match MainFrame.checksumLoop frames 0 with
  | Except.error e => Except.error e
  | Except.ok checksum => Except.ok (MainFrame.streamHexUpper 8 checksum)

end Viba

/-- A `DataLinkLayer` object together with its worker thread:
`interruptionRequested` is the flag of `workerThread` that
`requestInterruption()` sets and `isInterruptionRequested()` reads, and
`pendingRuns` counts the invocations of `process` that have been queued on the
worker and have not returned yet. -/
structure DataLinkSystem where
  layer : DataLinkLayer
  interruptionRequested : Bool
  pendingRuns : Nat
deriving DecidableEq, Repr

namespace DataLinkSystem

/-- The system right after the constructor of `DataLinkLayer`. -/
def new : DataLinkSystem :=
  { layer := DataLinkLayer.new, interruptionRequested := false, pendingRuns := 0 }

/-- The call `DataLinkLayer::loadFile` within the system: the result, the state
after it and the signals emitted. -/
def loadFile (s : DataLinkSystem) (filePath : String) (contents : Option (List UInt8)) :
    Bool × DataLinkSystem × List Event :=
  let r := DataLinkLayer.loadFile s.layer filePath contents
  (r.1, { s with layer := r.2.1 }, r.2.2)

end DataLinkSystem

namespace DataLinkLayer

/-- The method `DataLinkLayer::startTransmission`: the state after the call and
the signals emitted. `QMetaObject::invokeMethod(worker, "process",
Qt::QueuedConnection)` adds one pending invocation of `process`. -/
def startTransmission (s : DataLinkSystem) : DataLinkSystem × List Event :=
  if s.layer.transmitting then
    (s, [Event.errorOccurred "Transmission already in progress"])
  else if s.layer.frames.isEmpty then
    (s, [Event.errorOccurred "No frames to transmit"])
  else
    ({ s with
        layer := { s.layer with transmitting := true }
        pendingRuns := s.pendingRuns + 1 }, [])

/-- The method `DataLinkLayer::stopTransmission`. -/
def stopTransmission (s : DataLinkSystem) : DataLinkSystem :=
  if s.layer.transmitting then
    { s with
      layer := { s.layer with transmitting := false }
      interruptionRequested := true }
  else s

end DataLinkLayer

/-- The frame number carried by a `frameProcessed` signal; `none` for any other
signal. -/
def Event.processedFrameNumber : Event → Option Int
  | Event.frameProcessed frame => some frame.frameNumber
  | _ => none

/-- The frame numbers of the `frameProcessed` signals of a trace, in order. -/
def frameProcessedNumbers (events : List Event) : List Int :=
  events.filterMap Event.processedFrameNumber

/-- Whether an event is a `checksumCalculated` signal. -/
def Event.isChecksumCalculated : Event → Bool
  | Event.checksumCalculated _ => true
  | _ => false

/-- Whether an event is a `checksumFrameSent` signal. -/
def Event.isChecksumFrameSent : Event → Bool
  | Event.checksumFrameSent _ => true
  | _ => false

/-- Whether an event is the `transmissionComplete` signal. -/
def Event.isTransmissionComplete : Event → Bool
  | Event.transmissionComplete => true
  | _ => false

namespace MainFrame

/-- The frame with the character at position `i` exchanged: `'1'` becomes
`'0'` and any other character becomes `'1'`. -/
def flipBit (frame : List Char) (i : Nat) : List Char :=
  frame.set i (if frame.getD i '0' = '1' then '0' else '1')

end MainFrame

namespace DataLinkLayer

/-- The method `DataLinkLayer::getFrames`. -/
def getFrames (layer : DataLinkLayer) : List Frame :=
  layer.frames

/-- The slots that the constructor of `DataLinkLayer` connects to the signals
of the worker: what the arrival of one worker signal does to the layer.
`transmissionComplete` and `errorOccurred` clear `transmitting`,
`checksumCalculated` and `checksumFrameSent` store their value, and
`frameProcessed` and `statusUpdate` are only passed on. -/
def relay (layer : DataLinkLayer) : Event → DataLinkLayer
  | Event.transmissionComplete => { layer with transmitting := false }
  | Event.errorOccurred _ => { layer with transmitting := false }
  | Event.checksumCalculated value => { layer with checksum := value }
  | Event.checksumFrameSent value => { layer with checksumFrame := value }
  | Event.frameProcessed _ => layer
  | Event.statusUpdate _ => layer

end DataLinkLayer

namespace DataLinkSystem

/-- What the interruption check before frame `k` reads during an invocation of
`process`: true when the flag of the worker thread is already set, or when a
request made while the invocation is under way (`raised`) is seen by that
check. -/
def interruptionSeen (s : DataLinkSystem) (raised : Nat → Bool) (k : Nat) : Bool :=
  s.interruptionRequested || raised k

/-- One queued invocation of `process` executed by the worker thread, and the
relay of its signals to the layer. Nothing in `process`, in the relay slots or
in `QThread` (whose flag is cleared only when the thread starts or finishes)
touches the interruption flag. -/
def runProcess (s : DataLinkSystem) (rng : Nat → ℚ) (raised : Nat → Bool) (pos : Nat) :
    DataLinkSystem × DataLinkWorker.ProcessResult :=
  let r := DataLinkWorker.process s.layer.worker rng (s.interruptionSeen raised) pos
  ({ s with
      layer := r.events.foldl DataLinkLayer.relay { s.layer with worker := r.worker }
      pendingRuns := s.pendingRuns - 1 }, r)

end DataLinkSystem

/-- The operations on a `DataLinkLayer` and its worker thread that change
state: the three public methods that do, and the execution of one queued
invocation of `process`. -/
inductive SystemOp where
  | loadFile (filePath : String) (contents : Option (List UInt8))
  | startTransmission
  | stopTransmission
  | runProcess (rng : Nat → ℚ) (raised : Nat → Bool) (pos : Nat)

/-- The state after one operation; an invocation of `process` is executed only
when one is pending. -/
def DataLinkSystem.step (s : DataLinkSystem) : SystemOp → DataLinkSystem
  | SystemOp.loadFile filePath contents => (s.loadFile filePath contents).2.1
  | SystemOp.startTransmission => (DataLinkLayer.startTransmission s).1
  | SystemOp.stopTransmission => DataLinkLayer.stopTransmission s
  | SystemOp.runProcess rng raised pos =>
    if s.pendingRuns = 0 then s else (s.runProcess rng raised pos).1

namespace MainFrame

/-- The function `MainFrame::CalculateCRC` with the value from which the
17-bit pattern `poly` is built as a parameter: `CalculateCRCWithPattern
CRC_POLY` is `CalculateCRC`, and `CalculateCRCWithPattern 0x11021` is the same
loop run with the pattern that has the `x^16` term. -/
def CalculateCRCWithPattern (pattern : Nat) (frame : List Char) : Option (List Char) :=
  let data := frame ++ List.replicate 16 '0'
  match bitsetOfString 116 data with
  | none => none
  | some bits =>
    let poly := bitsetOfValue 17 pattern
    let bits := divisionLoop poly bits
    let crc := lowSixteen bits
    some (bitsetToString 16 crc)

end MainFrame

namespace MainFrame

/-- The call `s.substr(pos, len)` for `pos <= s.size()`: at most `len`
characters from position `pos` on. -/
def substr (s : List Char) (pos len : Nat) : List Char :=
  (s.drop pos).take len

/-- The function `MainFrame::CreateFrames` (the same in `main.cpp` and
`viba.cpp`) on the bytes of the file: the bit stream is the concatenation of
`std::bitset<8>(c).to_string()` over the bytes, cut into strings of
`FRAME_SIZE_BITS` characters; what remains is padded with `'0'`. The text
appended to `framesCtrl` is left out. -/
def CreateFrames (data : List UInt8) : List (List Char) :=
  let bitStream := data.foldl
    (fun bitStream c => bitStream ++ bitsetToString 8 (bitsetOfValue 8 c.toNat)) []
  let totalBits := bitStream.length
  let numCompleteFrames := totalBits / FRAME_SIZE_BITS
  let remainingBits := totalBits % FRAME_SIZE_BITS
  let frames := (List.range numCompleteFrames).foldl
    (fun frames i => frames ++ [substr bitStream (i * FRAME_SIZE_BITS) FRAME_SIZE_BITS]) []
  if remainingBits > 0 then
    let lastFrame := bitStream.drop (numCompleteFrames * FRAME_SIZE_BITS)
    let lastFrame := lastFrame ++ List.replicate (FRAME_SIZE_BITS - remainingBits) '0'
    frames ++ [lastFrame]
  else frames

end MainFrame

namespace DataLinkWorker

/-- The number of values a pass through the loop body draws from the random
source, by the way the pass ended: the loss sampler alone, the loss and the
corruption sampler, or all three samplers. -/
def AttemptOutcome.draws : AttemptOutcome → Nat
  | AttemptOutcome.lost => 1
  | AttemptOutcome.corrupted => 2
  | AttemptOutcome.ackLost => 3
  | AttemptOutcome.acked => 3

/-- The number of signals a pass through the loop body emits, by the way the
pass ended: one `statusUpdate` when lost or corrupted, `frameProcessed` and one
`statusUpdate` otherwise. -/
def AttemptOutcome.eventCount : AttemptOutcome → Nat
  | AttemptOutcome.lost => 1
  | AttemptOutcome.corrupted => 1
  | AttemptOutcome.ackLost => 2
  | AttemptOutcome.acked => 2

end DataLinkWorker

/-! ## Theorems -/

section Stuffing

open DataLinkWorker

/-- The stuffing loop only appends to what was already emitted. -/
theorem foldl_stuffStep_eq (data acc : List UInt8) :
    data.foldl stuffStep acc = acc ++ data.foldl stuffStep [] := by
  induction data generalizing acc with
  | nil => simp
  | cons ch rest ih =>
    rw [List.foldl_cons, ih, List.foldl_cons, ih (stuffStep [] ch)]
    have h : stuffStep acc ch = acc ++ stuffStep [] ch := by
      unfold stuffStep
      split <;> simp
    rw [h, List.append_assoc]

/-- Shape of the stuffed output: flag, body, flag. -/
theorem applyByteStuffing_eq (data : List UInt8) :
    applyByteStuffing data = FRAME_FLAG :: (data.foldl stuffStep [] ++ [FRAME_FLAG]) := by
  unfold applyByteStuffing
  simp only [List.nil_append]
  rw [foldl_stuffStep_eq]
  simp

/-- Destuffing the stuffed body of `data` after `acc` appends `data` to `acc`
and ends outside an escape. -/
theorem foldl_destuffStep_body (data acc : List UInt8) :
    (data.foldl stuffStep []).foldl destuffStep (acc, false) = (acc ++ data, false) := by
  induction data generalizing acc with
  | nil => simp
  | cons ch rest ih =>
    rw [List.foldl_cons, foldl_stuffStep_eq, List.foldl_append]
    by_cases h : ch = FRAME_FLAG ∨ ch = ESCAPE_CHAR
    · have hs : stuffStep [] ch = [ESCAPE_CHAR, ch ^^^ 0x20] := by
        simp [stuffStep, h]
      have hx : (ch ^^^ 0x20) ^^^ 0x20 = ch := by
        rcases h with h | h <;> subst h <;> decide
      rw [hs]
      simp only [List.foldl_cons, List.foldl_nil, destuffStep]
      simp only [Bool.false_eq_true, if_false, if_true, hx]
      rw [ih]
      simp
    · have hs : stuffStep [] ch = [ch] := by
        simp [stuffStep, h]
      have hne : ch ≠ ESCAPE_CHAR := fun hc => h (Or.inr hc)
      rw [hs]
      simp only [List.foldl_cons, List.foldl_nil, destuffStep]
      simp only [Bool.false_eq_true, if_false, hne]
      rw [ih]
      simp

/-- Destuffing undoes one stuffing (the form used by later proofs). -/
theorem removeByteStuffing_applyByteStuffing (x : List UInt8) :
    removeByteStuffing (applyByteStuffing x) = x := by
  unfold removeByteStuffing
  rw [applyByteStuffing_eq, List.drop_one, List.tail_cons, List.dropLast_concat,
    foldl_destuffStep_body]
  rfl

/-- C1: for every byte sequence `x`, empty or with 0x7E/0x7D bytes anywhere,
`removeByteStuffing (applyByteStuffing x) = x`. -/
theorem C1_destuff_stuff_roundtrip (x : List UInt8) :
    DataLinkWorker.removeByteStuffing (DataLinkWorker.applyByteStuffing x) = x := by
  unfold removeByteStuffing
  rw [applyByteStuffing_eq]
  simp only [List.drop_one, List.tail_cons, List.dropLast_concat]
  rw [foldl_destuffStep_body]
  simp

end Stuffing

section CrcBytes

open CRC CrcReference

/-- The test `crc & 0x8000` reads bit 15. -/
theorem and_0x8000_ne_zero_iff (c : Nat) : c &&& 0x8000 ≠ 0 ↔ c.testBit 15 = true := by
  have h : (0x8000 : Nat) = 2 ^ 15 := by norm_num
  rw [h, Nat.and_two_pow]
  cases c.testBit 15 <;> simp

/-- Shifting the 32-bit accumulator and truncating agrees with shifting the
truncated 16-bit register. -/
theorem shiftLeft_mod_trunc (c : Nat) :
    ((c <<< 1) % 2 ^ 32) % 2 ^ 16 = ((c % 2 ^ 16) <<< 1) % 2 ^ 16 := by
  apply Nat.eq_of_testBit_eq
  intro i
  simp only [Nat.testBit_mod_two_pow, Nat.testBit_shiftLeft]
  by_cases h16 : i < 16
  · by_cases h1 : i ≥ 1
    · have h32 : i < 32 := by omega
      have hp : i - 1 < 16 := by omega
      simp [h16, h1, h32, hp]
    · simp [h1]
  · simp [h16]

/-- Truncation to 16 bits commutes with xor. -/
theorem xor_mod_two_pow16 (a b : Nat) : (a ^^^ b) % 2 ^ 16 = (a % 2 ^ 16) ^^^ (b % 2 ^ 16) := by
  apply Nat.eq_of_testBit_eq
  intro i
  simp only [Nat.testBit_mod_two_pow, Nat.testBit_xor]
  by_cases h16 : i < 16 <;> simp [h16]

/-- One shift step of the source, truncated, is one shift of the 16-bit
reference register. -/
theorem bitStep_mod (c : Nat) : bitStep c % 2 ^ 16 = shift16 0x1021 (c % 2 ^ 16) := by
  unfold bitStep shift16
  have hbit : (c % 2 ^ 16).testBit 15 = c.testBit 15 := by
    rw [Nat.testBit_mod_two_pow]; simp
  rw [hbit]
  by_cases h : c.testBit 15 = true
  · rw [if_pos ((and_0x8000_ne_zero_iff c).mpr h), if_pos h, xor_mod_two_pow16,
      shiftLeft_mod_trunc]
    rfl
  · rw [if_neg (fun hc => h ((and_0x8000_ne_zero_iff c).mp hc)), if_neg h, shiftLeft_mod_trunc]

/-- One byte step of the source, truncated, is one byte step of the reference. -/
theorem byteStep_mod (c : Nat) (b : UInt8) :
    byteStep c b % 2 ^ 16 = update16 0x1021 (c % 2 ^ 16) b := by
  have hb : (b.toNat <<< 8) % 2 ^ 16 = b.toNat <<< 8 := by
    apply Nat.mod_eq_of_lt
    have := b.toNat_lt
    rw [Nat.shiftLeft_eq]
    simp only [UInt8.size] at this
    omega
  unfold byteStep update16
  have hr : List.range 8 = [0, 1, 2, 3, 4, 5, 6, 7] := by decide
  simp only [hr, List.foldl_cons, List.foldl_nil, bitStep_mod, xor_mod_two_pow16, hb]

/-- The truncated 32-bit accumulator follows the 16-bit register over a whole
byte sequence. -/
theorem foldl_byteStep_mod (data : List UInt8) (c : Nat) :
    data.foldl byteStep c % 2 ^ 16 = data.foldl (update16 0x1021) (c % 2 ^ 16) := by
  induction data generalizing c with
  | nil => rfl
  | cons b rest ih => rw [List.foldl_cons, ih, byteStep_mod, List.foldl_cons]

/-- The value returned by `calculateCRC16Internal` fits 16 bits. -/
theorem calculateCRC16Internal_lt (data : List UInt8) : calculateCRC16Internal data < 65536 := by
  unfold calculateCRC16Internal
  exact Nat.mod_lt _ (by norm_num)

set_option maxRecDepth 100000 in
/-- C3: `CRC::calculateCRC16Internal`, with its 32-bit accumulator truncated at
the end, returns on every byte sequence the value of the byte-oriented
reference CRC with a 16-bit accumulator (CRC-16/CCITT-FALSE: polynomial 0x1021,
initial value 0xFFFF, final XOR 0); the ASCII bytes of "123456789" give 0x29B1
and `calculateCRC16` renders them as "29B1". -/
theorem C3_crc16_internal_refines_reference :
    (∀ data : List UInt8, CRC.calculateCRC16Internal data = CrcReference.crc16CcittFalse data) ∧
    CRC.calculateCRC16Internal [0x31, 0x32, 0x33, 0x34, 0x35, 0x36, 0x37, 0x38, 0x39] = 0x29B1 ∧
    CrcReference.crc16CcittFalse [0x31, 0x32, 0x33, 0x34, 0x35, 0x36, 0x37, 0x38, 0x39] = 0x29B1 ∧
    CRC.calculateCRC16 [0x31, 0x32, 0x33, 0x34, 0x35, 0x36, 0x37, 0x38, 0x39] = "29B1" := by
  refine ⟨?_, by decide, by decide, by decide⟩
  intro data
  unfold calculateCRC16Internal crc16CcittFalse crc16
  simp only [FINAL_XOR_VALUE, Nat.xor_zero]
  rw [foldl_byteStep_mod]
  rfl

end CrcBytes

section HexRoundTrip

open Qt

/-- Unfolding of one step of the digit conversion in base 16. -/
theorem toDigitsCore16_succ (f n : Nat) (ds : List Char) :
    Nat.toDigitsCore 16 (f + 1) n ds =
      if n / 16 = 0 then Nat.digitChar (n % 16) :: ds
      else Nat.toDigitsCore 16 f (n / 16) (Nat.digitChar (n % 16) :: ds) := by
  simp [Nat.toDigitsCore]

/-- The upper-case hexadecimal digit of a value below 16 reads back as that
value. -/
theorem hexDigitValue_digitChar : ∀ d : Nat, d < 16 →
    hexDigitValue (Nat.digitChar d).toUpper = some d := by
  decide

/-- The four characters written for a 16-bit value. -/
theorem toUpper_argHex_four (v : Nat) (hv : v < 65536) :
    Qt.toUpper (Qt.argHex v 4) =
      [(Nat.digitChar (v / 4096)).toUpper, (Nat.digitChar (v / 256 % 16)).toUpper,
       (Nat.digitChar (v / 16 % 16)).toUpper, (Nat.digitChar (v % 16)).toUpper] := by
  have h0 : Nat.digitChar 0 = '0' := rfl
  unfold Qt.toUpper Qt.argHex Nat.toDigits
  by_cases h1 : v < 16
  · have e1 : v / 16 = 0 := by omega
    have e2 : v / 4096 = 0 := by omega
    have e3 : v / 256 % 16 = 0 := by omega
    rw [toDigitsCore16_succ, if_pos e1]
    simp [e1, e2, e3, h0, List.replicate]
  · by_cases h2 : v < 256
    · obtain ⟨k, rfl⟩ : ∃ k, v = k + 1 := ⟨v - 1, by omega⟩
      have e1 : ¬ (k + 1) / 16 = 0 := by omega
      have f1 : (k + 1) / 16 / 16 = 0 := by omega
      have e2 : (k + 1) / 4096 = 0 := by omega
      have e3 : (k + 1) / 256 % 16 = 0 := by omega
      have e4 : (k + 1) / 16 % 16 = (k + 1) / 16 := by omega
      rw [toDigitsCore16_succ, if_neg e1, toDigitsCore16_succ, if_pos f1]
      simp [e2, e3, e4, h0, List.replicate]
    · by_cases h3 : v < 4096
      · obtain ⟨k, rfl⟩ : ∃ k, v = k + 2 := ⟨v - 2, by omega⟩
        have e1 : ¬ (k + 2) / 16 = 0 := by omega
        have f1 : ¬ (k + 2) / 16 / 16 = 0 := by omega
        have g1 : (k + 2) / 16 / 16 / 16 = 0 := by omega
        have e2 : (k + 2) / 4096 = 0 := by omega
        have e3 : (k + 2) / 16 / 16 % 16 = (k + 2) / 256 % 16 := by omega
        rw [toDigitsCore16_succ, if_neg e1, toDigitsCore16_succ, if_neg f1,
          toDigitsCore16_succ, if_pos g1]
        simp [e2, e3, h0, List.replicate]
      · obtain ⟨k, rfl⟩ : ∃ k, v = k + 3 := ⟨v - 3, by omega⟩
        have e1 : ¬ (k + 3) / 16 = 0 := by omega
        have f1 : ¬ (k + 3) / 16 / 16 = 0 := by omega
        have g1 : ¬ (k + 3) / 16 / 16 / 16 = 0 := by omega
        have k1 : (k + 3) / 16 / 16 / 16 / 16 = 0 := by omega
        have e2 : (k + 3) / 16 / 16 / 16 % 16 = (k + 3) / 4096 := by omega
        have e3 : (k + 3) / 16 / 16 % 16 = (k + 3) / 256 % 16 := by omega
        rw [toDigitsCore16_succ, if_neg e1, toDigitsCore16_succ, if_neg f1,
          toDigitsCore16_succ, if_neg g1, toDigitsCore16_succ, if_pos k1]
        simp [e2, e3, List.replicate]

/-- Parsing the four-digit upper-case rendering of a 16-bit value gives the
value back. -/
theorem toUShort16_argHex (v : Nat) (hv : v < 65536) :
    Qt.toUShort16 (String.mk (Qt.toUpper (Qt.argHex v 4))) = some v := by
  rw [toUpper_argHex_four v hv]
  have a : v / 4096 < 16 := by omega
  have b : v / 256 % 16 < 16 := by omega
  have c : v / 16 % 16 < 16 := by omega
  have d : v % 16 < 16 := by omega
  have hval : (((0 * 16 + v / 4096) * 16 + v / 256 % 16) * 16 + v / 16 % 16) * 16 + v % 16 = v := by
    omega
  simp only [Qt.toUShort16, Qt.parseHex, hexDigitValue_digitChar _ a,
    hexDigitValue_digitChar _ b, hexDigitValue_digitChar _ c, hexDigitValue_digitChar _ d, hval]
  simp
  omega

/-- C4: for every byte sequence `d`, `verifyCRC16 d (calculateCRC16 d)` is
true; hence a frame built by `Frame(d)` passes `verifyCRC()`, and so does any
frame right after `calculateCRC()`. -/
theorem C4_verify_after_calculate (d : List UInt8) :
    CRC.verifyCRC16 d (CRC.calculateCRC16 d) = true ∧
    (Frame.ofData d).verifyCRC = true ∧
    ∀ f : Frame, f.calculateCRC.verifyCRC = true := by
  have key : ∀ x : List UInt8, CRC.verifyCRC16 x (CRC.calculateCRC16 x) = true := by
    intro x
    unfold CRC.verifyCRC16 CRC.calculateCRC16
    simp only [toUShort16_argHex _ (calculateCRC16Internal_lt x)]
    simp
  refine ⟨key d, ?_, ?_⟩
  · exact key d
  · intro f
    exact key f.data

end HexRoundTrip

section Framing

open DataLinkLayer

/-- A loop that appends one item and some events per iteration builds the
mapped list and the concatenated events. -/
theorem foldl_append_pair {α β γ : Type} (f : α → β) (g : α → List γ) (l : List α)
    (a : List β) (b : List γ) :
    l.foldl (fun st i => (st.1 ++ [f i], st.2 ++ g i)) (a, b) =
      (a ++ l.map f, b ++ l.flatMap g) := by
  induction l generalizing a b with
  | nil => simp
  | cons x xs ih => simp [List.foldl_cons, ih, List.append_assoc]

/-- A loop whose steps keep the length of the list keeps the length. -/
theorem foldl_length_preserved {α β : Type} (step : List β → α → List β)
    (hstep : ∀ acc x, (step acc x).length = acc.length) (l : List α) (init : List β) :
    (l.foldl step init).length = init.length := by
  induction l generalizing init with
  | nil => rfl
  | cons x xs ih => rw [List.foldl_cons, ih, hstep]

/-- The bit array has eight bits per input byte. -/
theorem fileBits_length (fileData : List UInt8) :
    (fileBits fileData).length = 8 * fileData.length := by
  unfold fileBits
  rw [foldl_length_preserved]
  · simp [Nat.mul_comm]
  · intro acc i
    rw [foldl_length_preserved]
    intro acc2 b
    simp

/-- Every payload built by the framing loop has 13 bytes. -/
theorem fillFrameData_length (bits : List Bool) (i r : Nat) :
    (fillFrameData bits i r).length = 13 := by
  unfold fillFrameData
  rw [foldl_length_preserved]
  · simp [frameBitSize]
  · intro acc j
    split <;> simp

/-- The frames built by the framing step, one per loop index. -/
theorem framingStep_frames (fileData : List UInt8) :
    (framingStep fileData).1 =
      (List.range ((8 * fileData.length + 99) / 100)).map
        (fun i => (loadFrameBody (fileBits fileData) i).1) := by
  unfold framingStep
  simp only [foldl_append_pair, List.nil_append, fileBits_length, frameBitSize]
  rfl

/-- The frames stored by `loadFile` are those of the framing step. -/
theorem loadFile_frames (layer : DataLinkLayer) (filePath : String) (fileData : List UInt8) :
    (loadFile layer filePath (some fileData)).2.1.frames = (framingStep fileData).1 := rfl

/-- Frame number, payload and bit count of the frame built for index `i`. -/
theorem loadFrameBody_shape (bits : List Bool) (i : Nat) :
    (loadFrameBody bits i).1.frameNumber = (i : Int) ∧
    (loadFrameBody bits i).1.data =
      fillFrameData bits i (min frameBitSize (bits.length - i * frameBitSize)) ∧
    (loadFrameBody bits i).1.bitCount = 100 ∧
    (loadFrameBody bits i).1.hasPadding =
      decide (min frameBitSize (bits.length - i * frameBitSize) < frameBitSize) := by
  unfold loadFrameBody
  by_cases h : min frameBitSize (bits.length - i * frameBitSize) < frameBitSize
  · simp only [h, if_true, decide_True]
    simp [Frame.setBitCount, Frame.setHasPadding, Frame.setLastFrame, Frame.setFrameNumber,
      Frame.ofData, Frame.calculateCRC, frameBitSize]
  · simp only [h, if_false, decide_False]
    simp [Frame.setBitCount, Frame.setFrameNumber, Frame.ofData, Frame.calculateCRC,
      frameBitSize]

/-- C5: for every input of `n` bytes the framing step of `loadFile` creates
exactly `ceil(8n / 100)` frames; frame `i` (0-based, in input order) has frame
number `i`, a 13-byte payload and bit count 100. -/
theorem C5_frame_count_and_shape (layer : DataLinkLayer) (filePath : String)
    (fileData : List UInt8) :
    ((DataLinkLayer.loadFile layer filePath (some fileData)).2.1.frames.length =
      (8 * fileData.length) ⌈/⌉ 100) ∧
    (∀ i : Nat, ∀ f : Frame,
      (DataLinkLayer.loadFile layer filePath (some fileData)).2.1.frames[i]? = some f →
        f.frameNumber = (i : Int) ∧ f.data.length = 13 ∧ f.bitCount = 100) := by
  rw [loadFile_frames, framingStep_frames]
  constructor
  · rw [List.length_map, List.length_range, Nat.ceilDiv_eq_add_pred_div]
    rfl
  · intro i f hf
    rw [List.getElem?_map] at hf
    by_cases hi : i < (8 * fileData.length + 99) / 100
    · rw [List.getElem?_range hi] at hf
      simp only [Option.map_some', Option.some.injEq] at hf
      subst hf
      obtain ⟨h1, h2, h3, -⟩ := loadFrameBody_shape (fileBits fileData) i
      exact ⟨h1, by rw [h2, fillFrameData_length], h3⟩
    · have : (List.range ((8 * fileData.length + 99) / 100))[i]? = none := by
        rw [List.getElem?_eq_none]
        simp only [List.length_range]
        omega
      rw [this] at hf
      simp at hf

end Framing

section BitLists

open DataLinkLayer

/-- Two loops with steps that agree on the items of the list agree. -/
theorem foldl_congr_mem {α β : Type} (f g : β → α → β) (l : List α)
    (h : ∀ acc x, x ∈ l → f acc x = g acc x) (init : β) :
    l.foldl f init = l.foldl g init := by
  induction l generalizing init with
  | nil => rfl
  | cons x xs ih =>
    rw [List.foldl_cons, List.foldl_cons, h init x (List.mem_cons_self x xs)]
    exact ih (fun acc y hy => h acc y (List.mem_cons_of_mem x hy)) _

/-- Reading a list after one write. -/
theorem getD_set_eq {α : Type} (l : List α) (i k : Nat) (a d : α) :
    (l.set i a).getD k d = if i = k ∧ i < l.length then a else l.getD k d := by
  simp only [List.getD_eq_getElem?_getD, List.getElem?_set]
  by_cases h1 : i = k
  · subst h1
    by_cases h2 : i < l.length
    · simp [h2]
    · have : l[i]? = none := List.getElem?_eq_none (by omega)
      simp [h2, this]
  · simp [h1]

/-- A list is the table of its own entries. -/
theorem eq_map_range_getD {α : Type} (l : List α) (d : α) :
    l = (List.range l.length).map (fun k => l.getD k d) := by
  apply List.ext_getElem
  · simp
  · intro n h1 h2
    simp [List.getD_eq_getElem?_getD, List.getElem?_eq_getElem h1]

/-- Writing the entries `0 .. m - 1` of a list in order. -/
theorem foldl_set_range {α : Type} (g : Nat → α) (m : Nat) (l : List α) (hm : m ≤ l.length) :
    (List.range m).foldl (fun acc k => acc.set k (g k)) l = (List.range m).map g ++ l.drop m := by
  induction m with
  | zero => simp
  | succ m ih =>
    rw [List.range_succ, List.foldl_append, ih (by omega)]
    simp only [List.foldl_cons, List.foldl_nil, List.map_append, List.map_cons, List.map_nil]
    rw [List.set_append]
    have hlen : ((List.range m).map g).length = m := by simp
    rw [hlen, if_neg (by omega), Nat.sub_self]
    have hd : l.drop m = l.getD m (g m) :: l.drop (m + 1) := by
      rw [List.getD_eq_getElem?_getD, List.getElem?_eq_getElem (by omega)]
      simp
    rw [hd]
    simp

/-- The two nested loops over byte index and bit index visit the bit indices
`0 .. 8 n - 1` in order. -/
theorem foldl_nested_range {β : Type} (step : β → Nat → Nat → β) (n : Nat) (init : β) :
    (List.range n).foldl (fun acc i => (List.range 8).foldl (fun acc b => step acc i b) acc) init =
      (List.range (8 * n)).foldl (fun acc k => step acc (k / 8) (k % 8)) init := by
  induction n with
  | zero => simp
  | succ n ih =>
    rw [List.range_succ n, List.foldl_append, ih]
    have h8 : 8 * (n + 1) = 8 * n + 8 := by ring
    rw [h8, List.range_add, List.foldl_append, List.foldl_map]
    simp only [List.foldl_cons, List.foldl_nil]
    apply foldl_congr_mem
    intro acc b hb
    rw [List.mem_range] at hb
    have e1 : (8 * n + b) / 8 = n := by omega
    have e2 : (8 * n + b) % 8 = b := by omega
    rw [e1, e2]

/-- The mask test of `loadFile` reads one bit of the byte. -/
theorem and_shift_ne_zero (x m : Nat) : decide (x &&& (1 <<< m) ≠ 0) = x.testBit m := by
  rw [Nat.one_shiftLeft, Nat.and_two_pow]
  cases x.testBit m <;> simp

/-- The bit sequence of a byte sequence, entry by entry. -/
theorem bytesToBits_eq (bs : List UInt8) :
    bytesToBits bs = (List.range (8 * bs.length)).map (bitAt bs) := by
  induction bs with
  | nil => simp [bytesToBits]
  | cons b rest ih =>
    have h8 : 8 * (b :: rest).length = 8 + 8 * rest.length := by
      simp only [List.length_cons]; ring
    have hcons : bytesToBits (b :: rest) = byteBitsMsbFirst b ++ bytesToBits rest := by
      simp [bytesToBits]
    rw [h8, List.range_add, List.map_append, List.map_map, hcons, ih]
    refine congrArg₂ (fun a c => a ++ c) ?_ ?_
    · unfold byteBitsMsbFirst
      apply List.map_congr_left
      intro k hk
      rw [List.mem_range] at hk
      have e1 : k / 8 = 0 := by omega
      have e2 : k % 8 = k := by omega
      simp [bitAt, e1, e2]
    · apply List.map_congr_left
      intro k _
      have e1 : (8 + k) / 8 = k / 8 + 1 := by omega
      have e2 : (8 + k) % 8 = k % 8 := by omega
      simp [bitAt, e1, e2]

/-- The bit array built by `loadFile` is the bit sequence of the input, most
significant bit first per byte. -/
theorem fileBits_eq (fileData : List UInt8) : fileBits fileData = bytesToBits fileData := by
  unfold fileBits
  have hflat := foldl_nested_range
    (fun (bits : List Bool) i b =>
      bits.set (i * 8 + b) (decide ((fileData.getD i 0).toNat &&& (1 <<< (7 - b)) ≠ 0)))
    fileData.length (List.replicate (fileData.length * 8) false)
  beta_reduce at hflat
  rw [hflat]
  have hstep : ∀ (acc : List Bool) (k : Nat),
      acc.set (k / 8 * 8 + k % 8)
          (decide ((fileData.getD (k / 8) 0).toNat &&& (1 <<< (7 - k % 8)) ≠ 0)) =
        acc.set k (bitAt fileData k) := by
    intro acc k
    rw [Nat.div_add_mod' k 8, and_shift_ne_zero]
    rfl
  simp only [hstep]
  rw [foldl_set_range (bitAt fileData) (8 * fileData.length) _ (by simp; omega), bytesToBits_eq]
  simp
  omega

end BitLists

section Payloads

open DataLinkLayer

/-- Effect on the bit reading of one `frameData[byteIndex] |= (1 << bitIndex)`. -/
theorem bitAt_set_or (fd : List UInt8) (m j : Nat) (hm : m / 8 < fd.length) :
    bitAt (fd.set (m / 8) (UInt8.ofNat ((fd.getD (m / 8) 0).toNat ||| (1 <<< (7 - m % 8))))) j =
      (bitAt fd j || decide (j = m)) := by
  unfold bitAt
  rw [getD_set_eq]
  by_cases hj : m / 8 = j / 8
  · rw [if_pos ⟨hj, hm⟩]
    have hnat : ∀ n : Nat, (UInt8.ofNat n).toNat = n % 2 ^ 8 := fun n => rfl
    rw [hnat, Nat.testBit_mod_two_pow, Nat.testBit_lor, Nat.one_shiftLeft, Nat.testBit_two_pow,
      ← hj]
    have h7 : decide (7 - j % 8 < 8) = true := by
      apply decide_eq_true; omega
    have hd : decide (7 - m % 8 = 7 - j % 8) = decide (j = m) := by
      apply decide_eq_decide.mpr
      constructor <;> intro h <;> omega
    rw [h7, hd]
    simp
  · rw [if_neg (fun h => hj h.1)]
    have hd : decide (j = m) = false := by
      apply decide_eq_false
      intro h
      apply hj
      rw [h]
    rw [hd]
    simp

/-- One more iteration of the copy loop. -/
theorem fillFrameData_succ (bits : List Bool) (i r : Nat) :
    fillFrameData bits i (r + 1) =
      if bits.getD (i * frameBitSize + r) false then
        (fillFrameData bits i r).set (r / 8)
          (UInt8.ofNat (((fillFrameData bits i r).getD (r / 8) 0).toNat ||| (1 <<< (7 - r % 8))))
      else fillFrameData bits i r := by
  unfold fillFrameData
  rw [List.range_succ, List.foldl_append]
  rfl

/-- The payload of frame `i` after copying `r` bits: bit `j` is source bit
`100 i + j` for `j < r` and clear otherwise. -/
theorem bitAt_fillFrameData (bits : List Bool) (i r j : Nat) (hr : r ≤ 100) :
    bitAt (fillFrameData bits i r) j = (decide (j < r) && bits.getD (i * 100 + j) false) := by
  induction r with
  | zero =>
    have h0 : fillFrameData bits i 0 = List.replicate 13 0 := rfl
    rw [h0]
    unfold bitAt
    rw [List.getD_eq_getElem?_getD, List.getElem?_replicate]
    split <;> simp
  | succ r ih =>
    have ih := ih (by omega)
    rw [fillFrameData_succ]
    by_cases hb : bits.getD (i * frameBitSize + r) false = true
    · rw [if_pos hb, bitAt_set_or _ _ _ (by rw [fillFrameData_length]; omega), ih]
      by_cases hjr : j = r
      · subst hjr
        simp only [frameBitSize, List.getD_eq_getElem?_getD] at hb
        simp [hb]
      · by_cases hlt : j < r
        · have : j < r + 1 := by omega
          simp [hlt, this, hjr]
        · have : ¬ j < r + 1 := by omega
          simp [hlt, this, hjr]
    · rw [if_neg hb, ih]
      by_cases hjr : j = r
      · subst hjr
        simp only [frameBitSize, Bool.not_eq_true, List.getD_eq_getElem?_getD] at hb
        simp [hb]
      · by_cases hlt : j < r
        · have : j < r + 1 := by omega
          simp [hlt, this]
        · have : ¬ j < r + 1 := by omega
          simp [hlt, this]

/-- Bit `j` of the payload built for frame `i` is source bit `100 i + j`
(clear when the source has no such bit). -/
theorem bitAt_loadFrameBody (bits : List Bool) (i j : Nat) :
    bitAt (loadFrameBody bits i).1.data j =
      (decide (j < 100) && bits.getD (100 * i + j) false) := by
  rw [(loadFrameBody_shape bits i).2.1,
    bitAt_fillFrameData bits i _ j (by simp only [frameBitSize]; omega)]
  simp only [frameBitSize]
  have hcomm : i * 100 + j = 100 * i + j := by ring
  rw [hcomm]
  by_cases h1 : j < min 100 (bits.length - i * 100)
  · have h2 : j < 100 := by omega
    simp [h1, h2]
  · by_cases h2 : j < 100
    · have h3 : bits.length ≤ 100 * i + j := by omega
      have h4 : bits[100 * i + j]?.getD false = false := by
        rw [List.getElem?_eq_none h3]
        rfl
      simp [h4]
    · simp [h1, h2]

/-- Concatenating equal-sized chunks that tabulate consecutive stretches of a
function tabulates the function. -/
theorem flatMap_range_chunks {β : Type} (c : Nat) (F : Nat → List β) (g : Nat → β) (T : Nat)
    (h : ∀ i, i < T → F i = (List.range c).map (fun j => g (c * i + j))) :
    (List.range T).flatMap F = (List.range (c * T)).map g := by
  induction T with
  | zero => simp
  | succ T ih =>
    have hc : c * (T + 1) = c * T + c := by ring
    rw [List.range_succ, List.flatMap_append, ih (fun i hi => h i (by omega)), hc, List.range_add,
      List.map_append, List.map_map, List.flatMap_singleton, h T (by omega)]
    rfl

/-- The 104 bits of the payload built for frame `i`: 100 source bits, then
four clear bits. -/
theorem bytesToBits_loadFrameBody (bits : List Bool) (i : Nat) :
    (bytesToBits (loadFrameBody bits i).1.data).take 100 =
        (List.range 100).map (fun j => bits.getD (100 * i + j) false) ∧
    (bytesToBits (loadFrameBody bits i).1.data).drop 100 = [false, false, false, false] := by
  have hlen : (loadFrameBody bits i).1.data.length = 13 := by
    rw [(loadFrameBody_shape bits i).2.1, fillFrameData_length]
  have h104 : List.range (8 * 13) = List.range 100 ++ [100, 101, 102, 103] := by decide
  rw [bytesToBits_eq, hlen, h104, List.map_append]
  have hl : ((List.range 100).map (bitAt (loadFrameBody bits i).1.data)).length = 100 := by simp
  constructor
  · rw [List.take_append_of_le_length (by omega), List.take_of_length_le (by omega)]
    apply List.map_congr_left
    intro j hj
    rw [List.mem_range] at hj
    rw [bitAt_loadFrameBody]
    simp [hj]
  · rw [List.drop_append_of_le_length (by omega), List.drop_of_length_le (by omega)]
    simp [bitAt_loadFrameBody]

/-- The bits read back from the frames of `loadFile`: the source bits followed
by clear bits up to a multiple of 100. -/
theorem payloadBitStream_framingStep (fileData : List UInt8) :
    payloadBitStream (framingStep fileData).1 =
      (List.range (100 * ((8 * fileData.length + 99) / 100))).map
        (fun k => (bytesToBits fileData).getD k false) := by
  unfold payloadBitStream
  rw [framingStep_frames, List.flatMap_map, fileBits_eq]
  apply flatMap_range_chunks
  intro i _
  exact (bytesToBits_loadFrameBody (bytesToBits fileData) i).1

end Payloads

section LoadFile

open DataLinkLayer

/-- The frame at position `i` of the list stored by `loadFile`. -/
theorem loadFile_frames_getElem? (layer : DataLinkLayer) (filePath : String)
    (fileData : List UInt8) (i : Nat) (f : Frame)
    (hf : (loadFile layer filePath (some fileData)).2.1.frames[i]? = some f) :
    i < (8 * fileData.length + 99) / 100 ∧ f = (loadFrameBody (fileBits fileData) i).1 := by
  rw [loadFile_frames, framingStep_frames, List.getElem?_map] at hf
  by_cases hi : i < (8 * fileData.length + 99) / 100
  · rw [List.getElem?_range hi] at hf
    simp only [Option.map_some', Option.some.injEq] at hf
    exact ⟨hi, hf.symm⟩
  · have : (List.range ((8 * fileData.length + 99) / 100))[i]? = none := by
      rw [List.getElem?_eq_none]
      simp only [List.length_range]
      omega
    rw [this] at hf
    simp at hf

/-- The bit sequence of `n` bytes has `8 n` bits. -/
theorem bytesToBits_length (bs : List UInt8) : (bytesToBits bs).length = 8 * bs.length := by
  rw [bytesToBits_eq]
  simp

set_option maxRecDepth 100000 in
/-- C6: for every input of `n` bytes, reading the first 100 bits (most
significant bit first per byte) of each payload produced by `loadFile`,
concatenating them in frame order and keeping the first `8 n` bits gives the
input's bit sequence; every later bit of that stream is 0, and so are the 4
spare bits of each 13-byte payload. Thirteen bytes 0x41 give the payloads
41 x12, 40 and 10, 00 x12. -/
theorem C6_payload_bits_reconstruct_input (layer : DataLinkLayer) (filePath : String)
    (fileData : List UInt8) :
    ((payloadBitStream (DataLinkLayer.loadFile layer filePath (some fileData)).2.1.frames).take
        (8 * fileData.length) = bytesToBits fileData) ∧
    (∀ k : Nat, 8 * fileData.length ≤ k →
      (payloadBitStream (DataLinkLayer.loadFile layer filePath (some fileData)).2.1.frames).getD
        k false = false) ∧
    (∀ f : Frame, f ∈ (DataLinkLayer.loadFile layer filePath (some fileData)).2.1.frames →
      (bytesToBits f.data).drop 100 = [false, false, false, false]) ∧
    ((DataLinkLayer.loadFile layer filePath (some (List.replicate 13 0x41))).2.1.frames.map
        Frame.data =
      [[0x41, 0x41, 0x41, 0x41, 0x41, 0x41, 0x41, 0x41, 0x41, 0x41, 0x41, 0x41, 0x40],
       [0x10, 0, 0, 0, 0, 0, 0, 0, 0, 0, 0, 0, 0]]) := by
  refine ⟨?_, ?_, ?_, ?_⟩
  · rw [loadFile_frames, payloadBitStream_framingStep, ← List.map_take, List.take_range]
    have hmin : min (8 * fileData.length) (100 * ((8 * fileData.length + 99) / 100)) =
        (bytesToBits fileData).length := by
      rw [bytesToBits_length]
      omega
    rw [hmin]
    exact (eq_map_range_getD (bytesToBits fileData) false).symm
  · intro k hk
    rw [loadFile_frames, payloadBitStream_framingStep, List.getD_eq_getElem?_getD,
      List.getElem?_map]
    have hout : (bytesToBits fileData)[k]? = none :=
      List.getElem?_eq_none (by rw [bytesToBits_length]; exact hk)
    by_cases hr : k < 100 * ((8 * fileData.length + 99) / 100)
    · rw [List.getElem?_range hr]
      simp [List.getD_eq_getElem?_getD, hout]
    · have : (List.range (100 * ((8 * fileData.length + 99) / 100)))[k]? = none :=
        List.getElem?_eq_none (by simp only [List.length_range]; omega)
      rw [this]
      rfl
  · intro f hf
    rw [loadFile_frames, framingStep_frames, List.mem_map] at hf
    obtain ⟨i, _, rfl⟩ := hf
    exact (bytesToBits_loadFrameBody (fileBits fileData) i).2
  · rw [loadFile_frames]
    decide

set_option maxRecDepth 100000 in
/-- C7: a frame produced by `loadFile` has `getHasPadding() == true` exactly
when fewer than 100 source bits were available for it; only the final frame
can be padded, and a padded frame exists exactly when the number of input
bytes is not a multiple of 25. Thirteen bytes 0x41 give two frames, the first
unpadded and the second padded with 4 source bits. -/
theorem C7_padding_flag (layer : DataLinkLayer) (filePath : String) (fileData : List UInt8) :
    (∀ i : Nat, ∀ f : Frame,
      (DataLinkLayer.loadFile layer filePath (some fileData)).2.1.frames[i]? = some f →
        (f.hasPadding = true ↔ 8 * fileData.length - 100 * i < 100)) ∧
    (∀ i : Nat, ∀ f : Frame,
      (DataLinkLayer.loadFile layer filePath (some fileData)).2.1.frames[i]? = some f →
        f.hasPadding = true →
        i + 1 = (DataLinkLayer.loadFile layer filePath (some fileData)).2.1.frames.length) ∧
    ((∃ f : Frame, f ∈ (DataLinkLayer.loadFile layer filePath (some fileData)).2.1.frames ∧
        f.hasPadding = true) ↔ ¬ 25 ∣ fileData.length) ∧
    ((DataLinkLayer.loadFile layer filePath (some (List.replicate 13 0x41))).2.1.frames.map
        Frame.hasPadding = [false, true] ∧
      8 * (List.replicate 13 (0x41 : UInt8)).length - 100 * 1 = 4) := by
  have hpad : ∀ i : Nat, (loadFrameBody (fileBits fileData) i).1.hasPadding = true ↔
      8 * fileData.length - 100 * i < 100 := by
    intro i
    rw [(loadFrameBody_shape (fileBits fileData) i).2.2.2, fileBits_length]
    simp only [frameBitSize, decide_eq_true_eq]
    omega
  have hlen : (loadFile layer filePath (some fileData)).2.1.frames.length =
      (8 * fileData.length + 99) / 100 := by
    rw [loadFile_frames, framingStep_frames]
    simp
  refine ⟨?_, ?_, ?_, ?_, by decide⟩
  · intro i f hf
    obtain ⟨_, rfl⟩ := loadFile_frames_getElem? layer filePath fileData i f hf
    exact hpad i
  · intro i f hf hp
    obtain ⟨hi, rfl⟩ := loadFile_frames_getElem? layer filePath fileData i f hf
    rw [hlen]
    have := (hpad i).mp hp
    omega
  · constructor
    · rintro ⟨f, hf, hp⟩
      rw [loadFile_frames, framingStep_frames, List.mem_map] at hf
      obtain ⟨i, hi, rfl⟩ := hf
      rw [List.mem_range] at hi
      have := (hpad i).mp hp
      omega
    · intro hn
      refine ⟨(loadFrameBody (fileBits fileData) ((8 * fileData.length + 99) / 100 - 1)).1, ?_, ?_⟩
      · rw [loadFile_frames, framingStep_frames, List.mem_map]
        refine ⟨(8 * fileData.length + 99) / 100 - 1, ?_, rfl⟩
        rw [List.mem_range]
        omega
      · rw [hpad]
        omega
  · rw [loadFile_frames]
    decide

/-- A non-empty input gives at least one frame. -/
theorem loadFile_frames_length_pos (layer : DataLinkLayer) (filePath : String) (fileData : List UInt8)
    (hne : fileData ≠ []) :
    1 ≤ (loadFile layer filePath (some fileData)).2.1.frames.length := by
  rw [loadFile_frames, framingStep_frames]
  have : 0 < fileData.length := List.length_pos.mpr hne
  simp only [List.length_map, List.length_range]
  omega

/-- C8 (counterexample): on a readable file of zero bytes, `loadFile` on a
freshly constructed layer returns `true` and emits no `errorOccurred`, so it
does not report a load error. -/
theorem C8_empty_file_not_reported :
    ¬ ((DataLinkLayer.loadFile DataLinkLayer.new "empty.dat" (some [])).1 = false ∨
       ∃ msg : String, Event.errorOccurred msg ∈
         (DataLinkLayer.loadFile DataLinkLayer.new "empty.dat" (some [])).2.2) := by
  have hret : (DataLinkLayer.loadFile DataLinkLayer.new "empty.dat" (some [])).1 = true := rfl
  have hev : (DataLinkLayer.loadFile DataLinkLayer.new "empty.dat" (some [])).2.2 =
      [Event.statusUpdate "File loaded: 0 frames created"] := rfl
  rw [hret, hev]
  rintro (h | ⟨msg, hm⟩)
  · exact Bool.noConfusion h
  · simp at hm

/-- C8 (amended): `loadFile` returns `false` exactly when the file cannot be
opened, and then it emits `errorOccurred("Failed to open file")` and changes
nothing; on a readable file of zero bytes it returns `true`, stores no frame
and emits only the status "File loaded: 0 frames created"; on every non-empty
input it returns `true` and stores at least one frame. -/
theorem C8_load_result (layer : DataLinkLayer) (filePath : String) :
    (∀ contents : Option (List UInt8),
      (DataLinkLayer.loadFile layer filePath contents).1 = false ↔ contents = none) ∧
    (DataLinkLayer.loadFile layer filePath none =
      (false, layer, [Event.errorOccurred "Failed to open file"])) ∧
    ((DataLinkLayer.loadFile layer filePath (some [])).1 = true ∧
      (DataLinkLayer.loadFile layer filePath (some [])).2.1.frames = [] ∧
      (DataLinkLayer.loadFile layer filePath (some [])).2.2 =
        [Event.statusUpdate "File loaded: 0 frames created"]) ∧
    (∀ fileData : List UInt8, fileData ≠ [] →
      (DataLinkLayer.loadFile layer filePath (some fileData)).1 = true ∧
      1 ≤ (DataLinkLayer.loadFile layer filePath (some fileData)).2.1.frames.length) := by
  refine ⟨?_, rfl, ⟨rfl, rfl, rfl⟩, ?_⟩
  · intro contents
    cases contents <;> simp [loadFile]
  · intro fileData hne
    refine ⟨rfl, ?_⟩
    rw [loadFile_frames, framingStep_frames]
    have : 0 < fileData.length := List.length_pos.mpr hne
    simp only [List.length_map, List.length_range]
    omega

/-- C8 (witness): the one-byte input 0x41 is loaded with result `true` and one
frame. -/
theorem C8_load_result_witness :
    (DataLinkLayer.loadFile DataLinkLayer.new "a.dat" (some [0x41])).1 = true ∧
    1 ≤ (DataLinkLayer.loadFile DataLinkLayer.new "a.dat" (some [0x41])).2.1.frames.length :=
  (C8_load_result DataLinkLayer.new "a.dat").2.2.2 [0x41] (by decide)

end LoadFile

section ErrorMap

open Frame

/-- Looking up a key after every entry of `k` has been replaced. -/
theorem mapLookup_map_replace (m : List (String × String)) (k v key : String) :
    mapLookup (m.map (fun e => if e.1 = k then (k, v) else e)) key =
      if k = key then (if m.any (fun e => decide (e.1 = k)) then some v else none)
      else mapLookup m key := by
  induction m with
  | nil => simp [mapLookup]
  | cons e rest ih =>
    simp only [List.map_cons, mapLookup, List.any_cons, ih]
    by_cases h1 : e.1 = k
    · by_cases h2 : k = key
      · simp [h1, h2]
      · have h3 : ¬ e.1 = key := fun h => h2 (h1 ▸ h)
        simp [h1, h2, h3]
    · by_cases h2 : k = key
      · subst h2
        simp only [h1, if_false, if_true, decide_False, Bool.false_or]
      · simp [h1, h2]

/-- Looking up a key after one entry has been appended. -/
theorem mapLookup_append_single (m : List (String × String)) (k v key : String) :
    mapLookup (m ++ [(k, v)]) key =
      match mapLookup m key with
      | some x => some x
      | none => if k = key then some v else none := by
  induction m with
  | nil => simp [mapLookup]
  | cons e rest ih =>
    simp only [List.cons_append, mapLookup]
    by_cases h1 : e.1 = key
    · simp [h1]
    · simp only [h1, if_false]
      exact ih

/-- A key held by no entry is not found. -/
theorem mapLookup_eq_none_of_any_false (m : List (String × String)) (k : String)
    (h : m.any (fun e => decide (e.1 = k)) = false) : mapLookup m k = none := by
  induction m with
  | nil => rfl
  | cons e rest ih =>
    simp only [List.any_cons, Bool.or_eq_false_iff, decide_eq_false_iff_not] at h
    simp only [mapLookup, h.1, if_false]
    exact ih h.2

/-- The assignment `map[k] = v` sets the value of `k` and keeps every other
entry. -/
theorem mapLookup_mapInsert (m : List (String × String)) (k v key : String) :
    mapLookup (mapInsert m k v) key = if k = key then some v else mapLookup m key := by
  unfold mapInsert
  by_cases hany : m.any (fun e => decide (e.1 = k)) = true
  · rw [if_pos hany, mapLookup_map_replace, hany]
    rfl
  · rw [if_neg hany, mapLookup_append_single]
    rw [Bool.not_eq_true] at hany
    by_cases hk : k = key
    · subst hk
      rw [mapLookup_eq_none_of_any_false m k hany]
    · simp only [hk, if_false]
      cases mapLookup m key <;> rfl

/-- The description read after `addErrorInfo`. -/
theorem errorDescription_addErrorInfo (f : Frame) (k v key : String) :
    (f.addErrorInfo k v).errorDescription key =
      if k = key then some v else f.errorDescription key := by
  unfold Frame.addErrorInfo Frame.errorDescription
  exact mapLookup_mapInsert f.errorInfo k v key

end ErrorMap

section RetryLoop

open DataLinkWorker

/-- One pass through the loop body from a state that is not yet acked: either
the pass ends acked with `retryCount` unchanged, or it ends in one of the
three failures with `retryCount` increased by one; in both cases one outcome
is logged, and the entry "Transmission Failed" of the error map is not
touched. -/
theorem attempt_step (rng : Nat → ℚ) (st : RetryState) (h0 : st.acked = false) :
    (∃ o : AttemptOutcome, (attempt rng st).attempts = st.attempts ++ [o] ∧
      ((o = AttemptOutcome.acked ∧ (attempt rng st).acked = true ∧
          (attempt rng st).retryCount = st.retryCount) ∨
       (o ≠ AttemptOutcome.acked ∧ (attempt rng st).acked = false ∧
          (attempt rng st).retryCount = st.retryCount + 1))) ∧
    (attempt rng st).frame.errorDescription "Transmission Failed" =
      st.frame.errorDescription "Transmission Failed" ∧
    (attempt rng st).frame.frameNumber = st.frame.frameNumber := by
  have hbase : ∀ d : List UInt8, (st.frame.calculateCRC.setData d).errorDescription
      "Transmission Failed" = st.frame.errorDescription "Transmission Failed" := fun _ => rfl
  unfold attempt
  dsimp only
  split_ifs with hl hc ha
  · refine ⟨⟨AttemptOutcome.lost, rfl, Or.inr ⟨by decide, h0, rfl⟩⟩, ?_, rfl⟩
    rw [errorDescription_addErrorInfo, if_neg (by decide)]
    rfl
  · refine ⟨⟨AttemptOutcome.corrupted, rfl, Or.inr ⟨by decide, h0, rfl⟩⟩, ?_, rfl⟩
    rw [errorDescription_addErrorInfo, if_neg (by decide)]
    rfl
  · refine ⟨⟨AttemptOutcome.ackLost, rfl, Or.inr ⟨by decide, h0, rfl⟩⟩, ?_, rfl⟩
    rw [errorDescription_addErrorInfo, if_neg (by decide)]
    rfl
  · exact ⟨⟨AttemptOutcome.acked, rfl, Or.inl ⟨rfl, rfl, rfl⟩⟩, rfl, rfl⟩

/-- The retry loop run to its exit from a consistent state: it leaves the
loop (`acked` or `retryCount = MAX_RETRIES`), the log has one non-acked entry
per retry counted, followed by one acked entry exactly when `acked` is set, and
the entry "Transmission Failed" of the error map is not touched. -/
theorem retryLoop_spec (rng : Nat → ℚ) (st : RetryState)
    (hrc : st.retryCount ≤ MAX_RETRIES)
    (hun : st.acked = false → st.attempts.length = st.retryCount ∧
      ∀ a ∈ st.attempts, a ≠ AttemptOutcome.acked)
    (hak : st.acked = true → st.retryCount < MAX_RETRIES ∧
      ∃ init : List AttemptOutcome, st.attempts = init ++ [AttemptOutcome.acked] ∧
        init.length = st.retryCount ∧ ∀ a ∈ init, a ≠ AttemptOutcome.acked) :
    ((retryLoop rng st).acked = true ∨ (retryLoop rng st).retryCount = MAX_RETRIES) ∧
    ((retryLoop rng st).acked = false → (retryLoop rng st).attempts.length = MAX_RETRIES ∧
      ∀ a ∈ (retryLoop rng st).attempts, a ≠ AttemptOutcome.acked) ∧
    ((retryLoop rng st).acked = true → ∃ init : List AttemptOutcome,
      (retryLoop rng st).attempts = init ++ [AttemptOutcome.acked] ∧
        init.length < MAX_RETRIES ∧ ∀ a ∈ init, a ≠ AttemptOutcome.acked) ∧
    (retryLoop rng st).frame.errorDescription "Transmission Failed" =
      st.frame.errorDescription "Transmission Failed" ∧
    (retryLoop rng st).frame.frameNumber = st.frame.frameNumber := by
  induction st using retryLoop.induct rng with
  | case1 st hg ih =>
    rw [retryLoop, dif_pos hg]
    simp only [Bool.and_eq_true, Bool.not_eq_true', decide_eq_true_eq] at hg
    obtain ⟨hacked, hlt⟩ := hg
    obtain ⟨⟨o, hlog, hcase⟩, herr, hnum⟩ := attempt_step rng st hacked
    obtain ⟨hlen, hall⟩ := hun hacked
    have key := ih
      (by rcases hcase with ⟨_, _, h⟩ | ⟨_, _, h⟩ <;> rw [h] <;> omega)
      (by
        intro hf
        rcases hcase with ⟨_, h, _⟩ | ⟨ho, _, h⟩
        · rw [h] at hf; exact Bool.noConfusion hf
        · rw [hlog, h]
          refine ⟨by simp [hlen], ?_⟩
          intro a ha
          rw [List.mem_append, List.mem_singleton] at ha
          rcases ha with ha | ha
          · exact hall a ha
          · rw [ha]; exact ho)
      (by
        intro ht
        rcases hcase with ⟨ho, _, h⟩ | ⟨_, h, _⟩
        · rw [h]
          exact ⟨hlt, st.attempts, by rw [hlog, ho], hlen, hall⟩
        · rw [h] at ht; exact Bool.noConfusion ht)
    obtain ⟨k1, k2, k3, k4, k5⟩ := key
    exact ⟨k1, k2, k3, k4.trans herr, k5.trans hnum⟩
  | case2 st hg =>
    rw [retryLoop, dif_neg hg]
    simp only [Bool.and_eq_true, Bool.not_eq_true', decide_eq_true_eq, not_and, not_lt] at hg
    refine ⟨?_, ?_, ?_, rfl, rfl⟩
    · by_cases ha : st.acked = true
      · exact Or.inl ha
      · rw [Bool.not_eq_true] at ha
        exact Or.inr (Nat.le_antisymm hrc (hg ha))
    · intro ha
      obtain ⟨hlen, hall⟩ := hun ha
      exact ⟨by rw [hlen]; exact Nat.le_antisymm hrc (hg ha), hall⟩
    · intro ha
      obtain ⟨hlt, init, h1, h2, h3⟩ := hak ha
      exact ⟨init, h1, by rw [h2]; exact hlt, h3⟩

end RetryLoop

section ProcessFrame

open DataLinkWorker

/-- The handling of one frame by `process`, in terms of the exit state of its
retry loop. -/
theorem processFrame_spec (rng : Nat → ℚ) (frame : Frame) (pos : Nat) :
    (processFrame rng frame pos).failed = !(processFrame rng frame pos).acked ∧
    ((processFrame rng frame pos).acked = false →
      (processFrame rng frame pos).attempts.length = MAX_RETRIES ∧
      (∀ a ∈ (processFrame rng frame pos).attempts, a ≠ AttemptOutcome.acked) ∧
      (processFrame rng frame pos).frame.errorDescription "Transmission Failed" =
        some "Maximum retry attempts (3) reached") ∧
    ((processFrame rng frame pos).acked = true →
      (∃ init : List AttemptOutcome,
        (processFrame rng frame pos).attempts = init ++ [AttemptOutcome.acked] ∧
        init.length < MAX_RETRIES ∧ ∀ a ∈ init, a ≠ AttemptOutcome.acked) ∧
      (processFrame rng frame pos).frame.errorDescription "Transmission Failed" =
        frame.errorDescription "Transmission Failed") ∧
    (processFrame rng frame pos).frame.frameNumber = frame.frameNumber := by
  obtain ⟨_, k2, k3, k4, k5⟩ := retryLoop_spec rng
    { frame := frame, retryCount := 0, acked := false, pos := pos, events := [], attempts := [] }
    (Nat.zero_le _) (fun _ => ⟨rfl, fun a ha => by simp at ha⟩)
    (fun h => Bool.noConfusion h)
  unfold processFrame
  dsimp only
  by_cases hacked : (retryLoop rng
    { frame := frame, retryCount := 0, acked := false, pos := pos, events := [],
      attempts := [] }).acked = true
  · have hcond : ¬ ((!(retryLoop rng
        { frame := frame, retryCount := 0, acked := false, pos := pos, events := [],
          attempts := [] }).acked) = true) := by
      rw [hacked]; decide
    simp only [if_neg hcond]
    refine ⟨?_, ?_, ?_, k5⟩
    · show false = !(retryLoop rng _).acked
      rw [hacked]; rfl
    · intro h
      have h' : (retryLoop rng _).acked = false := h
      rw [hacked] at h'
      exact Bool.noConfusion h'
    · intro _
      exact ⟨k3 hacked, k4⟩
  · rw [Bool.not_eq_true] at hacked
    have hcond : (!(retryLoop rng
        { frame := frame, retryCount := 0, acked := false, pos := pos, events := [],
          attempts := [] }).acked) = true := by
      rw [hacked]; rfl
    simp only [if_pos hcond]
    refine ⟨?_, ?_, ?_, k5⟩
    · show true = !(retryLoop rng _).acked
      rw [hacked]; rfl
    · intro _
      refine ⟨(k2 hacked).1, (k2 hacked).2, ?_⟩
      rw [errorDescription_addErrorInfo, if_pos rfl]
      rfl
    · intro h
      have h' : (retryLoop rng _).acked = true := h
      rw [hacked] at h'
      exact Bool.noConfusion h'

end ProcessFrame

section ProcessRun

open DataLinkWorker

/-- The frame loop of `process` when no interruption is read: it is not left
early, and it appends one run per frame, each the handling of that frame from
some position of the random sequence. -/
theorem processFrames_uncancelled (rng : Nat → ℚ) (interrupted : Nat → Bool)
    (frames : List Frame) (frameCount : Nat) (acc : LoopResult)
    (hrun : ∀ k, k < frames.length → interrupted (frameCount + k) = false) :
    (processFrames rng interrupted frames frameCount acc).cancelled = acc.cancelled ∧
    ∃ news : List FrameRun,
      (processFrames rng interrupted frames frameCount acc).runs = acc.runs ++ news ∧
      news.length = frames.length ∧
      ∀ (i : Nat) (f : Frame) (run : FrameRun), frames[i]? = some f → news[i]? = some run →
        ∃ p, run = processFrame rng f p := by
  induction frames generalizing frameCount acc with
  | nil => exact ⟨rfl, [], by simp [processFrames], rfl, fun i f run hf => by simp at hf⟩
  | cons frame rest ih =>
    have h0 : interrupted frameCount = false := by
      have := hrun 0 (by simp)
      simpa using this
    have hrest : ∀ k, k < rest.length → interrupted (frameCount + 1 + k) = false := by
      intro k hk
      have := hrun (k + 1) (by simp; omega)
      rw [show frameCount + 1 + k = frameCount + (k + 1) by omega]
      exact this
    obtain ⟨hc, news, hruns, hlen, hall⟩ := ih (frameCount + 1)
      { acc with
        runs := acc.runs ++ [processFrame rng frame acc.pos]
        events := acc.events ++ (processFrame rng frame acc.pos).events
        pos := (processFrame rng frame acc.pos).pos } hrest
    have hunf : processFrames rng interrupted (frame :: rest) frameCount acc =
        processFrames rng interrupted rest (frameCount + 1)
          { acc with
            runs := acc.runs ++ [processFrame rng frame acc.pos]
            events := acc.events ++ (processFrame rng frame acc.pos).events
            pos := (processFrame rng frame acc.pos).pos } := by
      rw [processFrames]
      simp only [h0, Bool.false_eq_true, if_false]
    rw [hunf]
    refine ⟨hc, processFrame rng frame acc.pos :: news, ?_, by simp [hlen], ?_⟩
    · rw [hruns]; simp
    · intro i f run hf hr
      cases i with
      | zero =>
        simp only [List.getElem?_cons_zero, Option.some.injEq] at hf hr
        exact ⟨acc.pos, by rw [← hr, ← hf]⟩
      | succ i =>
        simp only [List.getElem?_cons_succ] at hf hr
        exact hall i f run hf hr

/-- When every run is either acked or failed, the two counts add up to the
number of runs. -/
theorem countP_acked_add_failed (runs : List FrameRun)
    (h : ∀ run ∈ runs, run.failed = !run.acked) :
    runs.countP (fun run => run.acked) + runs.countP (fun run => run.failed) = runs.length := by
  induction runs with
  | nil => rfl
  | cons run rest ih =>
    have hr := h run (List.mem_cons_self run rest)
    have ih := ih (fun r hr => h r (List.mem_cons_of_mem run hr))
    rw [List.countP_cons, List.countP_cons, List.length_cons, hr]
    cases run.acked <;> simp <;> omega

end ProcessRun

section PolynomialCrc

open MainFrame Polynomial

/-- Reading a bit after the assignment `bits[k] = v`. -/
theorem testBit_bitsetAssign (bits k : Nat) (v : Bool) (m : Nat) :
    (bitsetAssign bits k v).testBit m = if m = k then v else bits.testBit m := by
  unfold bitsetAssign
  by_cases h : bits.testBit k = v
  · rw [if_pos h]
    by_cases hm : m = k
    · rw [if_pos hm, hm, h]
    · rw [if_neg hm]
  · rw [if_neg h, Nat.testBit_xor, Nat.one_shiftLeft, Nat.testBit_two_pow]
    by_cases hm : m = k
    · subst hm
      simp only [decide_True, Bool.xor_true, if_true]
      cases hb : bits.testBit m <;> cases v <;> simp_all
    · have hk : ¬ k = m := fun hkm => hm hkm.symm
      simp [hm, hk]

/-- The assignment `bits[k] = bits[k] ^ p` toggles bit `k` when `p` is set. -/
theorem bitsetAssign_xor (bits k : Nat) (p : Bool) :
    bitsetAssign bits k (xor (bits.testBit k) p) = if p then bits ^^^ (1 <<< k) else bits := by
  unfold bitsetAssign
  cases p <;> cases bits.testBit k <;> simp

/-- The bits of the 17-bit pattern built from `CRC_POLY`: bits 0, 5 and 12;
bit 16 is clear. -/
theorem testBit_poly (m : Nat) :
    (bitsetOfValue 17 CRC_POLY).testBit m = (decide (m = 0) || decide (m = 5) || decide (m = 12)) := by
  by_cases h : m < 17
  · have hall : ∀ k : Nat, k < 17 → (bitsetOfValue 17 CRC_POLY).testBit k =
        (decide (k = 0) || decide (k = 5) || decide (k = 12)) := by decide
    exact hall m h
  · have h1 : (bitsetOfValue 17 CRC_POLY).testBit m = false :=
      Nat.testBit_lt_two_pow (Nat.lt_of_lt_of_le (by decide : bitsetOfValue 17 CRC_POLY < 2 ^ 17)
        (Nat.pow_le_pow_right (by decide) (by omega)))
    rw [h1]
    have e0 : ¬ m = 0 := by omega
    have e5 : ¬ m = 5 := by omega
    have e12 : ¬ m = 12 := by omega
    simp [e0, e5, e12]

/-- The inner loop at position `i` toggles the bits `i - 4`, `i - 11` and
`i - 16`, and leaves bit `i` as it is. -/
theorem xorPolyAt_eq (bits i : Nat) :
    xorPolyAt (bitsetOfValue 17 CRC_POLY) bits i =
      bits ^^^ (1 <<< (i - 4)) ^^^ (1 <<< (i - 11)) ^^^ (1 <<< (i - 16)) := by
  unfold xorPolyAt
  have hr : List.range 17 = [0, 1, 2, 3, 4, 5, 6, 7, 8, 9, 10, 11, 12, 13, 14, 15, 16] := by
    decide
  rw [hr]
  simp [bitsetAssign_xor, testBit_poly]

/-- Bits of the state after one iteration of the outer loop at position `i`. -/
theorem testBit_divisionStep (bits i m : Nat) (hi : 16 ≤ i) :
    (if bits.testBit i then xorPolyAt (bitsetOfValue 17 CRC_POLY) bits i else bits).testBit m =
      (bits.testBit m ^^
        (bits.testBit i && (decide (m + 4 = i) || decide (m + 11 = i) || decide (m + 16 = i)))) := by
  by_cases hb : bits.testBit i = true
  · rw [if_pos hb, xorPolyAt_eq, hb]
    simp only [Nat.testBit_xor, Nat.one_shiftLeft, Nat.testBit_two_pow, Bool.true_and]
    have e1 : decide (i - 4 = m) = decide (m + 4 = i) := by
      apply decide_eq_decide.mpr; omega
    have e2 : decide (i - 11 = m) = decide (m + 11 = i) := by
      apply decide_eq_decide.mpr; omega
    have e3 : decide (i - 16 = m) = decide (m + 16 = i) := by
      apply decide_eq_decide.mpr; omega
    rw [e1, e2, e3]
    by_cases c1 : m + 4 = i
    · have c2 : ¬ m + 11 = i := by omega
      have c3 : ¬ m + 16 = i := by omega
      simp [c1, c2, c3]
    · by_cases c2 : m + 11 = i
      · have c3 : ¬ m + 16 = i := by omega
        simp [c1, c2, c3]
      · by_cases c3 : m + 16 = i <;> simp [c1, c2, c3]
  · rw [Bool.not_eq_true] at hb
    simp [hb]

/-- Invariant of the outer loop after `n` iterations on the initial bits `D`:
there is a quotient `q` (bit `i - 16` records whether the iteration at `i`
found its bit set) such that the state is `D` plus `q` times `x^12 + x^5 + 1`,
the bits already visited are the bits of `q` moved up by 16, and `q` has
degree below 100 and no bit for an iteration still to come. -/
theorem divisionLoop_invariant (D n : Nat) (hn : n ≤ 100) :
    ∃ q : Nat,
      (∀ m, ((List.range n).foldl
          (fun bits k =>
            let i := 115 - k
            if bits.testBit i then xorPolyAt (bitsetOfValue 17 CRC_POLY) bits i else bits)
          D).testBit m =
        xor (xor (xor (D.testBit m) (decide (12 ≤ m) && q.testBit (m - 12)))
          (decide (5 ≤ m) && q.testBit (m - 5))) (q.testBit m)) ∧
      (∀ k, 115 < k + n → k ≤ 115 → ((List.range n).foldl
          (fun bits k =>
            let i := 115 - k
            if bits.testBit i then xorPolyAt (bitsetOfValue 17 CRC_POLY) bits i else bits)
          D).testBit k = q.testBit (k - 16)) ∧
      (∀ m, m + 16 + n ≤ 115 → q.testBit m = false) ∧
      (∀ m, 100 ≤ m → q.testBit m = false) := by
  induction n with
  | zero =>
    refine ⟨0, ?_, ?_, ?_, ?_⟩
    · intro m; simp
    · intro k h1 h2; omega
    · intro m _; simp
    · intro m _; simp
  | succ n ih =>
    obtain ⟨q, ha, hb, hc, hd⟩ := ih (by omega)
    rw [List.range_succ, List.foldl_append]
    simp only [List.foldl_cons, List.foldl_nil]
    generalize (List.range n).foldl
      (fun bits k =>
        let i := 115 - k
        if bits.testBit i then xorPolyAt (bitsetOfValue 17 CRC_POLY) bits i else bits) D = B
      at ha hb ⊢
    have hi : 16 ≤ 115 - n := by omega
    have hq0 : q.testBit (115 - n - 16) = false := hc _ (by omega)
    by_cases hbit : B.testBit (115 - n) = true
    · refine ⟨q ^^^ (1 <<< (115 - n - 16)), ?_, ?_, ?_, ?_⟩
      · intro m
        rw [testBit_divisionStep B (115 - n) m hi, hbit, ha m]
        simp only [Nat.testBit_xor, Nat.one_shiftLeft, Nat.testBit_two_pow, Bool.true_and,
          Bool.and_xor_distrib_left]
        have e1 : (decide (12 ≤ m) && decide (115 - n - 16 = m - 12)) =
            decide (m + 4 = 115 - n) := by
          rw [Bool.eq_iff_iff]
          simp only [Bool.and_eq_true, decide_eq_true_eq]
          omega
        have e2 : (decide (5 ≤ m) && decide (115 - n - 16 = m - 5)) =
            decide (m + 11 = 115 - n) := by
          rw [Bool.eq_iff_iff]
          simp only [Bool.and_eq_true, decide_eq_true_eq]
          omega
        have e3 : decide (115 - n - 16 = m) = decide (m + 16 = 115 - n) := by
          apply decide_eq_decide.mpr; omega
        rw [e1, e2, e3]
        generalize D.testBit m = x1
        generalize (decide (12 ≤ m) && q.testBit (m - 12)) = x2
        generalize (decide (5 ≤ m) && q.testBit (m - 5)) = x3
        generalize q.testBit m = x4
        by_cases c1 : m + 4 = 115 - n
        · have c2 : ¬ m + 11 = 115 - n := by omega
          have c3 : ¬ m + 16 = 115 - n := by omega
          simp only [c1, c2, c3, decide_True, decide_False]
          cases x1 <;> cases x2 <;> cases x3 <;> cases x4 <;> rfl
        · by_cases c2 : m + 11 = 115 - n
          · have c3 : ¬ m + 16 = 115 - n := by omega
            simp only [c1, c2, c3, decide_True, decide_False]
            cases x1 <;> cases x2 <;> cases x3 <;> cases x4 <;> rfl
          · by_cases c3 : m + 16 = 115 - n
            · simp only [c1, c2, c3, decide_True, decide_False]
              cases x1 <;> cases x2 <;> cases x3 <;> cases x4 <;> rfl
            · simp only [c1, c2, c3, decide_True, decide_False]
              cases x1 <;> cases x2 <;> cases x3 <;> cases x4 <;> rfl
      · intro k h1 h2
        rw [testBit_divisionStep B (115 - n) k hi]
        have c1 : ¬ k + 4 = 115 - n := by omega
        have c2 : ¬ k + 11 = 115 - n := by omega
        have c3 : ¬ k + 16 = 115 - n := by omega
        simp only [c1, c2, c3, decide_False, Bool.or_self, Bool.and_false, Bool.xor_false,
          Nat.testBit_xor, Nat.one_shiftLeft, Nat.testBit_two_pow]
        by_cases hk : k = 115 - n
        · subst hk
          rw [hbit, hq0]
          simp
        · have hne : ¬ 115 - n - 16 = k - 16 := by omega
          rw [hb k (by omega) h2]
          simp [hne]
      · intro m hm
        rw [Nat.testBit_xor, Nat.one_shiftLeft, Nat.testBit_two_pow, hc m (by omega)]
        have hne : ¬ 115 - n - 16 = m := by omega
        simp [hne]
      · intro m hm
        rw [Nat.testBit_xor, Nat.one_shiftLeft, Nat.testBit_two_pow, hd m hm]
        have hne : ¬ 115 - n - 16 = m := by omega
        simp [hne]
    · rw [Bool.not_eq_true] at hbit
      refine ⟨q, ?_, ?_, ?_, hd⟩
      · intro m
        rw [testBit_divisionStep B (115 - n) m hi, hbit, ha m]
        simp
      · intro k h1 h2
        rw [testBit_divisionStep B (115 - n) k hi, hbit]
        simp only [Bool.false_and, Bool.xor_false]
        by_cases hk : k = 115 - n
        · subst hk
          rw [hbit, hq0]
        · exact hb k (by omega) h2
      · intro m hm
        exact hc m (by omega)

/-- The loop that copies the low 16 bits keeps exactly these bits. -/
theorem lowSixteen_eq (bits : Nat) : lowSixteen bits = bits % 2 ^ 16 := by
  have key : ∀ n : Nat, (List.range n).foldl
      (fun crc i => bitsetAssign crc i (bits.testBit i)) 0 = bits % 2 ^ n := by
    intro n
    induction n with
    | zero => simp [Nat.mod_one]
    | succ n ih =>
      rw [List.range_succ, List.foldl_append, ih]
      simp only [List.foldl_cons, List.foldl_nil]
      apply Nat.eq_of_testBit_eq
      intro m
      rw [testBit_bitsetAssign, Nat.testBit_mod_two_pow, Nat.testBit_mod_two_pow]
      by_cases hm : m = n
      · subst hm; simp
      · by_cases hlt : m < n
        · have : m < n + 1 := by omega
          simp [hm, hlt, this]
        · have : ¬ m < n + 1 := by omega
          simp [hm, hlt, this]
  exact key 16

/-- Reading binary digits onto an accumulator shifts the accumulator past
them. -/
theorem foldl_binary_eq (t : List Char) (acc : Nat) :
    t.foldl (fun acc c => 2 * acc + (if c = '1' then 1 else 0)) acc =
      acc * 2 ^ t.length + binaryValue t := by
  induction t generalizing acc with
  | nil => simp [binaryValue]
  | cons c r ih =>
    unfold binaryValue
    rw [List.foldl_cons, List.foldl_cons, ih, ih (2 * 0 + (if c = '1' then 1 else 0))]
    unfold binaryValue
    rw [List.length_cons, pow_succ]
    ring

/-- A string of `n` binary digits writes a number below `2 ^ n`. -/
theorem binaryValue_lt (s : List Char) : binaryValue s < 2 ^ s.length := by
  induction s with
  | nil => simp [binaryValue]
  | cons c r ih =>
    have h := foldl_binary_eq r (2 * 0 + (if c = '1' then 1 else 0))
    have hb : (if c = '1' then 1 else 0) ≤ 1 := by split <;> omega
    unfold binaryValue at h ⊢
    rw [List.foldl_cons, h, List.length_cons, pow_succ]
    unfold binaryValue at ih
    have hpos : 0 < 2 ^ r.length := Nat.two_pow_pos _
    have : (2 * 0 + (if c = '1' then 1 else 0)) * 2 ^ r.length ≤ 1 * 2 ^ r.length :=
      Nat.mul_le_mul_right _ (by omega)
    omega

/-- The number written by `to_string()` of a bitset is the bitset. -/
theorem binaryValue_bitsetToString (w c : Nat) :
    binaryValue (bitsetToString w c) = c % 2 ^ w := by
  induction w with
  | zero => simp [bitsetToString, binaryValue, Nat.mod_one]
  | succ w ih =>
    have hcons : bitsetToString (w + 1) c =
        (if c.testBit w then '1' else '0') :: bitsetToString w c := by
      unfold bitsetToString
      rw [List.range_succ_eq_map, List.map_cons, List.map_map]
      refine congrArg₂ List.cons (by simp) ?_
      apply List.map_congr_left
      intro k _
      have : w + 1 - 1 - k.succ = w - 1 - k := by omega
      simp only [Function.comp, this]
    have hlen : (bitsetToString w c).length = w := by simp [bitsetToString]
    rw [hcons]
    unfold binaryValue
    rw [List.foldl_cons, foldl_binary_eq, ih, hlen, pow_succ, Nat.mod_mul]
    have hbit : (if (if c.testBit w then '1' else '0') = '1' then 1 else 0) = c / 2 ^ w % 2 := by
      rw [Nat.testBit_to_div_mod]
      by_cases h : c / 2 ^ w % 2 = 1
      · simp [h]
      · have h0 : c / 2 ^ w % 2 = 0 := by omega
        simp [h0]
    rw [hbit]
    ring

/-- Addition in GF(2) is exclusive or. -/
theorem bitCoeff_xor (a b : Bool) : bitCoeff (xor a b) = bitCoeff a + bitCoeff b := by
  cases a <;> cases b <;> decide

/-- The coefficients of the polynomial written by a digit string are the
binary digits of the number it writes. -/
theorem coeff_bitStringPoly (s : List Char) (k : Nat) :
    (s.foldl (fun p c => p * X + (if c = '1' then 1 else 0)) (0 : Polynomial (ZMod 2))).coeff k =
      bitCoeff ((binaryValue s).testBit k) := by
  have key : ∀ (t : List Char) (p : Polynomial (ZMod 2)) (n : Nat),
      (∀ k, p.coeff k = bitCoeff (n.testBit k)) →
      ∀ k, (t.foldl (fun p c => p * X + (if c = '1' then 1 else 0)) p).coeff k =
        bitCoeff ((t.foldl (fun acc c => 2 * acc + (if c = '1' then 1 else 0)) n).testBit k) := by
    intro t
    induction t with
    | nil => intro p n h k; exact h k
    | cons c r ih =>
      intro p n h
      rw [List.foldl_cons, List.foldl_cons]
      apply ih
      intro k
      cases k with
      | zero =>
        rw [coeff_add, coeff_mul_X_zero, zero_add, Nat.testBit_zero]
        by_cases hc : c = '1'
        · have : (2 * n + 1) % 2 = 1 := by omega
          simp [hc, this, bitCoeff]
        · have : ¬ (2 * n + 0) % 2 = 1 := by omega
          simp [hc, this, bitCoeff]
      | succ m =>
        rw [coeff_add, coeff_mul_X, Nat.testBit_succ, h m]
        have hdiv : (2 * n + (if c = '1' then 1 else 0)) / 2 = n := by
          split <;> omega
        rw [hdiv]
        by_cases hc : c = '1'
        · simp [hc, coeff_one]
        · simp [hc]
  unfold binaryValue
  apply key
  intro k
  simp [bitCoeff]

/-- A number below `2 ^ 100` is the coefficient vector of a polynomial over
GF(2). -/
theorem exists_poly_of_bits (q : Nat) (hq : ∀ m, 100 ≤ m → q.testBit m = false) :
    ∃ p : Polynomial (ZMod 2), ∀ k, p.coeff k = bitCoeff (q.testBit k) := by
  refine ⟨∑ j in Finset.range 100, C (bitCoeff (q.testBit j)) * X ^ j, ?_⟩
  intro k
  rw [finset_sum_coeff]
  simp only [coeff_C_mul_X_pow]
  rw [Finset.sum_ite_eq]
  by_cases hk : k < 100
  · simp [hk]
  · rw [if_neg (by simpa using hk), hq k (by omega)]
    rfl

/-- A masked bit as an element of GF(2). -/
theorem bitCoeff_decide_and (p : Prop) [Decidable p] (b : Bool) :
    bitCoeff (decide p && b) = if p then bitCoeff b else 0 := by
  by_cases h : p <;> simp [h, bitCoeff]

/-- The generator polynomial is monic of degree 16. -/
theorem crcGenerator_monic :
    (X ^ 16 + X ^ 12 + X ^ 5 + 1 : Polynomial (ZMod 2)).Monic ∧
    (X ^ 16 + X ^ 12 + X ^ 5 + 1 : Polynomial (ZMod 2)).degree = 16 := by
  constructor
  · monicity!
  · compute_degree!

/-- The coefficients of the product of the generator polynomial with a
polynomial `p`. -/
theorem coeff_crcGenerator_mul (p : Polynomial (ZMod 2)) (k : Nat) :
    ((X ^ 16 + X ^ 12 + X ^ 5 + 1 : Polynomial (ZMod 2)) * p).coeff k =
      (if 16 ≤ k then p.coeff (k - 16) else 0) + (if 12 ≤ k then p.coeff (k - 12) else 0) +
        (if 5 ≤ k then p.coeff (k - 5) else 0) + p.coeff k := by
  rw [mul_comm]
  simp only [mul_add, mul_one, coeff_add, coeff_mul_X_pow']

/-- The division identity behind `MainFrame::CalculateCRC`: for a 100-character
string of '0'/'1' the function returns a 16-character string of '0'/'1' whose
polynomial `r` satisfies `r + g * q = frame(x) * x^16` for some quotient `q`,
with `deg r < deg g`, where `g = x^16 + x^12 + x^5 + 1`. -/
theorem CalculateCRC_division (frame : List Char) (hlen : frame.length = 100)
    (hbits : ∀ c ∈ frame, c = '0' ∨ c = '1') :
    ∃ (crc : List Char) (qp : Polynomial (ZMod 2)),
      MainFrame.CalculateCRC frame = some crc ∧ crc.length = 16 ∧
      (∀ c ∈ crc, c = '0' ∨ c = '1') ∧
      crc.foldl (fun p c => p * Polynomial.X + (if c = '1' then 1 else 0))
            (0 : Polynomial (ZMod 2)) +
          (Polynomial.X ^ 16 + Polynomial.X ^ 12 + Polynomial.X ^ 5 + 1) * qp =
        frame.foldl (fun p c => p * Polynomial.X + (if c = '1' then 1 else 0))
            (0 : Polynomial (ZMod 2)) * Polynomial.X ^ 16 ∧
      (crc.foldl (fun p c => p * Polynomial.X + (if c = '1' then 1 else 0))
            (0 : Polynomial (ZMod 2))).degree <
        (Polynomial.X ^ 16 + Polynomial.X ^ 12 + Polynomial.X ^ 5 + 1 :
          Polynomial (ZMod 2)).degree := by
  have hall : (frame ++ List.replicate 16 '0').all (fun c => decide (c = '0' ∨ c = '1')) = true := by
    rw [List.all_eq_true]
    intro c hc
    rw [List.mem_append] at hc
    rcases hc with h | h
    · simpa using hbits c h
    · rw [List.mem_replicate] at h
      simp [h.2]
  have htake : (frame ++ List.replicate 16 '0').take 116 = frame ++ List.replicate 16 '0' :=
    List.take_of_length_le (by simp [hlen])
  have hD : binaryValue (frame ++ List.replicate 16 '0') = binaryValue frame <<< 16 := by
    have hz : binaryValue (List.replicate 16 '0') = 0 := by decide
    have h1 : binaryValue (frame ++ List.replicate 16 '0') =
        (List.replicate 16 '0').foldl (fun acc c => 2 * acc + (if c = '1' then 1 else 0))
          (binaryValue frame) := by
      unfold binaryValue
      rw [List.foldl_append]
    rw [h1, foldl_binary_eq, hz, Nat.shiftLeft_eq]
    simp
  have hcalc : MainFrame.CalculateCRC frame = some (bitsetToString 16 (lowSixteen
      (divisionLoop (bitsetOfValue 17 CRC_POLY) (binaryValue frame <<< 16)))) := by
    unfold MainFrame.CalculateCRC bitsetOfString
    simp only [hall, if_true, htake, hD]
  obtain ⟨q, ha, hb, hc, hd⟩ := divisionLoop_invariant (binaryValue frame <<< 16) 100 (le_refl _)
  have hB : divisionLoop (bitsetOfValue 17 CRC_POLY) (binaryValue frame <<< 16) =
      (List.range 100).foldl
        (fun bits k =>
          let i := 115 - k
          if bits.testBit i then xorPolyAt (bitsetOfValue 17 CRC_POLY) bits i else bits)
        (binaryValue frame <<< 16) := rfl
  rw [← hB] at ha hb
  generalize divisionLoop (bitsetOfValue 17 CRC_POLY) (binaryValue frame <<< 16) = B
    at ha hb hcalc
  obtain ⟨qp, hqp⟩ := exists_poly_of_bits q hd
  have hfr : ∀ k, (binaryValue frame <<< 16).testBit k =
      (decide (16 ≤ k) && (binaryValue frame).testBit (k - 16)) := by
    intro k
    rw [Nat.testBit_shiftLeft]
  have hfrhigh : ∀ k, 116 ≤ k → (binaryValue frame <<< 16).testBit k = false := by
    intro k hk
    rw [hfr]
    have hlt : binaryValue frame < 2 ^ (k - 16) :=
      Nat.lt_of_lt_of_le (binaryValue_lt frame)
        (by rw [hlen]; exact Nat.pow_le_pow_right (by decide) (by omega))
    rw [Nat.testBit_lt_two_pow hlt]
    simp
  have hBhigh : ∀ k, 16 ≤ k → B.testBit k = q.testBit (k - 16) := by
    intro k hk
    by_cases h115 : k ≤ 115
    · exact hb k (by omega) h115
    · rw [ha k, hfrhigh k (by omega), hd (k - 12) (by omega), hd (k - 5) (by omega),
        hd k (by omega), hd (k - 16) (by omega)]
      simp
  have hDB : ∀ k, bitCoeff ((binaryValue frame <<< 16).testBit k) =
      bitCoeff (B.testBit k) + (if 12 ≤ k then bitCoeff (q.testBit (k - 12)) else 0) +
        (if 5 ≤ k then bitCoeff (q.testBit (k - 5)) else 0) + bitCoeff (q.testBit k) := by
    intro k
    rw [← bitCoeff_decide_and, ← bitCoeff_decide_and, ← bitCoeff_xor, ← bitCoeff_xor,
      ← bitCoeff_xor, ha k]
    congr 1
    generalize (binaryValue frame <<< 16).testBit k = x1
    generalize (decide (12 ≤ k) && q.testBit (k - 12)) = x2
    generalize (decide (5 ≤ k) && q.testBit (k - 5)) = x3
    generalize q.testBit k = x4
    cases x1 <;> cases x2 <;> cases x3 <;> cases x4 <;> rfl
  refine ⟨_, qp, hcalc, by simp [bitsetToString], ?_, ?_, ?_⟩
  · intro c hc
    unfold bitsetToString at hc
    rw [List.mem_map] at hc
    obtain ⟨k, _, rfl⟩ := hc
    split <;> simp
  · ext k
    rw [coeff_add, coeff_crcGenerator_mul, coeff_bitStringPoly, binaryValue_bitsetToString,
      lowSixteen_eq, Nat.mod_mod, Nat.testBit_mod_two_pow, coeff_mul_X_pow',
      coeff_bitStringPoly, ← bitCoeff_decide_and, ← hfr, hDB k, hqp, hqp, hqp, hqp]
    by_cases h16 : 16 ≤ k
    · have hlt : ¬ k < 16 := by omega
      rw [if_pos h16, hBhigh k h16]
      simp only [hlt, decide_False, Bool.false_and]
      have hz : bitCoeff false = 0 := rfl
      rw [hz]
      ring
    · have hlt : k < 16 := by omega
      rw [if_neg h16]
      simp only [hlt, decide_True, Bool.true_and]
      ring
  · rw [crcGenerator_monic.2]
    have h16 : ((16 : Nat) : WithBot Nat) = 16 := rfl
    rw [← h16, degree_lt_iff_coeff_zero]
    intro m hm
    rw [coeff_bitStringPoly, binaryValue_bitsetToString, lowSixteen_eq, Nat.mod_mod,
      Nat.testBit_mod_two_pow]
    have hlt : ¬ m < 16 := by omega
    simp [hlt, bitCoeff]

/-- C2: for every 100-character string of '0'/'1' (first character most
significant), `MainFrame::CalculateCRC` returns a 16-character string of
'0'/'1' which, read most significant bit first, is the remainder of
`frame(x) * x^16` divided by `x^16 + x^12 + x^5 + 1` over GF(2). The
polynomial of a digit string is built by Horner's rule: each character
multiplies the polynomial read so far by `x` and adds its bit. -/
theorem C2_crc_is_polynomial_remainder (frame : List Char) (hlen : frame.length = 100)
    (hbits : ∀ c ∈ frame, c = '0' ∨ c = '1') :
    ∃ crc : List Char, MainFrame.CalculateCRC frame = some crc ∧ crc.length = 16 ∧
      (∀ c ∈ crc, c = '0' ∨ c = '1') ∧
      crc.foldl (fun p c => p * Polynomial.X + (if c = '1' then 1 else 0))
          (0 : Polynomial (ZMod 2)) =
        (frame.foldl (fun p c => p * Polynomial.X + (if c = '1' then 1 else 0))
            (0 : Polynomial (ZMod 2)) * Polynomial.X ^ 16) %ₘ
          (Polynomial.X ^ 16 + Polynomial.X ^ 12 + Polynomial.X ^ 5 + 1) := by
  obtain ⟨crc, qp, hcalc, hcrclen, hcrcbits, hdiv, hdeg⟩ := CalculateCRC_division frame hlen hbits
  refine ⟨crc, hcalc, hcrclen, hcrcbits, ?_⟩
  have huniq := div_modByMonic_unique qp
    (crc.foldl (fun p c => p * Polynomial.X + (if c = '1' then 1 else 0))
      (0 : Polynomial (ZMod 2)))
    crcGenerator_monic.1 ⟨hdiv, hdeg⟩
  exact huniq.2.symm

set_option maxRecDepth 100000 in
/-- C2 (witness): the frame made of 28 zero bits followed by the 72 bits of the
ASCII text "123456789" has CRC 0011000111000011 (0x31C3), the remainder of its
polynomial times `x^16`. -/
theorem C2_crc_is_polynomial_remainder_witness :
    MainFrame.CalculateCRC
        (List.replicate 28 '0' ++
          ("001100010011001000110011001101000011010100110110001101110011100000111001").toList) =
      some ("0011000111000011").toList ∧
    (("0011000111000011").toList.foldl
        (fun p c => p * Polynomial.X + (if c = '1' then 1 else 0)) (0 : Polynomial (ZMod 2))) =
      ((List.replicate 28 '0' ++
          ("001100010011001000110011001101000011010100110110001101110011100000111001").toList).foldl
        (fun p c => p * Polynomial.X + (if c = '1' then 1 else 0)) (0 : Polynomial (ZMod 2)) *
        Polynomial.X ^ 16) %ₘ
        (Polynomial.X ^ 16 + Polynomial.X ^ 12 + Polynomial.X ^ 5 + 1) := by
  obtain ⟨crc, h1, _, _, h4⟩ := C2_crc_is_polynomial_remainder
    (List.replicate 28 '0' ++
      ("001100010011001000110011001101000011010100110110001101110011100000111001").toList)
    (by decide) (by decide)
  have hval : MainFrame.CalculateCRC
      (List.replicate 28 '0' ++
        ("001100010011001000110011001101000011010100110110001101110011100000111001").toList) =
      some ("0011000111000011").toList := by decide
  rw [hval] at h1
  have hcrc : crc = ("0011000111000011").toList := (Option.some.inj h1).symm
  rw [hcrc] at h4
  exact ⟨hval, h4⟩

end PolynomialCrc

section FrameLoopClosedForm

open DataLinkWorker

/-- The runs never outnumber the frames. -/
theorem frameRuns_length (rng : Nat → ℚ) (frames : List Frame) (pos : Nat) :
    (frameRuns rng frames pos).length = frames.length := by
  induction frames generalizing pos with
  | nil => rfl
  | cons f rest ih => simp [frameRuns, ih]

/-- The loop visits at most all frames. -/
theorem visitedCount_le (interrupted : Nat → Bool) (frames : List Frame) (c : Nat) :
    visitedCount interrupted frames c ≤ frames.length := by
  induction frames generalizing c with
  | nil => simp [visitedCount]
  | cons f rest ih =>
    unfold visitedCount
    split
    · simp
    · have := ih (c + 1)
      simp only [List.length_cons]
      omega

/-- Closed form of the frame loop of `process`: it appends the runs of the
frames it visits, their events in order, and the stop notice when it is left
at the interruption check. -/
theorem processFrames_eq (rng : Nat → ℚ) (interrupted : Nat → Bool) (frames : List Frame)
    (c : Nat) (acc : LoopResult) :
    processFrames rng interrupted frames c acc =
      { runs := acc.runs ++ frameRuns rng (frames.take (visitedCount interrupted frames c)) acc.pos,
        events := acc.events ++
          ((frameRuns rng (frames.take (visitedCount interrupted frames c)) acc.pos).flatMap
              FrameRun.events ++
            (if visitedCount interrupted frames c < frames.length then
              [Event.statusUpdate "Transmission stopped by user"] else [])),
        pos := runsEndPos
          (frameRuns rng (frames.take (visitedCount interrupted frames c)) acc.pos) acc.pos,
        cancelled := acc.cancelled || decide (visitedCount interrupted frames c < frames.length) } := by
  induction frames generalizing c acc with
  | nil => simp [processFrames, visitedCount, frameRuns, runsEndPos]
  | cons f rest ih =>
    by_cases hi : interrupted c = true
    · simp [processFrames, visitedCount, hi, frameRuns, runsEndPos]
    · rw [Bool.not_eq_true] at hi
      rw [processFrames]
      simp only [hi, Bool.false_eq_true, if_false]
      rw [ih]
      simp only [visitedCount, hi, Bool.false_eq_true, if_false, List.take_succ_cons, frameRuns,
        runsEndPos, List.flatMap_cons, List.length_cons, List.append_assoc, List.singleton_append,
        Nat.add_lt_add_iff_right]

/-- When no interruption is read the loop visits every frame. -/
theorem visitedCount_eq_length (interrupted : Nat → Bool) (frames : List Frame) (c : Nat)
    (h : ∀ k, k < frames.length → interrupted (c + k) = false) :
    visitedCount interrupted frames c = frames.length := by
  induction frames generalizing c with
  | nil => rfl
  | cons f rest ih =>
    have h0 : interrupted c = false := by simpa using h 0 (by simp)
    have hr : ∀ k, k < rest.length → interrupted (c + 1 + k) = false := by
      intro k hk
      have := h (k + 1) (by simp; omega)
      rw [show c + 1 + k = c + (k + 1) by omega]
      exact this
    simp [visitedCount, h0, ih (c + 1) hr]

/-- When the first interruption is read before the frame at index `k`, the
loop visits exactly `k` frames. -/
theorem visitedCount_eq_of_first (interrupted : Nat → Bool) (frames : List Frame) (c k : Nat)
    (hk : k < frames.length) (hbefore : ∀ j, j < k → interrupted (c + j) = false)
    (hat : interrupted (c + k) = true) :
    visitedCount interrupted frames c = k := by
  induction frames generalizing c k with
  | nil => simp at hk
  | cons f rest ih =>
    cases k with
    | zero =>
      have h0 : interrupted c = true := by simpa using hat
      simp [visitedCount, h0]
    | succ k =>
      have h0 : interrupted c = false := by simpa using hbefore 0 (by omega)
      have hr := ih (c + 1) k (by simpa using hk)
        (fun j hj => by
          have := hbefore (j + 1) (by omega)
          rw [show c + 1 + j = c + (j + 1) by omega]
          exact this)
        (by rw [show c + 1 + k = c + (k + 1) by omega]; exact hat)
      simp [visitedCount, h0, hr]

end FrameLoopClosedForm

section CleanChannel

open DataLinkWorker

/-- A pass through the loop body in which none of the three draws is below its
threshold: the frame is delivered and acknowledged. -/
theorem attempt_of_no_error (rng : Nat → ℚ) (st : RetryState)
    (h1 : ¬ rng st.pos < 0.10) (h2 : ¬ rng (st.pos + 1) < 0.20)
    (h3 : ¬ rng (st.pos + 1 + 1) < 0.15) :
    attempt rng st =
      { st with
        frame := (st.frame.calculateCRC.setData
          (applyByteStuffing st.frame.calculateCRC.data)).setData
            (removeByteStuffing (applyByteStuffing st.frame.calculateCRC.data))
        acked := true
        pos := st.pos + 1 + 1 + 1
        events := (st.events ++ [Event.frameProcessed (st.frame.calculateCRC.setData
            (applyByteStuffing st.frame.calculateCRC.data))]) ++
          [Event.statusUpdate ("Frame " ++ toString st.frame.frameNumber ++
            " successfully transmitted and acknowledged")]
        attempts := st.attempts ++ [AttemptOutcome.acked] } := by
  unfold attempt
  simp only [simulateDataLoss, simulateDataCorruption, simulateAckLoss, h1, h2, h3,
    decide_False, Bool.false_eq_true, if_false]
  rfl

/-- The handling of a frame when none of its first three draws is below its
threshold: one attempt, acknowledged; the payload is restored, the CRC is
recomputed, and the valid flag and the error map are not touched. -/
theorem processFrame_of_no_error (rng : Nat → ℚ) (frame : Frame) (pos : Nat)
    (h1 : ¬ rng pos < 0.10) (h2 : ¬ rng (pos + 1) < 0.20) (h3 : ¬ rng (pos + 1 + 1) < 0.15) :
    processFrame rng frame pos =
      { frame := { frame with crc := CRC.calculateCRC16 frame.data },
        acked := true, failed := false, pos := pos + 3,
        events := [Event.frameProcessed
            { frame with
              crc := CRC.calculateCRC16 frame.data
              data := applyByteStuffing frame.data },
          Event.statusUpdate ("Frame " ++ toString frame.frameNumber ++
            " successfully transmitted and acknowledged")],
        attempts := [AttemptOutcome.acked] } := by
  unfold processFrame
  rw [retryLoop, dif_pos (by rfl), attempt_of_no_error rng _ h1 h2 h3, retryLoop,
    dif_neg (by simp)]
  simp only [Bool.not_true, Bool.false_eq_true, if_false, List.nil_append, Frame.setData,
    Frame.calculateCRC, removeByteStuffing_applyByteStuffing]
  rfl

end CleanChannel

section ProcessClosedForm

open DataLinkWorker

/-- The runs recorded by `process` are the runs of the frames visited. -/
theorem process_runs (w : DataLinkWorker) (rng : Nat → ℚ) (interrupted : Nat → Bool) (pos : Nat) :
    (process w rng interrupted pos).runs =
      frameRuns rng (w.frames.take (visitedCount interrupted w.frames 0)) pos := by
  unfold process
  cases hw : w.frames with
  | nil => simp [frameRuns]
  | cons f rest =>
    simp only [List.isEmpty_cons, Bool.false_eq_true, if_false, processFrames_eq]
    split <;> simp

/-- The call returned at the interruption check exactly when fewer frames were
visited than there are. -/
theorem process_cancelled (w : DataLinkWorker) (rng : Nat → ℚ) (interrupted : Nat → Bool)
    (pos : Nat) :
    (process w rng interrupted pos).cancelled =
      decide (visitedCount interrupted w.frames 0 < w.frames.length) := by
  unfold process
  cases hw : w.frames with
  | nil => simp [visitedCount]
  | cons f rest =>
    simp only [List.isEmpty_cons, Bool.false_eq_true, if_false, processFrames_eq,
      Bool.false_or]
    split
    · next h => simp only [h]
    · next h => rw [Bool.not_eq_true] at h; simp only [h]

/-- The events of a call that returned at the interruption check: the events
of the frames visited, then the stop notice. -/
theorem process_events_cancelled (w : DataLinkWorker) (rng : Nat → ℚ)
    (interrupted : Nat → Bool) (pos : Nat)
    (h : visitedCount interrupted w.frames 0 < w.frames.length) :
    (process w rng interrupted pos).events =
      (frameRuns rng (w.frames.take (visitedCount interrupted w.frames 0)) pos).flatMap
          FrameRun.events ++
        [Event.statusUpdate "Transmission stopped by user"] ∧
    (process w rng interrupted pos).worker = w ∧
    (process w rng interrupted pos).localFrames =
      (frameRuns rng (w.frames.take (visitedCount interrupted w.frames 0)) pos).map
          FrameRun.frame ++
        w.frames.drop (visitedCount interrupted w.frames 0) := by
  have hne : w.frames.isEmpty = false := by
    cases hw : w.frames with
    | nil => rw [hw] at h; simp at h
    | cons _ _ => rfl
  have hlen : (frameRuns rng (w.frames.take (visitedCount interrupted w.frames 0)) pos).length =
      visitedCount interrupted w.frames 0 := by
    rw [frameRuns_length, List.length_take]
    omega
  unfold process
  simp only [hne, Bool.false_eq_true, if_false, processFrames_eq, h, decide_True,
    Bool.false_or, if_true, List.nil_append, hlen]
  exact ⟨trivial, trivial, trivial⟩

/-- The events of a call on a non-empty frame list that visited every frame:
the events of the frames, `checksumCalculated`, `checksumFrameSent`, the
checksum error when its draw is below 0.05, and `transmissionComplete`. -/
theorem process_events_completed (w : DataLinkWorker) (rng : Nat → ℚ)
    (interrupted : Nat → Bool) (pos : Nat) (hne : w.frames ≠ [])
    (h : visitedCount interrupted w.frames 0 = w.frames.length) :
    (process w rng interrupted pos).events =
      (frameRuns rng w.frames pos).flatMap FrameRun.events ++
        ([Event.checksumCalculated (calculateChecksum w.frames),
          Event.checksumFrameSent
            (prepareChecksumFrame { w with checksum := calculateChecksum w.frames })] ++
          ((if rng (runsEndPos (frameRuns rng w.frames pos) pos) < 0.05 then
              [Event.errorOccurred "Checksum error detected"] else []) ++
            [Event.transmissionComplete])) := by
  have hemp : w.frames.isEmpty = false := by
    cases hw : w.frames with
    | nil => exact absurd hw hne
    | cons _ _ => rfl
  unfold process
  simp only [hemp, Bool.false_eq_true, if_false, processFrames_eq, h, lt_irrefl, decide_False,
    Bool.or_false, List.take_length, List.append_nil, List.nil_append, simulateChecksumError]
  by_cases herr : rng (runsEndPos (frameRuns rng w.frames pos) pos) < 0.05
  · simp only [herr, decide_True, if_true, List.append_assoc, List.singleton_append,
      List.cons_append, List.nil_append]
  · simp only [herr, decide_False, Bool.false_eq_true, if_false, List.append_assoc,
      List.singleton_append, List.cons_append, List.nil_append]

/-- Every run of `frameRuns` is the handling of the frame at the same index,
started at some position of the random sequence. -/
theorem frameRuns_getElem? (rng : Nat → ℚ) (frames : List Frame) (pos i : Nat) (f : Frame)
    (run : FrameRun) (hf : frames[i]? = some f) (hr : (frameRuns rng frames pos)[i]? = some run) :
    ∃ p, run = processFrame rng f p := by
  induction frames generalizing pos i with
  | nil => simp at hf
  | cons g rest ih =>
    cases i with
    | zero =>
      simp only [frameRuns, List.getElem?_cons_zero, Option.some.injEq] at hf hr
      exact ⟨pos, by rw [← hr, ← hf]⟩
    | succ i =>
      simp only [frameRuns, List.getElem?_cons_succ] at hf hr
      exact ih _ i hf hr

/-- Counting over a concatenation of per-run event lists. -/
theorem countP_flatMap_events (p : Event → Bool) (runs : List FrameRun) (n : Nat)
    (h : ∀ run ∈ runs, run.events.countP p = n) :
    (runs.flatMap FrameRun.events).countP p = n * runs.length := by
  induction runs with
  | nil => simp
  | cons r rest ih =>
    rw [List.flatMap_cons, List.countP_append, h r (List.mem_cons_self r rest),
      ih (fun x hx => h x (List.mem_cons_of_mem r hx)), List.length_cons]
    ring

end ProcessClosedForm

section CleanRun

open DataLinkWorker

/-- A draw of at least 0.20 is below none of the four thresholds. -/
theorem not_lt_thresholds (x : ℚ) (h : (0.20 : ℚ) ≤ x) :
    ¬ x < 0.10 ∧ ¬ x < 0.20 ∧ ¬ x < 0.15 ∧ ¬ x < 0.05 := by
  refine ⟨?_, ?_, ?_, ?_⟩ <;> intro hx <;> norm_num at h hx <;> linarith

/-- C11: if every value drawn from the random source is at least 0.20, then in
`process` every frame visited is acked on its first attempt (no attempt is
lost, corrupted or ACK-lost) and has exactly one `frameProcessed` event, so
the run emits one `frameProcessed` per visited frame; no error info is
recorded, the valid flag and the payload of every frame are as before, and no
"Checksum error detected" is emitted; without interruption every frame is
visited. -/
theorem C11_clean_channel (w : DataLinkWorker) (rng : Nat → ℚ) (interrupted : Nat → Bool)
    (pos : Nat) (hrng : ∀ k, (0.20 : ℚ) ≤ rng k) :
    (∀ run ∈ (DataLinkWorker.process w rng interrupted pos).runs,
      run.attempts = [AttemptOutcome.acked] ∧ run.acked = true ∧ run.failed = false ∧
      run.events.countP Event.isFrameProcessed = 1) ∧
    (∀ (i : Nat) (f : Frame) (run : FrameRun), w.frames[i]? = some f →
      (DataLinkWorker.process w rng interrupted pos).runs[i]? = some run →
        run.frame.errorInfo = f.errorInfo ∧ run.frame.valid = f.valid ∧
        run.frame.data = f.data) ∧
    ((DataLinkWorker.process w rng interrupted pos).events.countP Event.isFrameProcessed =
      (DataLinkWorker.process w rng interrupted pos).runs.length) ∧
    (Event.errorOccurred "Checksum error detected" ∉
      (DataLinkWorker.process w rng interrupted pos).events) ∧
    ((∀ k, k < w.frames.length → interrupted k = false) →
      (DataLinkWorker.process w rng interrupted pos).runs.length = w.frames.length) := by
  have hclean : ∀ (f : Frame) (p : Nat), processFrame rng f p =
      { frame := { f with crc := CRC.calculateCRC16 f.data },
        acked := true, failed := false, pos := p + 3,
        events := [Event.frameProcessed
            { f with crc := CRC.calculateCRC16 f.data, data := applyByteStuffing f.data },
          Event.statusUpdate ("Frame " ++ toString f.frameNumber ++
            " successfully transmitted and acknowledged")],
        attempts := [AttemptOutcome.acked] } := fun f p =>
    processFrame_of_no_error rng f p (not_lt_thresholds _ (hrng _)).1
      (not_lt_thresholds _ (hrng _)).2.1 (not_lt_thresholds _ (hrng _)).2.2.1
  have hidx : ∀ (i : Nat) (f : Frame) (run : FrameRun), w.frames[i]? = some f →
      (process w rng interrupted pos).runs[i]? = some run → ∃ p, run = processFrame rng f p := by
    intro i f run hf hr
    rw [process_runs] at hr
    have hi : i < visitedCount interrupted w.frames 0 := by
      have := (List.getElem?_eq_some.mp hr).1
      rw [frameRuns_length, List.length_take] at this
      omega
    exact frameRuns_getElem? rng _ pos i f run (by rw [List.getElem?_take, if_pos hi]; exact hf) hr
  have hmem : ∀ run ∈ (process w rng interrupted pos).runs, ∃ f p, run = processFrame rng f p := by
    intro run hrun
    obtain ⟨i, hi, hget⟩ := List.getElem_of_mem hrun
    have hi2 : i < w.frames.length := by
      have := hi
      rw [process_runs, frameRuns_length, List.length_take] at this
      omega
    obtain ⟨p, hp⟩ := hidx i w.frames[i] run (List.getElem?_eq_getElem hi2)
      (by rw [List.getElem?_eq_getElem hi, hget])
    exact ⟨_, p, hp⟩
  have hrunev : ∀ run ∈ (process w rng interrupted pos).runs,
      run.events.countP Event.isFrameProcessed = 1 := by
    intro run hrun
    obtain ⟨f, p, rfl⟩ := hmem run hrun
    rw [hclean]
    rfl
  have hnoerr : ∀ run ∈ (process w rng interrupted pos).runs,
      Event.errorOccurred "Checksum error detected" ∉ run.events := by
    intro run hrun
    obtain ⟨f, p, rfl⟩ := hmem run hrun
    rw [hclean]
    simp
  refine ⟨?_, ?_, ?_, ?_, ?_⟩
  · intro run hrun
    obtain ⟨f, p, hp⟩ := hmem run hrun
    refine ⟨?_, ?_, ?_, hrunev run hrun⟩ <;> rw [hp, hclean]
  · intro i f run hf hr
    obtain ⟨p, rfl⟩ := hidx i f run hf hr
    rw [hclean]
    exact ⟨rfl, rfl, rfl⟩
  · by_cases hv : visitedCount interrupted w.frames 0 < w.frames.length
    · rw [(process_events_cancelled w rng interrupted pos hv).1, List.countP_append,
        ← process_runs, countP_flatMap_events _ _ 1 hrunev]
      simp [Event.isFrameProcessed]
    · have hv' : visitedCount interrupted w.frames 0 = w.frames.length :=
        Nat.le_antisymm (visitedCount_le _ _ _) (Nat.le_of_not_lt hv)
      by_cases hne : w.frames = []
      · have hr : (process w rng interrupted pos).runs = [] := by
          rw [process_runs, hne]; rfl
        rw [hr]
        unfold process
        simp [hne, Event.isFrameProcessed]
      · have hruns : (process w rng interrupted pos).runs = frameRuns rng w.frames pos := by
          rw [process_runs, hv', List.take_length]
        rw [process_events_completed w rng interrupted pos hne hv', List.countP_append,
          ← hruns, countP_flatMap_events _ _ 1 hrunev]
        split <;> simp [Event.isFrameProcessed]
  · by_cases hv : visitedCount interrupted w.frames 0 < w.frames.length
    · rw [(process_events_cancelled w rng interrupted pos hv).1, ← process_runs]
      simp only [List.mem_append, List.mem_flatMap, List.mem_singleton, not_or, not_exists,
        not_and]
      exact ⟨fun run hrun => hnoerr run hrun, by simp⟩
    · have hv' : visitedCount interrupted w.frames 0 = w.frames.length :=
        Nat.le_antisymm (visitedCount_le _ _ _) (Nat.le_of_not_lt hv)
      by_cases hne : w.frames = []
      · unfold process
        simp [hne]
      · have hruns : (process w rng interrupted pos).runs = frameRuns rng w.frames pos := by
          rw [process_runs, hv', List.take_length]
        rw [process_events_completed w rng interrupted pos hne hv', ← hruns,
          if_neg (not_lt_thresholds _ (hrng _)).2.2.2]
        simp only [List.mem_append, List.mem_flatMap, not_or, not_exists, not_and]
        exact ⟨fun run hrun => hnoerr run hrun, by simp⟩
  · intro hint
    rw [process_runs, frameRuns_length, List.length_take,
      visitedCount_eq_length interrupted w.frames 0 (fun k hk => by rw [Nat.zero_add]; exact hint k hk)]
    simp

/-- C11 (witness): the random source that always returns 0.5, on the single
frame made of the byte 0x41. -/
theorem C11_clean_channel_witness :
    (∀ k : Nat, (0.20 : ℚ) ≤ (fun _ => (0.5 : ℚ)) k) ∧
    (Event.errorOccurred "Checksum error detected" ∉
      (DataLinkWorker.process { frames := [Frame.ofData [0x41]], checksum := "", checksumFrame := "" }
        (fun _ => 0.5) (fun _ => false) 0).events) ∧
    (DataLinkWorker.process { frames := [Frame.ofData [0x41]], checksum := "", checksumFrame := "" }
        (fun _ => 0.5) (fun _ => false) 0).runs.length = 1 :=
  ⟨fun _ => by norm_num,
   (C11_clean_channel { frames := [Frame.ofData [0x41]], checksum := "", checksumFrame := "" }
      (fun _ => 0.5) (fun _ => false) 0 (fun _ => by norm_num)).2.2.2.1,
   (C11_clean_channel { frames := [Frame.ofData [0x41]], checksum := "", checksumFrame := "" }
      (fun _ => 0.5) (fun _ => false) 0 (fun _ => by norm_num)).2.2.2.2 (fun _ _ => rfl)⟩

end CleanRun

section PayloadAfterRetry

open DataLinkWorker

/-- C12 (failing input): the frame loaded from the one-byte file 0x41, with the
first draw 0.05 (the first attempt is lost) and every later draw 0.5. The
second attempt is delivered and acknowledged, and the frame ends the run
acked with the payload 7E 41 00 x12 7E: the stuffing applied by the lost
attempt was never removed, so the payload after `removeByteStuffing` is not
the payload the frame had when the run started (41 00 x12). -/
theorem C12_payload_not_restored_after_retry :
    ((DataLinkLayer.loadFile DataLinkLayer.new "a.dat" (some [0x41])).2.1.worker.frames.map
        Frame.data = [[0x41, 0, 0, 0, 0, 0, 0, 0, 0, 0, 0, 0, 0]]) ∧
    ((DataLinkWorker.process (DataLinkLayer.loadFile DataLinkLayer.new "a.dat" (some [0x41])).2.1.worker
        (fun k => if k = 0 then 0.05 else 0.5) (fun _ => false) 0).runs.map
        (fun run => (run.acked, run.attempts)) =
      [(true, [AttemptOutcome.lost, AttemptOutcome.acked])]) ∧
    ((DataLinkWorker.process (DataLinkLayer.loadFile DataLinkLayer.new "a.dat" (some [0x41])).2.1.worker
        (fun k => if k = 0 then 0.05 else 0.5) (fun _ => false) 0).localFrames.map Frame.data =
      [[0x7E, 0x41, 0, 0, 0, 0, 0, 0, 0, 0, 0, 0, 0, 0, 0x7E]]) := by
  refine ⟨by decide!, by decide!, by decide!⟩

end PayloadAfterRetry

section FrameCrcInvariant

/-- C13 (counterexample): after `Frame([0x41])` and `setData([0x42])` the crc is
still that of 0x41: it differs from `calculateCRC16` of the current data and
`verifyCRC()` is false. -/
theorem C13_setData_keeps_stale_crc :
    ¬ (((Frame.ofData [0x41]).applyOps [FrameOp.setData [0x42]]).crc =
        CRC.calculateCRC16 ((Frame.ofData [0x41]).applyOps [FrameOp.setData [0x42]]).data ∧
      ((Frame.ofData [0x41]).applyOps [FrameOp.setData [0x42]]).verifyCRC = true) := by
  decide!

/-- The crc after a sequence of calls is the CRC of the payload at the most
recent `calculateCRC()`. -/
theorem applyOps_crc (f : Frame) (base : List UInt8) (ops : List FrameOp)
    (h : f.crc = CRC.calculateCRC16 base) :
    (f.applyOps ops).crc = CRC.calculateCRC16 (Frame.crcBase base f.data ops) := by
  induction ops generalizing f base with
  | nil => exact h
  | cons op rest ih =>
    cases op with
    | setData newData => exact ih (f.setData newData) base h
    | calculateCRC => exact ih f.calculateCRC f.data rfl

/-- C13 (amended): for every frame obtained from `Frame(data)` by any sequence
of `setData` and `calculateCRC` calls, `getCRC()` is the CRC of the payload the
frame had at its most recent `calculateCRC()` call (at construction when there
was none). `setData` replaces the payload and leaves the crc as it is;
`getCRC()` equals `calculateCRC16(getData())` and `verifyCRC()` is true when
the last call was `calculateCRC()` and when no `setData` was called. -/
theorem C13_crc_follows_last_calculateCRC (data : List UInt8) (ops : List FrameOp) :
    (((Frame.ofData data).applyOps ops).crc =
      CRC.calculateCRC16 (Frame.crcBase data data ops)) ∧
    (∀ newData : List UInt8,
      (((Frame.ofData data).applyOps ops).setData newData).crc =
          ((Frame.ofData data).applyOps ops).crc ∧
      (((Frame.ofData data).applyOps ops).setData newData).data = newData) ∧
    (((Frame.ofData data).applyOps (ops ++ [FrameOp.calculateCRC])).crc =
        CRC.calculateCRC16 ((Frame.ofData data).applyOps (ops ++ [FrameOp.calculateCRC])).data ∧
      ((Frame.ofData data).applyOps (ops ++ [FrameOp.calculateCRC])).verifyCRC = true) ∧
    ((∀ op ∈ ops, op = FrameOp.calculateCRC) →
      ((Frame.ofData data).applyOps ops).crc =
          CRC.calculateCRC16 ((Frame.ofData data).applyOps ops).data ∧
      ((Frame.ofData data).applyOps ops).verifyCRC = true) := by
  have hverify : ∀ f : Frame, f.crc = CRC.calculateCRC16 f.data → f.verifyCRC = true := by
    intro f hf
    unfold Frame.verifyCRC
    rw [hf]
    unfold CRC.verifyCRC16 CRC.calculateCRC16
    simp only [toUShort16_argHex _ (calculateCRC16Internal_lt f.data)]
    simp
  refine ⟨applyOps_crc _ data ops rfl, fun newData => ⟨rfl, rfl⟩, ?_, ?_⟩
  · have h : ((Frame.ofData data).applyOps (ops ++ [FrameOp.calculateCRC])).crc =
        CRC.calculateCRC16
          ((Frame.ofData data).applyOps (ops ++ [FrameOp.calculateCRC])).data := by
      unfold Frame.applyOps
      rw [List.foldl_append]
      rfl
    exact ⟨h, hverify _ h⟩
  · intro hall
    have h : ∀ (l : List FrameOp) (f : Frame), (∀ op ∈ l, op = FrameOp.calculateCRC) →
        f.crc = CRC.calculateCRC16 f.data →
        (f.applyOps l).crc = CRC.calculateCRC16 (f.applyOps l).data := by
      intro l
      induction l with
      | nil => intro f _ hf; exact hf
      | cons op rest ih =>
        intro f hl hf
        have hop : op = FrameOp.calculateCRC := hl op (List.mem_cons_self op rest)
        subst hop
        exact ih f.calculateCRC (fun o ho => hl o (List.mem_cons_of_mem _ ho)) rfl
    have hc := h ops (Frame.ofData data) hall rfl
    exact ⟨hc, hverify _ hc⟩

end FrameCrcInvariant

section FrameEvents

open DataLinkWorker

/-- The events and the log entry added by one pass through the loop body: a
lost or corrupted pass emits one status; a delivered pass emits the
`frameProcessed` snapshot taken right after stuffing, then one status. -/
theorem attempt_events (rng : Nat → ℚ) (st : RetryState) :
    ∃ (new : List Event) (o : AttemptOutcome),
      (attempt rng st).events = st.events ++ new ∧
      (attempt rng st).attempts = st.attempts ++ [o] ∧
      (∀ e ∈ new, e.isFrameLevel = true) ∧
      new.countP Event.isFrameProcessed = (if o.delivered then 1 else 0) := by
  unfold attempt
  dsimp only
  split_ifs with hl hc ha
  · exact ⟨[_], AttemptOutcome.lost, rfl, rfl, by simp [Event.isFrameLevel], rfl⟩
  · exact ⟨[_], AttemptOutcome.corrupted, rfl, rfl, by simp [Event.isFrameLevel], rfl⟩
  · refine ⟨[Event.frameProcessed _, Event.statusUpdate _], AttemptOutcome.ackLost,
      List.append_assoc _ _ _, rfl, ?_, rfl⟩
    simp [Event.isFrameLevel]
  · refine ⟨[Event.frameProcessed _, Event.statusUpdate _], AttemptOutcome.acked,
      List.append_assoc _ _ _, rfl, ?_, rfl⟩
    simp [Event.isFrameLevel]

/-- The events and log entries added by the retry loop: only frame-level
events, with as many `frameProcessed` events as delivered attempts. -/
theorem retryLoop_events (rng : Nat → ℚ) (st : RetryState) :
    ∃ (new : List Event) (os : List AttemptOutcome),
      (retryLoop rng st).events = st.events ++ new ∧
      (retryLoop rng st).attempts = st.attempts ++ os ∧
      (∀ e ∈ new, e.isFrameLevel = true) ∧
      new.countP Event.isFrameProcessed = os.countP AttemptOutcome.delivered := by
  induction st using retryLoop.induct rng with
  | case1 st hg ih =>
    rw [retryLoop, dif_pos hg]
    obtain ⟨new1, o, h1, h2, h3, h4⟩ := attempt_events rng st
    obtain ⟨new2, os, k1, k2, k3, k4⟩ := ih
    refine ⟨new1 ++ new2, o :: os, ?_, ?_, ?_, ?_⟩
    · rw [k1, h1, List.append_assoc]
    · rw [k2, h2, List.append_assoc]; rfl
    · intro e he
      rw [List.mem_append] at he
      rcases he with he | he
      · exact h3 e he
      · exact k3 e he
    · rw [List.countP_append, h4, k4, List.countP_cons]
      omega
  | case2 st hg =>
    rw [retryLoop, dif_neg hg]
    exact ⟨[], [], by simp, by simp, by simp, rfl⟩

/-- The events of the handling of one frame: only frame-level events, with as
many `frameProcessed` events as delivered attempts. -/
theorem processFrame_events (rng : Nat → ℚ) (frame : Frame) (pos : Nat) :
    (∀ e ∈ (processFrame rng frame pos).events, e.isFrameLevel = true) ∧
    (processFrame rng frame pos).events.countP Event.isFrameProcessed =
      (processFrame rng frame pos).attempts.countP AttemptOutcome.delivered := by
  obtain ⟨new, os, h1, h2, h3, h4⟩ := retryLoop_events rng
    { frame := frame, retryCount := 0, acked := false, pos := pos, events := [], attempts := [] }
  rw [List.nil_append] at h1 h2
  unfold processFrame
  dsimp only
  split_ifs with hacked
  · refine ⟨?_, ?_⟩
    · intro e he
      rw [h1, List.mem_append, List.mem_singleton] at he
      rcases he with he | he
      · exact h3 e he
      · rw [he]; rfl
    · show (_ ++ [_]).countP _ = _
      rw [List.countP_append, h1, h2, h4]
      rfl
  · refine ⟨?_, ?_⟩
    · intro e he
      rw [h1] at he
      exact h3 e he
    · show List.countP _ (retryLoop rng _).events = List.countP _ (retryLoop rng _).attempts
      rw [h1, h2, h4]

/-- The events of a sequence of runs are frame-level events. -/
theorem frameRuns_events_frameLevel (rng : Nat → ℚ) (frames : List Frame) (pos : Nat) :
    ∀ e ∈ (frameRuns rng frames pos).flatMap FrameRun.events, e.isFrameLevel = true := by
  induction frames generalizing pos with
  | nil => intro e he; simp [frameRuns] at he
  | cons f rest ih =>
    intro e he
    rw [frameRuns, List.flatMap_cons, List.mem_append] at he
    rcases he with he | he
    · exact (processFrame_events rng f pos).1 e he
    · exact ih _ e he

end FrameEvents

section RunChecksum

open DataLinkWorker DataLinkLayer

/-- The two characters written for an 8-bit value. -/
theorem toUpper_argHex_two (v : Nat) (hv : v < 256) :
    Qt.toUpper (Qt.argHex v 2) =
      [(Nat.digitChar (v / 16)).toUpper, (Nat.digitChar (v % 16)).toUpper] := by
  have h0 : Nat.digitChar 0 = '0' := rfl
  unfold Qt.toUpper Qt.argHex Nat.toDigits
  by_cases h1 : v < 16
  · have e1 : v / 16 = 0 := by omega
    rw [toDigitsCore16_succ, if_pos e1]
    simp [e1, h0, List.replicate]
  · obtain ⟨k, rfl⟩ : ∃ k, v = k + 1 := ⟨v - 1, by omega⟩
    have e1 : ¬ (k + 1) / 16 = 0 := by omega
    have f1 : (k + 1) / 16 / 16 = 0 := by omega
    have e4 : (k + 1) / 16 % 16 = (k + 1) / 16 := by omega
    rw [toDigitsCore16_succ, if_neg e1, toDigitsCore16_succ, if_pos f1]
    simp [e4, List.replicate]

/-- A frame built by the framing loop carries the CRC of its payload. -/
theorem loadFrameBody_crc (bits : List Bool) (i : Nat) :
    (loadFrameBody bits i).1.crc = CRC.calculateCRC16 (loadFrameBody bits i).1.data := by
  unfold loadFrameBody
  dsimp only
  split_ifs <;> rfl

/-- The accumulator of `calculateChecksum` over frames that carry the CRC of
their payload: the sum of the CRC values modulo 256. -/
theorem checksum_foldl (frames : List Frame) (acc : Nat) (hacc : acc < 256)
    (h : ∀ f ∈ frames, f.crc = CRC.calculateCRC16 f.data) :
    frames.foldl
        (fun accum frame =>
          match Qt.toUShort16 frame.crc with
          | some crc => ((accum + crc) % 2 ^ 8) % 0x100
          | none => accum)
        acc =
      (acc + (frames.map (fun f => CRC.calculateCRC16Internal f.data)).sum) % 256 := by
  induction frames generalizing acc with
  | nil => simp; omega
  | cons f rest ih =>
    have hf := h f (List.mem_cons_self f rest)
    have hparse : Qt.toUShort16 f.crc = some (CRC.calculateCRC16Internal f.data) := by
      rw [hf]
      exact toUShort16_argHex _ (calculateCRC16Internal_lt f.data)
    rw [List.foldl_cons, hparse]
    dsimp only
    have hstep : ((acc + CRC.calculateCRC16Internal f.data) % 2 ^ 8) % 0x100 =
        (acc + CRC.calculateCRC16Internal f.data) % 256 := by
      norm_num
    rw [hstep, ih _ (Nat.mod_lt _ (by norm_num)) (fun g hg => h g (List.mem_cons_of_mem f hg)),
      List.map_cons, List.sum_cons]
    omega

/-- C14: in every uncancelled run of `process` on the frames produced by
`loadFile` from a non-empty input, the one checksum emitted by
`checksumCalculated` (and stored by the worker) is the two-digit upper-case
hexadecimal rendering of the sum, modulo 256, of the CRCs of the loaded
(pre-stuffing) payloads, whatever the random source returns. -/
theorem C14_checksum_is_sum_of_canonical_crcs (layer : DataLinkLayer) (filePath : String)
    (fileData : List UInt8) (rng : Nat → ℚ) (interrupted : Nat → Bool) (pos : Nat)
    (hne : fileData ≠ [])
    (hrun : ∀ k, k < (DataLinkLayer.loadFile layer filePath (some fileData)).2.1.frames.length →
      interrupted k = false) :
    (∀ s : String,
      Event.checksumCalculated s ∈
          (DataLinkWorker.process (DataLinkLayer.loadFile layer filePath (some fileData)).2.1.worker
            rng interrupted pos).events ↔
        s = String.mk
          [(Nat.digitChar
              (((DataLinkLayer.loadFile layer filePath (some fileData)).2.1.frames.map
                (fun f => CRC.calculateCRC16Internal f.data)).sum % 256 / 16)).toUpper,
           (Nat.digitChar
              (((DataLinkLayer.loadFile layer filePath (some fileData)).2.1.frames.map
                (fun f => CRC.calculateCRC16Internal f.data)).sum % 256 % 16)).toUpper]) ∧
    ((DataLinkWorker.process (DataLinkLayer.loadFile layer filePath (some fileData)).2.1.worker
        rng interrupted pos).worker.checksum =
      String.mk
        [(Nat.digitChar
            (((DataLinkLayer.loadFile layer filePath (some fileData)).2.1.frames.map
              (fun f => CRC.calculateCRC16Internal f.data)).sum % 256 / 16)).toUpper,
         (Nat.digitChar
            (((DataLinkLayer.loadFile layer filePath (some fileData)).2.1.frames.map
              (fun f => CRC.calculateCRC16Internal f.data)).sum % 256 % 16)).toUpper]) := by
  have hw : (loadFile layer filePath (some fileData)).2.1.worker.frames =
      (loadFile layer filePath (some fileData)).2.1.frames := rfl
  generalize hF : (loadFile layer filePath (some fileData)).2.1.frames = frames at hrun hw ⊢
  generalize (loadFile layer filePath (some fileData)).2.1.worker = w at hw ⊢
  have hcrc : ∀ f ∈ frames, f.crc = CRC.calculateCRC16 f.data := by
    intro f hf
    rw [← hF, loadFile_frames, framingStep_frames, List.mem_map] at hf
    obtain ⟨i, _, rfl⟩ := hf
    exact loadFrameBody_crc _ i
  have hlen : 1 ≤ frames.length := by
    rw [← hF]
    exact loadFile_frames_length_pos layer filePath fileData hne
  have hnonempty : w.frames ≠ [] := by
    rw [hw]
    intro h
    rw [h] at hlen
    simp at hlen
  have hvis : visitedCount interrupted w.frames 0 = w.frames.length :=
    visitedCount_eq_length _ _ _ (fun k hk => by rw [Nat.zero_add]; exact hrun k (by rw [← hw]; exact hk))
  have hsum : calculateChecksum w.frames =
      String.mk
        [(Nat.digitChar
            ((frames.map (fun f => CRC.calculateCRC16Internal f.data)).sum % 256 / 16)).toUpper,
         (Nat.digitChar
            ((frames.map (fun f => CRC.calculateCRC16Internal f.data)).sum % 256 % 16)).toUpper] := by
    unfold calculateChecksum
    rw [hw, checksum_foldl frames 0 (by norm_num) hcrc, Nat.zero_add]
    dsimp only
    rw [toUpper_argHex_two _ (Nat.mod_lt _ (by norm_num))]
  constructor
  · intro s
    rw [process_events_completed w rng interrupted pos hnonempty hvis, hsum]
    constructor
    · intro hs
      rw [List.mem_append] at hs
      rcases hs with hs | hs
      · have := frameRuns_events_frameLevel rng w.frames pos _ hs
        simp [Event.isFrameLevel] at this
      · simp only [List.cons_append, List.nil_append, List.mem_cons, Event.checksumCalculated.injEq,
          List.mem_append, List.mem_singleton] at hs
        rcases hs with hs | hs | hs | hs
        · exact hs
        · exact absurd hs (by simp)
        · split at hs <;> simp at hs
        · exact absurd hs (by simp)
    · intro hs
      rw [hs]
      simp
  · unfold process
    have hemp : w.frames.isEmpty = false := by
      cases hfr : w.frames with
      | nil => exact absurd hfr hnonempty
      | cons _ _ => rfl
    have hnc : (processFrames rng interrupted w.frames 0
        { runs := [], events := [], pos := pos, cancelled := false }).cancelled = false := by
      rw [processFrames_eq, hvis]
      simp
    simp only [hemp, Bool.false_eq_true, if_false, hnc, hsum]

end RunChecksum

section RunChecksumWitness

open DataLinkWorker DataLinkLayer

/-- Witness for C14: a thirteen-byte file (two frames), every draw 0.5, no
interruption. -/
theorem C14_checksum_is_sum_of_canonical_crcs_witness :
    ([0x41, 0x7E, 0x7D, 0x00, 0xFF, 0x10, 0x20, 0x30, 0x40, 0x50, 0x60, 0x70, 0x80] :
        List UInt8) ≠ [] ∧
    (DataLinkWorker.process
        (DataLinkLayer.loadFile DataLinkLayer.new "a.dat"
          (some [0x41, 0x7E, 0x7D, 0x00, 0xFF, 0x10, 0x20, 0x30, 0x40, 0x50, 0x60, 0x70,
            0x80])).2.1.worker
        (fun _ => 0.5) (fun _ => false) 0).worker.checksum =
      String.mk
        [(Nat.digitChar
            (((DataLinkLayer.loadFile DataLinkLayer.new "a.dat"
                (some [0x41, 0x7E, 0x7D, 0x00, 0xFF, 0x10, 0x20, 0x30, 0x40, 0x50, 0x60, 0x70,
                  0x80])).2.1.frames.map
              (fun f => CRC.calculateCRC16Internal f.data)).sum % 256 / 16)).toUpper,
         (Nat.digitChar
            (((DataLinkLayer.loadFile DataLinkLayer.new "a.dat"
                (some [0x41, 0x7E, 0x7D, 0x00, 0xFF, 0x10, 0x20, 0x30, 0x40, 0x50, 0x60, 0x70,
                  0x80])).2.1.frames.map
              (fun f => CRC.calculateCRC16Internal f.data)).sum % 256 % 16)).toUpper] :=
  ⟨by decide,
    (C14_checksum_is_sum_of_canonical_crcs DataLinkLayer.new "a.dat"
      [0x41, 0x7E, 0x7D, 0x00, 0xFF, 0x10, 0x20, 0x30, 0x40, 0x50, 0x60, 0x70, 0x80]
      (fun _ => 0.5) (fun _ => false) 0 (by decide) (fun _ _ => rfl)).2⟩

end RunChecksumWitness

section FrameListChecksum

open MainFrame

/-- The digits written by the base-16 conversion for a value below `16 ^ w`:
at most `w` of them, and padded to `w` places they are the `w` base-16 digits
of the value, most significant first. -/
theorem toDigitsCore16_digits (w : Nat) : ∀ (n fuel : Nat) (ds : List Char),
    n < 16 ^ (w + 1) → n < fuel →
    ∃ pre : List Char, Nat.toDigitsCore 16 fuel n ds = pre ++ ds ∧ pre.length ≤ w + 1 ∧
      List.replicate (w + 1 - pre.length) '0' ++ pre =
        (List.range (w + 1)).map (fun k => Nat.digitChar (n / 16 ^ (w - k) % 16)) := by
  induction w with
  | zero =>
    intro n fuel ds hn hfuel
    obtain ⟨f, rfl⟩ : ∃ f, fuel = f + 1 := ⟨fuel - 1, by omega⟩
    have e1 : n / 16 = 0 := by omega
    refine ⟨[Nat.digitChar (n % 16)], ?_, by simp, ?_⟩
    · rw [toDigitsCore16_succ, if_pos e1]
      rfl
    · simp
  | succ w ih =>
    intro n fuel ds hn hfuel
    obtain ⟨f, rfl⟩ : ∃ f, fuel = f + 1 := ⟨fuel - 1, by omega⟩
    have hlast : (List.range (w + 1 + 1)).map
          (fun k => Nat.digitChar (n / 16 ^ (w + 1 - k) % 16)) =
        (List.range (w + 1)).map (fun k => Nat.digitChar (n / 16 / 16 ^ (w - k) % 16)) ++
          [Nat.digitChar (n % 16)] := by
      rw [List.range_succ (w + 1), List.map_append]
      congr 1
      · apply List.map_congr_left
        intro k hk
        rw [List.mem_range] at hk
        have hpow : 16 * 16 ^ (w - k) = 16 ^ (w + 1 - k) := by
          rw [← pow_succ']
          congr 1
          omega
        rw [Nat.div_div_eq_div_mul, hpow]
      · simp
    by_cases e1 : n / 16 = 0
    · refine ⟨[Nat.digitChar (n % 16)], ?_, by simp, ?_⟩
      · rw [toDigitsCore16_succ, if_pos e1]
        rfl
      · rw [hlast, e1]
        simp only [Nat.zero_div, Nat.zero_mod, List.length_singleton, Nat.add_sub_cancel]
        have h0 : Nat.digitChar 0 = '0' := rfl
        rw [h0]
        congr 1
        apply List.ext_getElem <;> simp
    · have hn16 : n / 16 < 16 ^ (w + 1) := by
        rw [Nat.div_lt_iff_lt_mul (by norm_num)]
        rw [pow_succ] at hn
        exact hn
      obtain ⟨pre, hpre, hlen, hpad⟩ :=
        ih (n / 16) f (Nat.digitChar (n % 16) :: ds) hn16 (by omega)
      refine ⟨pre ++ [Nat.digitChar (n % 16)], ?_, by simp; omega, ?_⟩
      · rw [toDigitsCore16_succ, if_neg e1, hpre]
        simp
      · rw [hlast, ← hpad]
        simp only [List.length_append, List.length_singleton, List.append_assoc]
        congr 2
        omega

/-- The eight characters written by the stream for a 32-bit value. -/
theorem streamHexUpper_eight (v : Nat) (hv : v < 2 ^ 32) :
    streamHexUpper 8 v =
      (List.range 8).map (fun k => (Nat.digitChar (v / 16 ^ (7 - k) % 16)).toUpper) := by
  obtain ⟨pre, hpre, hlen, hpad⟩ := toDigitsCore16_digits 7 v (v + 1) [] (by norm_num; omega)
    (by omega)
  unfold streamHexUpper Nat.toDigits
  rw [hpre]
  simp only [List.append_nil, List.length_map]
  have hmap := congrArg (List.map Char.toUpper) hpad
  rw [List.map_append, List.map_replicate, List.map_map] at hmap
  exact hmap

/-- The accumulator of `CalculateChecksum` after the loop over frames of 100
binary digits: the sum of the CRC values modulo `2 ^ 32`. -/
theorem checksumLoop_eq (frames : List (List Char)) :
    ∀ acc : Nat, acc < 2 ^ 32 →
    (∀ f ∈ frames, f.length = 100 ∧ ∀ c ∈ f, c = '0' ∨ c = '1') →
    checksumLoop frames acc = Except.ok ((acc + (frames.map crcValue).sum) % 2 ^ 32) := by
  induction frames with
  | nil =>
    intro acc hacc _
    rw [checksumLoop, List.map_nil, List.sum_nil, Nat.add_zero, Nat.mod_eq_of_lt hacc]
  | cons f rest ih =>
    intro acc hacc hvalid
    obtain ⟨crc, _, hcalc, hlen, hbits, _, _⟩ :=
      CalculateCRC_division f (hvalid f (List.mem_cons_self _ _)).1
        (hvalid f (List.mem_cons_self _ _)).2
    have hall : crc.all (fun c => decide (c = '0' ∨ c = '1')) = true := by
      rw [List.all_eq_true]
      intro c hc
      simpa using hbits c hc
    have hbs : bitsetOfString 16 crc = some (binaryValue crc) := by
      unfold bitsetOfString
      rw [hall, if_pos rfl, List.take_of_length_le (by omega)]
    have hv : crcValue f = binaryValue crc := by
      unfold crcValue
      rw [hcalc]
    have hlt : binaryValue crc < 2 ^ 16 := by
      have h := binaryValue_lt crc
      rwa [hlen] at h
    have hmask : ∀ n : Nat, n &&& 0xFFFFFFFF = n % 2 ^ 32 := by
      intro n
      exact Nat.and_pow_two_sub_one_eq_mod n 32
    rw [checksumLoop]
    simp only [hcalc, hbs]
    rw [hmask, Nat.mod_mod, Nat.mod_eq_of_lt hlt,
      ih _ (Nat.mod_lt _ (by norm_num)) (fun g hg => hvalid g (List.mem_cons_of_mem _ hg)),
      List.map_cons, List.sum_cons, hv]
    congr 1
    rw [Nat.add_mod, Nat.mod_mod, ← Nat.add_mod, Nat.add_assoc]

/-- C15: for every non-empty list of 100-character binary frames,
`MainFrame::CalculateChecksum` returns the eight upper-case base-16 digits
(most significant first, zeros included) of the sum of the frames' 16-bit
`CalculateCRC` values modulo `2 ^ 32`; the function of `viba.cpp` returns the
same string. On the empty list the function of `main.cpp` throws
`std::runtime_error("No frames to calculate checksum")` and the function of
`viba.cpp` returns `"00000000"`. -/
theorem C15_frame_list_checksum (frames : List (List Char)) (hne : frames ≠ [])
    (hvalid : ∀ f ∈ frames, f.length = 100 ∧ ∀ c ∈ f, c = '0' ∨ c = '1') :
    MainFrame.CalculateChecksum frames =
        Except.ok ((List.range 8).map (fun k =>
          (Nat.digitChar ((frames.map crcValue).sum % 2 ^ 32 / 16 ^ (7 - k) % 16)).toUpper)) ∧
    Viba.MainFrame.CalculateChecksum frames = MainFrame.CalculateChecksum frames ∧
    (∀ f ∈ frames, ∃ crc : List Char, MainFrame.CalculateCRC f = some crc ∧ crc.length = 16 ∧
      crcValue f = binaryValue crc ∧ crcValue f < 2 ^ 16) ∧
    MainFrame.CalculateChecksum [] =
        Except.error (Thrown.runtime_error "No frames to calculate checksum") ∧
    Viba.MainFrame.CalculateChecksum [] = Except.ok ['0', '0', '0', '0', '0', '0', '0', '0'] := by
  have hloop := checksumLoop_eq frames 0 (by norm_num) hvalid
  rw [Nat.zero_add] at hloop
  have hemp : frames.isEmpty = false := by
    cases frames with
    | nil => exact absurd rfl hne
    | cons f rest => rfl
  have hmain : MainFrame.CalculateChecksum frames =
      Except.ok ((List.range 8).map (fun k =>
        (Nat.digitChar ((frames.map crcValue).sum % 2 ^ 32 / 16 ^ (7 - k) % 16)).toUpper)) := by
    unfold MainFrame.CalculateChecksum
    rw [hemp, hloop]
    simp only [Bool.false_eq_true, if_false]
    rw [streamHexUpper_eight _ (Nat.mod_lt _ (by norm_num))]
  refine ⟨hmain, ?_, ?_, rfl, rfl⟩
  · rw [hmain]
    unfold Viba.MainFrame.CalculateChecksum
    rw [hloop]
    simp only
    rw [streamHexUpper_eight _ (Nat.mod_lt _ (by norm_num))]
  · intro f hf
    obtain ⟨crc, _, hcalc, hlen, _, _, _⟩ := CalculateCRC_division f (hvalid f hf).1 (hvalid f hf).2
    have hv : crcValue f = binaryValue crc := by
      unfold crcValue
      rw [hcalc]
    refine ⟨crc, hcalc, hlen, hv, ?_⟩
    rw [hv]
    have h := binaryValue_lt crc
    rwa [hlen] at h

/-- Witness for C15: the two frames `1…1` and `0…01`. -/
theorem C15_frame_list_checksum_witness :
    [List.replicate 100 '1', List.replicate 99 '0' ++ ['1']] ≠ [] ∧
    MainFrame.CalculateChecksum [List.replicate 100 '1', List.replicate 99 '0' ++ ['1']] =
      Except.ok ((List.range 8).map (fun k =>
        (Nat.digitChar
          (([List.replicate 100 '1', List.replicate 99 '0' ++ ['1']].map crcValue).sum % 2 ^ 32 /
            16 ^ (7 - k) % 16)).toUpper)) :=
  ⟨List.cons_ne_nil _ _,
    (C15_frame_list_checksum [List.replicate 100 '1', List.replicate 99 '0' ++ ['1']]
      (List.cons_ne_nil _ _) (by
        intro f hf
        simp only [List.mem_cons, List.mem_singleton, List.not_mem_nil, or_false] at hf
        rcases hf with rfl | rfl
        · refine ⟨by simp, ?_⟩
          intro c hc
          rw [List.mem_replicate] at hc
          exact Or.inr hc.2
        · refine ⟨by simp, ?_⟩
          intro c hc
          rw [List.mem_append, List.mem_replicate, List.mem_singleton] at hc
          rcases hc with h | h
          · exact Or.inl h.2
          · exact Or.inr h)).1⟩

end FrameListChecksum

section Cancellation

open DataLinkWorker

/-- The runs of the first `k` frames are the first `k` runs. -/
theorem frameRuns_take (rng : Nat → ℚ) (frames : List Frame) :
    ∀ (k pos : Nat), frameRuns rng (frames.take k) pos = (frameRuns rng frames pos).take k := by
  induction frames with
  | nil =>
    intro k pos
    simp [frameRuns]
  | cons f rest ih =>
    intro k pos
    cases k with
    | zero => simp [frameRuns]
    | succ k =>
      rw [List.take_succ_cons, frameRuns, frameRuns, List.take_succ_cons, ih]

/-- A frame-level event is not one of the three summary events. -/
theorem isSummary_of_isFrameLevel (e : Event) (h : e.isFrameLevel = true) :
    e.isSummary = false := by
  cases e <;> simp_all [Event.isFrameLevel, Event.isSummary]

/-- C16: when the interruption check before frame `k` is the first one that
reads a set flag, `process` handles exactly the frames before `k`, each with
the outcome it has in the run that is never interrupted; frame `k` and the
later frames are left as they were (no attempt, no event, no error info); the
trace is the events of the handled frames followed by the status line
"Transmission stopped by user", with no `checksumCalculated`,
`checksumFrameSent` or `transmissionComplete`; and the result does not depend
on what the flag would have read at any other moment. -/
theorem C16_cancellation_before_frame (w : DataLinkWorker) (rng : Nat → ℚ)
    (interrupted : Nat → Bool) (pos k : Nat) (hk : k < w.frames.length)
    (hbefore : ∀ j, j < k → interrupted j = false) (hat : interrupted k = true) :
    (process w rng interrupted pos).cancelled = true ∧
    (process w rng interrupted pos).runs.length = k ∧
    (process w rng interrupted pos).runs =
      (process w rng (fun _ => false) pos).runs.take k ∧
    (process w rng interrupted pos).localFrames.take k =
      (process w rng interrupted pos).runs.map FrameRun.frame ∧
    (process w rng interrupted pos).localFrames.drop k = w.frames.drop k ∧
    (process w rng interrupted pos).events =
      (process w rng interrupted pos).runs.flatMap FrameRun.events ++
        [Event.statusUpdate "Transmission stopped by user"] ∧
    (∀ e ∈ (process w rng interrupted pos).events, e.isSummary = false) ∧
    (process w rng interrupted pos).worker = w ∧
    (∀ interrupted' : Nat → Bool, (∀ j, j ≤ k → interrupted' j = interrupted j) →
      process w rng interrupted' pos = process w rng interrupted pos) := by
  have hvis : visitedCount interrupted w.frames 0 = k :=
    visitedCount_eq_of_first interrupted w.frames 0 k hk
      (fun j hj => by rw [Nat.zero_add]; exact hbefore j hj) (by rw [Nat.zero_add]; exact hat)
  have hlt : visitedCount interrupted w.frames 0 < w.frames.length := by
    rw [hvis]
    exact hk
  have hall : visitedCount (fun _ => false) w.frames 0 = w.frames.length :=
    visitedCount_eq_length _ _ _ (fun _ _ => rfl)
  obtain ⟨hev, hw, hloc⟩ := process_events_cancelled w rng interrupted pos hlt
  have hruns := process_runs w rng interrupted pos
  rw [hvis] at hev hloc hruns
  have hlen : (frameRuns rng (List.take k w.frames) pos).length = k := by
    rw [frameRuns_length, List.length_take]
    omega
  refine ⟨?_, ?_, ?_, ?_, ?_, ?_, ?_, hw, ?_⟩
  · rw [process_cancelled, hvis]
    simpa using hk
  · rw [hruns, hlen]
  · rw [hruns, process_runs, hall, List.take_length, frameRuns_take]
  · rw [hloc, hruns, List.take_left']
    rw [List.length_map, hlen]
  · rw [hloc, List.drop_left']
    rw [List.length_map, hlen]
  · rw [hev, hruns]
  · intro e he
    rw [hev, List.mem_append, List.mem_singleton] at he
    rcases he with h | rfl
    · exact isSummary_of_isFrameLevel e (frameRuns_events_frameLevel rng _ pos e h)
    · rfl
  · intro interrupted' hsame
    have hvis' : visitedCount interrupted' w.frames 0 = k :=
      visitedCount_eq_of_first interrupted' w.frames 0 k hk
        (fun j hj => by rw [Nat.zero_add, hsame j (le_of_lt hj)]; exact hbefore j hj)
        (by rw [Nat.zero_add, hsame k (le_refl k)]; exact hat)
    unfold process
    dsimp only
    rw [processFrames_eq, processFrames_eq, hvis, hvis']

/-- Witness for C16: five frames, the stop request is seen by the check before
the third frame (index 2): two frames are handled, the last three are left
untouched and no summary event is emitted. -/
theorem C16_cancellation_before_frame_witness :
    (2 < ({ frames := [Frame.ofData [1], Frame.ofData [2], Frame.ofData [3], Frame.ofData [4],
                      Frame.ofData [5]], checksum := "", checksumFrame := "" } : DataLinkWorker).frames.length) ∧
    (DataLinkWorker.process
        { frames := [Frame.ofData [1], Frame.ofData [2], Frame.ofData [3], Frame.ofData [4],
                      Frame.ofData [5]], checksum := "", checksumFrame := "" }
        (fun _ => 0.5) (fun j => decide (2 ≤ j)) 0).runs.length = 2 ∧
    (DataLinkWorker.process
        { frames := [Frame.ofData [1], Frame.ofData [2], Frame.ofData [3], Frame.ofData [4],
                      Frame.ofData [5]], checksum := "", checksumFrame := "" }
        (fun _ => 0.5) (fun j => decide (2 ≤ j)) 0).localFrames.drop 2 =
      [Frame.ofData [3], Frame.ofData [4], Frame.ofData [5]] ∧
    (∀ e ∈ (DataLinkWorker.process
        { frames := [Frame.ofData [1], Frame.ofData [2], Frame.ofData [3], Frame.ofData [4],
                      Frame.ofData [5]], checksum := "", checksumFrame := "" }
        (fun _ => 0.5) (fun j => decide (2 ≤ j)) 0).events, e.isSummary = false) :=
  ⟨by decide,
   (C16_cancellation_before_frame
      { frames := [Frame.ofData [1], Frame.ofData [2], Frame.ofData [3], Frame.ofData [4],
                      Frame.ofData [5]], checksum := "", checksumFrame := "" }
      (fun _ => 0.5) (fun j => decide (2 ≤ j)) 0 2 (by decide)
      (fun j hj => decide_eq_false (by omega)) (decide_eq_true (le_refl 2))).2.1,
   (C16_cancellation_before_frame
      { frames := [Frame.ofData [1], Frame.ofData [2], Frame.ofData [3], Frame.ofData [4],
                      Frame.ofData [5]], checksum := "", checksumFrame := "" }
      (fun _ => 0.5) (fun j => decide (2 ≤ j)) 0 2 (by decide)
      (fun j hj => decide_eq_false (by omega)) (decide_eq_true (le_refl 2))).2.2.2.2.1,
   (C16_cancellation_before_frame
      { frames := [Frame.ofData [1], Frame.ofData [2], Frame.ofData [3], Frame.ofData [4],
                      Frame.ofData [5]], checksum := "", checksumFrame := "" }
      (fun _ => 0.5) (fun j => decide (2 ≤ j)) 0 2 (by decide)
      (fun j hj => decide_eq_false (by omega)) (decide_eq_true (le_refl 2))).2.2.2.2.2.2.1⟩

end Cancellation

section StartStop

open DataLinkLayer

end StartStop

section FrameProcessedEvents

open DataLinkWorker

/-- C18: for every frame and every sequence of draws, the number of
`frameProcessed` events emitted for the frame equals the number of its attempts
that were neither lost nor corrupted, and a frame lost or corrupted on all of
its attempts produces no `frameProcessed` event. In an attempt that is neither
lost nor corrupted the event is emitted before the ACK-loss draw: whatever the
third draw of the attempt is, the attempt emits the same snapshot (the frame
with its CRC recomputed and its payload stuffed), followed by the status line
for the ACK outcome. -/
theorem C18_frameProcessed_per_delivered_attempt (rng : Nat → ℚ) (frame : Frame) (pos : Nat) :
    (processFrame rng frame pos).events.countP Event.isFrameProcessed =
      (processFrame rng frame pos).attempts.countP
        (fun a => decide (a ≠ AttemptOutcome.lost ∧ a ≠ AttemptOutcome.corrupted)) ∧
    ((∀ a ∈ (processFrame rng frame pos).attempts,
        a = AttemptOutcome.lost ∨ a = AttemptOutcome.corrupted) →
      ∀ e ∈ (processFrame rng frame pos).events, e.isFrameProcessed = false) ∧
    (∀ st : RetryState, ¬ rng st.pos < 0.10 → ¬ rng (st.pos + 1) < 0.20 →
      ∀ rng' : Nat → ℚ, rng' st.pos = rng st.pos → rng' (st.pos + 1) = rng (st.pos + 1) →
        ∃ status : String,
          (attempt rng' st).events =
            st.events ++
              [Event.frameProcessed
                 (st.frame.calculateCRC.setData (applyByteStuffing st.frame.calculateCRC.data)),
               Event.statusUpdate status] ∧
          (attempt rng' st).pos = st.pos + 3 ∧
          ((attempt rng' st).attempts = st.attempts ++ [AttemptOutcome.ackLost] ↔
            rng' (st.pos + 2) < 0.15) ∧
          ((attempt rng' st).attempts = st.attempts ++ [AttemptOutcome.acked] ↔
            ¬ rng' (st.pos + 2) < 0.15)) ∧
    (∀ st : RetryState, (rng st.pos < 0.10 ∨ rng (st.pos + 1) < 0.20) →
      ∃ status : String, (attempt rng st).events = st.events ++ [Event.statusUpdate status]) := by
  have hfun : (fun a => decide (a ≠ AttemptOutcome.lost ∧ a ≠ AttemptOutcome.corrupted)) =
      AttemptOutcome.delivered := by
    funext a
    cases a <;> rfl
  have hcount : (processFrame rng frame pos).events.countP Event.isFrameProcessed =
      (processFrame rng frame pos).attempts.countP
        (fun a => decide (a ≠ AttemptOutcome.lost ∧ a ≠ AttemptOutcome.corrupted)) := by
    rw [hfun]
    exact (processFrame_events rng frame pos).2
  refine ⟨hcount, ?_, ?_, ?_⟩
  · intro hall e he
    have hzero : (processFrame rng frame pos).attempts.countP
        (fun a => decide (a ≠ AttemptOutcome.lost ∧ a ≠ AttemptOutcome.corrupted)) = 0 := by
      rw [List.countP_eq_zero]
      intro a ha
      rcases hall a ha with h | h <;> simp [h]
    rw [hzero, List.countP_eq_zero] at hcount
    simpa using hcount e he
  · intro st hl hc rng' h0 h1
    have hl' : ¬ rng' st.pos < 0.10 := by rw [h0]; exact hl
    have hc' : ¬ rng' (st.pos + 1) < 0.20 := by rw [h1]; exact hc
    unfold attempt simulateDataLoss simulateDataCorruption simulateAckLoss
    dsimp only
    rw [if_neg (by simpa using hl'), if_neg (by simpa using hc')]
    by_cases ha : rng' (st.pos + 2) < 0.15
    · rw [if_pos (by simpa using ha)]
      exact ⟨_, List.append_assoc _ _ _, rfl, by simp [ha], by simp [ha]⟩
    · rw [if_neg (by simpa using ha)]
      exact ⟨_, List.append_assoc _ _ _, rfl, by simp [ha], by simp [ha]⟩
  · intro st hlc
    unfold attempt simulateDataLoss simulateDataCorruption
    dsimp only
    by_cases hl : rng st.pos < 0.10
    · rw [if_pos (by simpa using hl)]
      exact ⟨_, rfl⟩
    · have hc : rng (st.pos + 1) < 0.20 := by
        rcases hlc with h | h
        · exact absurd h hl
        · exact h
      rw [if_neg (by simpa using hl), if_pos (by simpa using hc)]
      exact ⟨_, rfl⟩

end FrameProcessedEvents

section EventOrder

open DataLinkWorker DataLinkLayer

/-- One pass through the loop body keeps the frame number, and a
`frameProcessed` signal it emits carries that number. -/
theorem attempt_numbers (rng : Nat → ℚ) (st : RetryState) :
    (attempt rng st).frame.frameNumber = st.frame.frameNumber ∧
    ∃ new : List Event, (attempt rng st).events = st.events ++ new ∧
      ∀ n ∈ frameProcessedNumbers new, n = st.frame.frameNumber := by
  unfold attempt
  dsimp only
  split_ifs with hl hc ha
  · exact ⟨rfl, [_], rfl, by simp [frameProcessedNumbers, Event.processedFrameNumber]⟩
  · exact ⟨rfl, [_], rfl, by simp [frameProcessedNumbers, Event.processedFrameNumber]⟩
  · refine ⟨rfl, [Event.frameProcessed _, Event.statusUpdate _], List.append_assoc _ _ _, ?_⟩
    intro n hn
    simp only [frameProcessedNumbers, List.filterMap_cons, Event.processedFrameNumber,
      List.filterMap_nil, List.mem_singleton] at hn
    rw [hn]
    rfl
  · refine ⟨rfl, [Event.frameProcessed _, Event.statusUpdate _], List.append_assoc _ _ _, ?_⟩
    intro n hn
    simp only [frameProcessedNumbers, List.filterMap_cons, Event.processedFrameNumber,
      List.filterMap_nil, List.mem_singleton] at hn
    rw [hn]
    rfl

/-- The retry loop keeps the frame number, and every `frameProcessed` signal
it emits carries that number. -/
theorem retryLoop_numbers (rng : Nat → ℚ) (st : RetryState) :
    (retryLoop rng st).frame.frameNumber = st.frame.frameNumber ∧
    ∃ new : List Event, (retryLoop rng st).events = st.events ++ new ∧
      ∀ n ∈ frameProcessedNumbers new, n = st.frame.frameNumber := by
  induction st using retryLoop.induct rng with
  | case1 st hg ih =>
    rw [retryLoop, dif_pos hg]
    obtain ⟨h0, new1, h1, h2⟩ := attempt_numbers rng st
    obtain ⟨k0, new2, k1, k2⟩ := ih
    refine ⟨by rw [k0, h0], new1 ++ new2, by rw [k1, h1, List.append_assoc], ?_⟩
    intro n hn
    unfold frameProcessedNumbers at hn
    rw [List.filterMap_append, List.mem_append] at hn
    rcases hn with hn | hn
    · exact h2 n hn
    · rw [← h0]
      exact k2 n hn
  | case2 st hg =>
    rw [retryLoop, dif_neg hg]
    exact ⟨rfl, [], by simp, by simp [frameProcessedNumbers]⟩

/-- Every `frameProcessed` signal emitted for a frame carries the number of
that frame. -/
theorem processFrame_numbers (rng : Nat → ℚ) (frame : Frame) (pos : Nat) :
    ∀ n ∈ frameProcessedNumbers (processFrame rng frame pos).events, n = frame.frameNumber := by
  obtain ⟨_, new, h1, h2⟩ := retryLoop_numbers rng
    { frame := frame, retryCount := 0, acked := false, pos := pos, events := [], attempts := [] }
  rw [List.nil_append] at h1
  unfold processFrame
  dsimp only
  split_ifs with hacked
  · intro n hn
    rw [h1] at hn
    unfold frameProcessedNumbers at hn
    rw [List.filterMap_append, List.mem_append] at hn
    rcases hn with hn | hn
    · exact h2 n hn
    · simp [Event.processedFrameNumber] at hn
  · intro n hn
    rw [h1] at hn
    exact h2 n hn

/-- The frame numbers of the `frameProcessed` signals of a sequence of runs
are numbers of the frames, and they are in non-decreasing order when the
frames are. -/
theorem frameRuns_numbers (rng : Nat → ℚ) (frames : List Frame) :
    ∀ pos : Nat, (frames.map Frame.frameNumber).Pairwise (fun a b => a ≤ b) →
      (∀ n ∈ frameProcessedNumbers ((frameRuns rng frames pos).flatMap FrameRun.events),
        ∃ f ∈ frames, n = f.frameNumber) ∧
      (frameProcessedNumbers ((frameRuns rng frames pos).flatMap FrameRun.events)).Pairwise
        (fun a b => a ≤ b) := by
  induction frames with
  | nil =>
    intro pos _
    simp [frameRuns, frameProcessedNumbers]
  | cons f rest ih =>
    intro pos hsorted
    rw [List.map_cons, List.pairwise_cons] at hsorted
    obtain ⟨hmem, hpw⟩ := ih (processFrame rng f pos).pos hsorted.2
    have hsplit : frameProcessedNumbers ((frameRuns rng (f :: rest) pos).flatMap FrameRun.events) =
        frameProcessedNumbers (processFrame rng f pos).events ++
          frameProcessedNumbers
            ((frameRuns rng rest (processFrame rng f pos).pos).flatMap FrameRun.events) := by
      rw [frameRuns, List.flatMap_cons]
      unfold frameProcessedNumbers
      rw [List.filterMap_append]
    rw [hsplit]
    refine ⟨?_, ?_⟩
    · intro n hn
      rw [List.mem_append] at hn
      rcases hn with hn | hn
      · exact ⟨f, List.mem_cons_self _ _, processFrame_numbers rng f pos n hn⟩
      · obtain ⟨g, hg, hgn⟩ := hmem n hn
        exact ⟨g, List.mem_cons_of_mem _ hg, hgn⟩
    · rw [List.pairwise_append]
      refine ⟨?_, hpw, ?_⟩
      · rw [List.pairwise_iff_forall_sublist]
        intro a b hab
        have ha := processFrame_numbers rng f pos a (hab.subset (List.mem_cons_self _ _))
        have hb := processFrame_numbers rng f pos b
          (hab.subset (List.mem_cons_of_mem _ (List.mem_singleton_self _)))
        rw [ha, hb]
      · intro a ha b hb
        rw [processFrame_numbers rng f pos a ha]
        obtain ⟨g, hg, hgn⟩ := hmem b hb
        rw [hgn]
        exact hsorted.1 _ (List.mem_map_of_mem _ hg)

end EventOrder

section EventOrderRun

open DataLinkWorker DataLinkLayer

/-- A frame-level event is none of the three closing signals, and a closing
signal or the checksum error carries no frame number. -/
theorem frameLevel_not_closing (e : Event) (h : e.isFrameLevel = true) :
    e.isChecksumCalculated = false ∧ e.isChecksumFrameSent = false ∧
      e.isTransmissionComplete = false := by
  cases e <;> simp_all [Event.isFrameLevel, Event.isChecksumCalculated,
    Event.isChecksumFrameSent, Event.isTransmissionComplete]

/-- The frames built by `loadFile` are numbered in non-decreasing order. -/
theorem loadFile_numbers_sorted (layer : DataLinkLayer) (filePath : String)
    (fileData : List UInt8) :
    ((loadFile layer filePath (some fileData)).2.1.worker.frames.map
      Frame.frameNumber).Pairwise (fun a b => a ≤ b) := by
  have hw : (loadFile layer filePath (some fileData)).2.1.worker.frames =
      (framingStep fileData).1 := rfl
  rw [hw, framingStep_frames, List.map_map, List.pairwise_map]
  refine List.Pairwise.imp ?_ (List.pairwise_lt_range _)
  intro a b hab
  simp only [Function.comp_apply, (loadFrameBody_shape _ _).1]
  exact_mod_cast le_of_lt hab

/-- C19: in the trace of a run of `process` that is not interrupted, over the
frames of a non-empty file, the events of the frames come first; then
`checksumCalculated`, `checksumFrameSent`, possibly
`errorOccurred("Checksum error detected")`, and `transmissionComplete` as the
last event. The frame numbers of the `frameProcessed` events are in
non-decreasing order, and each of the three closing signals occurs exactly
once. -/
theorem C19_event_order (layer : DataLinkLayer) (filePath : String) (fileData : List UInt8)
    (rng : Nat → ℚ) (interrupted : Nat → Bool) (pos : Nat) (hne : fileData ≠ [])
    (hrun : ∀ k, k < (DataLinkLayer.loadFile layer filePath (some fileData)).2.1.frames.length →
      interrupted k = false) :
    (∃ (frameEvents : List Event) (checksum checksumFrame : String) (err : List Event),
      (DataLinkWorker.process (DataLinkLayer.loadFile layer filePath (some fileData)).2.1.worker
          rng interrupted pos).events =
        frameEvents ++
          ([Event.checksumCalculated checksum, Event.checksumFrameSent checksumFrame] ++
            (err ++ [Event.transmissionComplete])) ∧
      (∀ e ∈ frameEvents, e.isFrameLevel = true) ∧
      (err = [] ∨ err = [Event.errorOccurred "Checksum error detected"])) ∧
    (frameProcessedNumbers
      (DataLinkWorker.process (DataLinkLayer.loadFile layer filePath (some fileData)).2.1.worker
        rng interrupted pos).events).Pairwise (fun a b => a ≤ b) ∧
    (DataLinkWorker.process (DataLinkLayer.loadFile layer filePath (some fileData)).2.1.worker
        rng interrupted pos).events.countP Event.isChecksumCalculated = 1 ∧
    (DataLinkWorker.process (DataLinkLayer.loadFile layer filePath (some fileData)).2.1.worker
        rng interrupted pos).events.countP Event.isChecksumFrameSent = 1 ∧
    (DataLinkWorker.process (DataLinkLayer.loadFile layer filePath (some fileData)).2.1.worker
        rng interrupted pos).events.countP Event.isTransmissionComplete = 1 ∧
    (DataLinkWorker.process (DataLinkLayer.loadFile layer filePath (some fileData)).2.1.worker
        rng interrupted pos).events.getLast? = some Event.transmissionComplete := by
  have hw : (loadFile layer filePath (some fileData)).2.1.worker.frames =
      (loadFile layer filePath (some fileData)).2.1.frames := rfl
  have hpos := loadFile_frames_length_pos layer filePath fileData hne
  have hsorted := loadFile_numbers_sorted layer filePath fileData
  generalize (loadFile layer filePath (some fileData)).2.1.worker = w at hw hsorted ⊢
  rw [← hw] at hrun hpos
  have hwne : w.frames ≠ [] := by
    intro h
    rw [h] at hpos
    exact absurd hpos (by decide)
  have hvis : visitedCount interrupted w.frames 0 = w.frames.length :=
    visitedCount_eq_length interrupted w.frames 0
      (fun k hk => by rw [Nat.zero_add]; exact hrun k hk)
  have hev := process_events_completed w rng interrupted pos hwne hvis
  have hfl := frameRuns_events_frameLevel rng w.frames pos
  have hnum := (frameRuns_numbers rng w.frames pos hsorted).2
  have herr : ∀ err : List Event, (err = [] ∨ err = [Event.errorOccurred "Checksum error detected"]) →
      ∀ (fe : List Event) (cs cf : String), (∀ e ∈ fe, e.isFrameLevel = true) →
        (frameProcessedNumbers fe).Pairwise (fun a b => a ≤ b) →
        (frameProcessedNumbers (fe ++ ([Event.checksumCalculated cs, Event.checksumFrameSent cf] ++
            (err ++ [Event.transmissionComplete])))).Pairwise (fun a b => a ≤ b) ∧
        (fe ++ ([Event.checksumCalculated cs, Event.checksumFrameSent cf] ++
            (err ++ [Event.transmissionComplete]))).countP Event.isChecksumCalculated = 1 ∧
        (fe ++ ([Event.checksumCalculated cs, Event.checksumFrameSent cf] ++
            (err ++ [Event.transmissionComplete]))).countP Event.isChecksumFrameSent = 1 ∧
        (fe ++ ([Event.checksumCalculated cs, Event.checksumFrameSent cf] ++
            (err ++ [Event.transmissionComplete]))).countP Event.isTransmissionComplete = 1 ∧
        (fe ++ ([Event.checksumCalculated cs, Event.checksumFrameSent cf] ++
            (err ++ [Event.transmissionComplete]))).getLast? = some Event.transmissionComplete := by
    intro err herr fe cs cf hfe hpw
    have h1 : fe.countP Event.isChecksumCalculated = 0 := by
      rw [List.countP_eq_zero]
      intro e he
      simp [(frameLevel_not_closing e (hfe e he)).1]
    have h2 : fe.countP Event.isChecksumFrameSent = 0 := by
      rw [List.countP_eq_zero]
      intro e he
      simp [(frameLevel_not_closing e (hfe e he)).2.1]
    have h3 : fe.countP Event.isTransmissionComplete = 0 := by
      rw [List.countP_eq_zero]
      intro e he
      simp [(frameLevel_not_closing e (hfe e he)).2.2]
    rcases herr with rfl | rfl
    · refine ⟨?_, ?_, ?_, ?_, ?_⟩
      · unfold frameProcessedNumbers at hpw ⊢
        rw [List.filterMap_append]
        simpa [Event.processedFrameNumber] using hpw
      · rw [List.countP_append, h1]
        rfl
      · rw [List.countP_append, h2]
        rfl
      · rw [List.countP_append, h3]
        rfl
      · simp
    · refine ⟨?_, ?_, ?_, ?_, ?_⟩
      · unfold frameProcessedNumbers at hpw ⊢
        rw [List.filterMap_append]
        simpa [Event.processedFrameNumber] using hpw
      · rw [List.countP_append, h1]
        rfl
      · rw [List.countP_append, h2]
        rfl
      · rw [List.countP_append, h3]
        rfl
      · simp
  have hcase : (if rng (runsEndPos (frameRuns rng w.frames pos) pos) < 0.05 then
        [Event.errorOccurred "Checksum error detected"] else []) = [] ∨
      (if rng (runsEndPos (frameRuns rng w.frames pos) pos) < 0.05 then
        [Event.errorOccurred "Checksum error detected"] else []) =
        [Event.errorOccurred "Checksum error detected"] := by
    split
    · exact Or.inr rfl
    · exact Or.inl rfl
  rw [hev]
  exact ⟨⟨_, _, _, _, rfl, hfl, hcase⟩, herr _ hcase _ _ _ hfl hnum⟩

/-- Witness for C19: a thirteen-byte file (two frames), every draw 0.5, no
interruption. -/
theorem C19_event_order_witness :
    ([0x41, 0x7E, 0x7D, 0x00, 0xFF, 0x10, 0x20, 0x30, 0x40, 0x50, 0x60, 0x70, 0x80] :
        List UInt8) ≠ [] ∧
    (DataLinkWorker.process
        (DataLinkLayer.loadFile DataLinkLayer.new "a.dat"
          (some [0x41, 0x7E, 0x7D, 0x00, 0xFF, 0x10, 0x20, 0x30, 0x40, 0x50, 0x60, 0x70,
            0x80])).2.1.worker
        (fun _ => 0.5) (fun _ => false) 0).events.getLast? = some Event.transmissionComplete :=
  ⟨by decide,
    (C19_event_order DataLinkLayer.new "a.dat"
      [0x41, 0x7E, 0x7D, 0x00, 0xFF, 0x10, 0x20, 0x30, 0x40, 0x50, 0x60, 0x70, 0x80]
      (fun _ => 0.5) (fun _ => false) 0 (by decide) (fun _ _ => rfl)).2.2.2.2.2⟩

end EventOrderRun

section SingleBitFlip

open MainFrame Polynomial

/-- Horner's rule over a digit string started from a polynomial `p`. -/
theorem foldl_bitStringPoly (t : List Char) (p : Polynomial (ZMod 2)) :
    t.foldl (fun p c => p * X + (if c = '1' then 1 else 0)) p =
      p * X ^ t.length +
        t.foldl (fun p c => p * X + (if c = '1' then 1 else 0)) (0 : Polynomial (ZMod 2)) := by
  induction t generalizing p with
  | nil => simp
  | cons c r ih =>
    rw [List.foldl_cons, List.foldl_cons, ih (p * X + _), ih (0 * X + _), List.length_cons]
    ring

/-- The polynomial of a frame with one digit exchanged differs from the
polynomial of the frame by one power of `x`. -/
theorem bitStringPoly_flipBit (frame : List Char) (i : Nat) (hi : i < frame.length)
    (hbits : ∀ c ∈ frame, c = '0' ∨ c = '1') :
    (flipBit frame i).foldl (fun p c => p * X + (if c = '1' then 1 else 0))
        (0 : Polynomial (ZMod 2)) =
      frame.foldl (fun p c => p * X + (if c = '1' then 1 else 0)) (0 : Polynomial (ZMod 2)) +
        X ^ (frame.length - 1 - i) := by
  have hsplit : frame = frame.take i ++ frame[i] :: frame.drop (i + 1) := by
    rw [List.getElem_cons_drop, List.take_append_drop]
  have hflip : flipBit frame i =
      frame.take i ++ (if frame[i] = '1' then '0' else '1') :: frame.drop (i + 1) := by
    unfold flipBit
    rw [List.set_eq_take_append_cons_drop, if_pos hi, List.getD_eq_getElem _ _ hi]
  have hlen : (frame.drop (i + 1)).length = frame.length - 1 - i := by
    rw [List.length_drop]
    omega
  have hc := hbits frame[i] (List.getElem_mem _)
  have two : (1 : Polynomial (ZMod 2)) + 1 = 0 := CharTwo.add_self_eq_zero 1
  have hpoly : frame.foldl (fun p c => p * X + (if c = '1' then 1 else 0))
        (0 : Polynomial (ZMod 2)) =
      (frame.take i ++ frame[i] :: frame.drop (i + 1)).foldl
        (fun p c => p * X + (if c = '1' then 1 else 0)) (0 : Polynomial (ZMod 2)) := by
    rw [← hsplit]
  rw [hflip, hpoly, ← hlen]
  generalize frame[i] = c at hc
  generalize frame.take i = a
  generalize frame.drop (i + 1) = b
  rw [List.foldl_append, List.foldl_append, List.foldl_cons, List.foldl_cons,
    foldl_bitStringPoly b (_ * X + _), foldl_bitStringPoly b (_ * X + _)]
  have key : ∀ u v w : Polynomial (ZMod 2), (u + 1) * v + w + v = u * v + w + (1 + 1) * v := by
    intro u v w
    ring
  rcases hc with h | h
  · rw [h]
    simp only [Char.reduceEq, if_false, if_true]
    ring
  · rw [h]
    simp only [Char.reduceEq, if_false, if_true]
    rw [add_zero, key, two]
    ring

/-- The generator polynomial divides no power of `x`. -/
theorem crcGenerator_not_dvd_X_pow (n : Nat) :
    ¬ (X ^ 16 + X ^ 12 + X ^ 5 + 1 : Polynomial (ZMod 2)) ∣ X ^ n := by
  intro hdvd
  have hcop : IsCoprime (X ^ 16 + X ^ 12 + X ^ 5 + 1 : Polynomial (ZMod 2)) (X ^ n) := by
    apply IsCoprime.pow_right
    exact ⟨1, -(X ^ 15 + X ^ 11 + X ^ 4), by ring⟩
  have hunit := hcop.isUnit_of_dvd' (dvd_refl _) hdvd
  have hdeg := Polynomial.degree_eq_zero_of_isUnit hunit
  have h16 : (X ^ 16 + X ^ 12 + X ^ 5 + 1 : Polynomial (ZMod 2)).degree = 16 := by
    compute_degree!
  rw [h16] at hdeg
  exact absurd hdeg (by decide)

/-- C20: for every frame of 100 binary digits and every position `i < 100`,
the frame with the digit at position `i` exchanged is again a frame of 100
binary digits, it differs from the frame at position `i` only, and
`MainFrame::CalculateCRC` returns a different string for it. -/
theorem C20_single_bit_flip_changes_crc (frame : List Char) (hlen : frame.length = 100)
    (hbits : ∀ c ∈ frame, c = '0' ∨ c = '1') (i : Nat) (hi : i < 100) :
    MainFrame.CalculateCRC (MainFrame.flipBit frame i) ≠ MainFrame.CalculateCRC frame ∧
    (∃ crc crc' : List Char, MainFrame.CalculateCRC frame = some crc ∧
      MainFrame.CalculateCRC (MainFrame.flipBit frame i) = some crc' ∧ crc' ≠ crc) ∧
    (MainFrame.flipBit frame i).length = 100 ∧
    (∀ c ∈ MainFrame.flipBit frame i, c = '0' ∨ c = '1') ∧
    (MainFrame.flipBit frame i)[i]? ≠ frame[i]? ∧
    (∀ k, k ≠ i → (MainFrame.flipBit frame i)[k]? = frame[k]?) := by
  have hlen' : (flipBit frame i).length = 100 := by
    unfold flipBit
    rw [List.length_set, hlen]
  have hbits' : ∀ c ∈ flipBit frame i, c = '0' ∨ c = '1' := by
    intro c hc
    unfold flipBit at hc
    rcases List.mem_or_eq_of_mem_set hc with h | h
    · exact hbits c h
    · rw [h]
      split
      · exact Or.inl rfl
      · exact Or.inr rfl
  obtain ⟨c1, q1, hc1, _, _, hd1, _⟩ := CalculateCRC_division frame hlen hbits
  obtain ⟨c2, q2, hc2, _, _, hd2, _⟩ := CalculateCRC_division (flipBit frame i) hlen' hbits'
  have hne : c2 ≠ c1 := by
    intro heq
    rw [heq, bitStringPoly_flipBit frame i (by omega) hbits] at hd2
    apply crcGenerator_not_dvd_X_pow (frame.length - 1 - i + 16)
    refine ⟨q2 - q1, ?_⟩
    have hsub : (X : Polynomial (ZMod 2)) ^ (frame.length - 1 - i + 16) =
        (frame.foldl (fun p c => p * X + (if c = '1' then 1 else 0)) (0 : Polynomial (ZMod 2)) +
            X ^ (frame.length - 1 - i)) * X ^ 16 -
          frame.foldl (fun p c => p * X + (if c = '1' then 1 else 0))
            (0 : Polynomial (ZMod 2)) * X ^ 16 := by
      rw [pow_add]
      ring
    rw [hsub, ← hd2, ← hd1]
    ring
  refine ⟨?_, ⟨c1, c2, hc1, hc2, hne⟩, hlen', hbits', ?_, ?_⟩
  · rw [hc1, hc2]
    intro h
    exact hne (Option.some.inj h)
  · unfold flipBit
    have hfi : i < frame.length := by omega
    rw [List.getElem?_set_self hfi, List.getElem?_eq_getElem hfi,
      List.getD_eq_getElem _ _ hfi]
    intro h
    have h' := Option.some.inj h
    rcases hbits frame[i] (List.getElem_mem _) with hc | hc
    · rw [hc] at h'
      simp at h'
    · rw [hc] at h'
      simp at h'
  · intro k hk
    unfold flipBit
    rw [List.getElem?_set_ne (Ne.symm hk)]

/-- Witness for C20: the all-zero frame with its first digit exchanged. -/
theorem C20_single_bit_flip_changes_crc_witness :
    (List.replicate 100 '0').length = 100 ∧ 0 < 100 ∧
    MainFrame.CalculateCRC (MainFrame.flipBit (List.replicate 100 '0') 0) ≠
      MainFrame.CalculateCRC (List.replicate 100 '0') :=
  ⟨List.length_replicate _ _, by decide,
    (C20_single_bit_flip_changes_crc (List.replicate 100 '0') (List.length_replicate _ _)
      (fun c hc => Or.inl (List.eq_of_mem_replicate hc)) 0 (by decide)).1⟩

end SingleBitFlip

section AttemptCases

open DataLinkWorker Frame

/-- The four ways one pass through the loop body can go, with what each does
to the draw counter, the loop variables and the frame. -/
theorem attempt_cases (rng : Nat → ℚ) (st : RetryState) :
    (rng st.pos < 0.10 ∧
      (attempt rng st).attempts = st.attempts ++ [AttemptOutcome.lost] ∧
      (attempt rng st).pos = st.pos + 1 ∧
      (attempt rng st).acked = st.acked ∧
      (attempt rng st).retryCount = st.retryCount + 1 ∧
      (attempt rng st).frame.data = applyByteStuffing st.frame.data ∧
      (attempt rng st).frame.valid = false ∧
      (attempt rng st).frame.errorInfo =
        mapInsert st.frame.errorInfo "Lost"
          ("Frame lost during transmission " ++ attemptText st.retryCount)) ∨
    (¬ rng st.pos < 0.10 ∧ rng (st.pos + 1) < 0.20 ∧
      (attempt rng st).attempts = st.attempts ++ [AttemptOutcome.corrupted] ∧
      (attempt rng st).pos = st.pos + 2 ∧
      (attempt rng st).acked = st.acked ∧
      (attempt rng st).retryCount = st.retryCount + 1 ∧
      (attempt rng st).frame.data = applyByteStuffing st.frame.data ∧
      (attempt rng st).frame.valid = false ∧
      (attempt rng st).frame.errorInfo =
        mapInsert st.frame.errorInfo "Corrupted"
          ("Frame corrupted during transmission " ++ attemptText st.retryCount)) ∨
    (¬ rng st.pos < 0.10 ∧ ¬ rng (st.pos + 1) < 0.20 ∧ rng (st.pos + 2) < 0.15 ∧
      (attempt rng st).attempts = st.attempts ++ [AttemptOutcome.ackLost] ∧
      (attempt rng st).pos = st.pos + 3 ∧
      (attempt rng st).acked = st.acked ∧
      (attempt rng st).retryCount = st.retryCount + 1 ∧
      (attempt rng st).frame.data = st.frame.data ∧
      (attempt rng st).frame.valid = false ∧
      (attempt rng st).frame.errorInfo =
        mapInsert st.frame.errorInfo "ACK Lost"
          ("ACK lost during transmission " ++ attemptText st.retryCount)) ∨
    (¬ rng st.pos < 0.10 ∧ ¬ rng (st.pos + 1) < 0.20 ∧ ¬ rng (st.pos + 2) < 0.15 ∧
      (attempt rng st).attempts = st.attempts ++ [AttemptOutcome.acked] ∧
      (attempt rng st).pos = st.pos + 3 ∧
      (attempt rng st).acked = true ∧
      (attempt rng st).retryCount = st.retryCount ∧
      (attempt rng st).frame.data = st.frame.data ∧
      (attempt rng st).frame.valid = st.frame.valid ∧
      (attempt rng st).frame.errorInfo = st.frame.errorInfo) := by
  have hdata : removeByteStuffing (applyByteStuffing st.frame.data) = st.frame.data :=
    removeByteStuffing_applyByteStuffing _
  unfold attempt simulateDataLoss simulateDataCorruption simulateAckLoss
  dsimp only
  by_cases hl : rng st.pos < 0.10
  · rw [if_pos (by simpa using hl)]
    exact Or.inl ⟨hl, rfl, rfl, rfl, rfl, rfl, rfl, rfl⟩
  · rw [if_neg (by simpa using hl)]
    by_cases hc : rng (st.pos + 1) < 0.20
    · rw [if_pos (by simpa using hc)]
      exact Or.inr (Or.inl ⟨hl, hc, rfl, rfl, rfl, rfl, rfl, rfl, rfl⟩)
    · rw [if_neg (by simpa using hc)]
      by_cases ha : rng (st.pos + 2) < 0.15
      · rw [if_pos (by simpa using ha)]
        exact Or.inr (Or.inr (Or.inl ⟨hl, hc, ha, rfl, rfl, rfl, rfl, hdata, rfl, rfl⟩))
      · rw [if_neg (by simpa using ha)]
        exact Or.inr (Or.inr (Or.inr ⟨hl, hc, ha, rfl, rfl, rfl, rfl, hdata, rfl, rfl⟩))

/-- The result of a pass through the loop body depends on the draws at the
positions `pos`, `pos + 1` and `pos + 2` only; on the first alone when it is
below 0.10, and on the first two alone when the second is below 0.20. -/
theorem attempt_congr (rng rng' : Nat → ℚ) (st : RetryState) (h0 : rng' st.pos = rng st.pos)
    (h1 : ¬ rng st.pos < 0.10 → rng' (st.pos + 1) = rng (st.pos + 1))
    (h2 : ¬ rng st.pos < 0.10 → ¬ rng (st.pos + 1) < 0.20 →
      rng' (st.pos + 2) = rng (st.pos + 2)) :
    attempt rng' st = attempt rng st := by
  unfold attempt simulateDataLoss simulateDataCorruption simulateAckLoss
  dsimp only
  rw [h0]
  by_cases hl : rng st.pos < 0.10
  · have hl' : decide (rng st.pos < 0.10) = true := by simpa using hl
    rw [if_pos hl', if_pos hl']
  · have hl' : ¬ decide (rng st.pos < 0.10) = true := by simpa using hl
    rw [if_neg hl', if_neg hl', h1 hl]
    by_cases hc : rng (st.pos + 1) < 0.20
    · have hc' : decide (rng (st.pos + 1) < 0.20) = true := by simpa using hc
      rw [if_pos hc', if_pos hc']
    · have hc' : ¬ decide (rng (st.pos + 1) < 0.20) = true := by simpa using hc
      have h2' : rng' (st.pos + 1 + 1) = rng (st.pos + 1 + 1) := h2 hl hc
      rw [if_neg hc', if_neg hc', h2']

/-- C21: in one pass through the loop body the samplers are consulted in the
order loss, corruption, ACK loss, each one only when the ones before it
returned false. A pass that is Lost makes one draw and its result does not
depend on any later value of the random source; a Corrupted pass makes two
draws and depends on the first two values only; an ACK Lost or acknowledged
pass makes three draws. A pass records exactly one error kind (`Lost`,
`Corrupted` or `ACK Lost`) or, when acknowledged, none. -/
theorem C21_sampler_priority (rng : Nat → ℚ) (st : RetryState) :
    (rng st.pos < 0.10 →
      (attempt rng st).attempts = st.attempts ++ [AttemptOutcome.lost] ∧
      (attempt rng st).pos = st.pos + 1 ∧
      (∃ description : String,
        (attempt rng st).frame.errorInfo = mapInsert st.frame.errorInfo "Lost" description) ∧
      (∀ rng' : Nat → ℚ, rng' st.pos = rng st.pos → attempt rng' st = attempt rng st)) ∧
    (¬ rng st.pos < 0.10 → rng (st.pos + 1) < 0.20 →
      (attempt rng st).attempts = st.attempts ++ [AttemptOutcome.corrupted] ∧
      (attempt rng st).pos = st.pos + 2 ∧
      (∃ description : String,
        (attempt rng st).frame.errorInfo =
          mapInsert st.frame.errorInfo "Corrupted" description) ∧
      (∀ rng' : Nat → ℚ, rng' st.pos = rng st.pos → rng' (st.pos + 1) = rng (st.pos + 1) →
        attempt rng' st = attempt rng st)) ∧
    (¬ rng st.pos < 0.10 → ¬ rng (st.pos + 1) < 0.20 → rng (st.pos + 2) < 0.15 →
      (attempt rng st).attempts = st.attempts ++ [AttemptOutcome.ackLost] ∧
      (attempt rng st).pos = st.pos + 3 ∧
      (∃ description : String,
        (attempt rng st).frame.errorInfo =
          mapInsert st.frame.errorInfo "ACK Lost" description)) ∧
    (¬ rng st.pos < 0.10 → ¬ rng (st.pos + 1) < 0.20 → ¬ rng (st.pos + 2) < 0.15 →
      (attempt rng st).attempts = st.attempts ++ [AttemptOutcome.acked] ∧
      (attempt rng st).pos = st.pos + 3 ∧
      (attempt rng st).frame.errorInfo = st.frame.errorInfo) ∧
    (∀ rng' : Nat → ℚ, rng' st.pos = rng st.pos → rng' (st.pos + 1) = rng (st.pos + 1) →
      rng' (st.pos + 2) = rng (st.pos + 2) → attempt rng' st = attempt rng st) := by
  refine ⟨?_, ?_, ?_, ?_, ?_⟩
  · intro hl
    rcases attempt_cases rng st with h | h | h | h
    · exact ⟨h.2.1, h.2.2.1, ⟨_, h.2.2.2.2.2.2.2⟩,
        fun rng' h0 => attempt_congr rng rng' st h0 (fun hn => absurd hl hn)
          (fun hn => absurd hl hn)⟩
    · exact absurd hl h.1
    · exact absurd hl h.1
    · exact absurd hl h.1
  · intro hl hc
    rcases attempt_cases rng st with h | h | h | h
    · exact absurd h.1 hl
    · exact ⟨h.2.2.1, h.2.2.2.1, ⟨_, h.2.2.2.2.2.2.2.2⟩,
        fun rng' h0 h1 => attempt_congr rng rng' st h0 (fun _ => h1)
          (fun _ hn => absurd hc hn)⟩
    · exact absurd hc h.2.1
    · exact absurd hc h.2.1
  · intro hl hc ha
    rcases attempt_cases rng st with h | h | h | h
    · exact absurd h.1 hl
    · exact absurd h.2.1 hc
    · exact ⟨h.2.2.2.1, h.2.2.2.2.1, ⟨_, h.2.2.2.2.2.2.2.2.2⟩⟩
    · exact absurd ha h.2.2.1
  · intro hl hc ha
    rcases attempt_cases rng st with h | h | h | h
    · exact absurd h.1 hl
    · exact absurd h.2.1 hc
    · exact absurd h.2.2.1 ha
    · exact ⟨h.2.2.2.1, h.2.2.2.2.1, h.2.2.2.2.2.2.2.2.2⟩
  · intro rng' h0 h1 h2
    exact attempt_congr rng rng' st h0 (fun _ => h1) (fun _ _ => h2)

end AttemptCases

section StuffedShape

open DataLinkWorker

/-- The bytes written by the stuffing loop, byte by byte. -/
theorem foldl_stuffStep_flatMap (data : List UInt8) :
    data.foldl stuffStep [] =
      data.flatMap (fun ch =>
        if ch = FRAME_FLAG ∨ ch = ESCAPE_CHAR then [ESCAPE_CHAR, ch ^^^ 0x20] else [ch]) := by
  induction data with
  | nil => rfl
  | cons c r ih =>
    rw [List.foldl_cons, foldl_stuffStep_eq, ih, List.flatMap_cons]
    congr 1

/-- The stuffing loop never writes the flag byte. -/
theorem flag_not_mem_stuffed (data : List UInt8) :
    FRAME_FLAG ∉ data.foldl stuffStep [] := by
  rw [foldl_stuffStep_flatMap, List.mem_flatMap]
  rintro ⟨ch, _, hmem⟩
  by_cases hch : ch = FRAME_FLAG ∨ ch = ESCAPE_CHAR
  · rw [if_pos hch] at hmem
    rcases hch with rfl | rfl
    · revert hmem
      decide
    · revert hmem
      decide
  · rw [if_neg hch, List.mem_singleton] at hmem
    exact hch (Or.inl hmem.symm)

/-- The number of bytes written by the stuffing loop: one per payload byte and
one more per payload byte equal to the flag or the escape byte. -/
theorem length_stuffed (data : List UInt8) :
    (data.foldl stuffStep []).length =
      data.length + data.countP (fun ch => decide (ch = FRAME_FLAG ∨ ch = ESCAPE_CHAR)) := by
  rw [foldl_stuffStep_flatMap]
  induction data with
  | nil => rfl
  | cons c r ih =>
    rw [List.flatMap_cons, List.length_append, ih, List.length_cons, List.countP_cons]
    by_cases hch : c = FRAME_FLAG ∨ c = ESCAPE_CHAR
    · rw [if_pos hch]
      simp only [hch, decide_True, if_true, List.length_cons, List.length_nil]
      omega
    · rw [if_neg hch]
      simp only [hch, decide_False, Bool.false_eq_true, if_false, List.length_cons,
        List.length_nil]
      omega

/-- The length of a stuffed payload. -/
theorem length_applyByteStuffing (data : List UInt8) :
    (applyByteStuffing data).length =
      data.length + 2 + data.countP (fun ch => decide (ch = FRAME_FLAG ∨ ch = ESCAPE_CHAR)) := by
  rw [applyByteStuffing_eq, List.length_cons, List.length_append, length_stuffed,
    List.length_singleton]
  omega

/-- C22: for every byte sequence `x`, `applyByteStuffing x` is the flag byte
0x7E, a body that does not contain 0x7E, and the flag byte 0x7E again; its
length is `len(x) + 2` plus the number of bytes of `x` equal to 0x7E or
0x7D. -/
theorem C22_stuffed_frame_shape (x : List UInt8) :
    (∃ body : List UInt8,
      applyByteStuffing x = (0x7E : UInt8) :: (body ++ [(0x7E : UInt8)]) ∧
      (0x7E : UInt8) ∉ body) ∧
    (applyByteStuffing x).head? = some 0x7E ∧
    (applyByteStuffing x).getLast? = some 0x7E ∧
    (∀ i : Nat, 0 < i → i + 1 < (applyByteStuffing x).length →
      (applyByteStuffing x)[i]? ≠ some 0x7E) ∧
    (applyByteStuffing x).length =
      x.length + 2 + x.countP (fun b => decide (b = 0x7E ∨ b = 0x7D)) := by
  have hflag : FRAME_FLAG = (0x7E : UInt8) := rfl
  have hesc : ESCAPE_CHAR = (0x7D : UInt8) := rfl
  have hshape := applyByteStuffing_eq x
  have hnot := flag_not_mem_stuffed x
  have hlen := length_applyByteStuffing x
  rw [hflag] at hshape hnot
  rw [hflag, hesc] at hlen
  refine ⟨⟨_, hshape, hnot⟩, ?_, ?_, ?_, hlen⟩
  · rw [hshape]
    rfl
  · rw [hshape, ← List.cons_append, List.getLast?_append]
    rfl
  · intro i hi hlt
    rw [hshape] at hlt ⊢
    obtain ⟨j, rfl⟩ : ∃ j, i = j + 1 := ⟨i - 1, by omega⟩
    rw [List.getElem?_cons_succ]
    have hj : j < (x.foldl stuffStep []).length := by
      simp only [List.length_cons, List.length_append, List.length_nil] at hlt
      omega
    rw [List.getElem?_append_left hj]
    intro h
    exact hnot (List.mem_iff_getElem?.mpr ⟨j, h⟩)

end StuffedShape

section TwoCrcImplementations

open MainFrame

set_option maxRecDepth 100000 in
/-- C23: the two CRC implementations disagree on the all-zero frame of 100
bits. `MainFrame::CalculateCRC` returns sixteen `'0'` characters (value 0),
while `CRC::calculateCRC16Internal` on the 13 zero bytes that the framing loop
of `loadFile` builds from the same 100 bits gives 0x280C. -/
theorem C23_crc_implementations_disagree :
    MainFrame.CalculateCRC (List.replicate 100 '0') = some (List.replicate 16 '0') ∧
    DataLinkLayer.fillFrameData ((List.replicate 100 '0').map (fun c => decide (c = '1'))) 0 100 =
      List.replicate 13 0 ∧
    CRC.calculateCRC16Internal (List.replicate 13 0) = 0x280C ∧
    (∃ frame : List Char, frame.length = 100 ∧ (∀ c ∈ frame, c = '0' ∨ c = '1') ∧
      ∃ crc : List Char, MainFrame.CalculateCRC frame = some crc ∧
        binaryValue crc ≠
          CRC.calculateCRC16Internal
            (DataLinkLayer.fillFrameData (frame.map (fun c => decide (c = '1'))) 0 100)) := by
  have h1 : MainFrame.CalculateCRC (List.replicate 100 '0') = some (List.replicate 16 '0') := by
    decide
  have h2 : DataLinkLayer.fillFrameData
      ((List.replicate 100 '0').map (fun c => decide (c = '1'))) 0 100 = List.replicate 13 0 := by
    decide
  have h3 : CRC.calculateCRC16Internal (List.replicate 13 0) = 0x280C := by
    decide
  refine ⟨h1, h2, h3, List.replicate 100 '0', List.length_replicate _ _,
    fun c hc => Or.inl (List.eq_of_mem_replicate hc), List.replicate 16 '0', h1, ?_⟩
  rw [h2, h3]
  decide

end TwoCrcImplementations

section ErrorLogGrows

open DataLinkWorker Frame

/-- An error kind recorded before `addErrorInfo` is still recorded after it. -/
theorem isSome_errorDescription_addErrorInfo (f : Frame) (k v kind : String)
    (h : (f.errorDescription kind).isSome = true) :
    ((f.addErrorInfo k v).errorDescription kind).isSome = true := by
  rw [errorDescription_addErrorInfo]
  split
  · rfl
  · exact h

/-- An error kind recorded before a pass through the loop body is still
recorded after it. -/
theorem attempt_keeps_kinds (rng : Nat → ℚ) (st : RetryState) (kind : String)
    (h : (st.frame.errorDescription kind).isSome = true) :
    ((attempt rng st).frame.errorDescription kind).isSome = true := by
  have key : ∀ k v : String, (mapLookup (mapInsert st.frame.errorInfo k v) kind).isSome = true := by
    intro k v
    rw [mapLookup_mapInsert]
    split
    · rfl
    · exact h
  unfold errorDescription
  rcases attempt_cases rng st with c | c | c | c
  · rw [c.2.2.2.2.2.2.2]
    exact key _ _
  · rw [c.2.2.2.2.2.2.2.2]
    exact key _ _
  · rw [c.2.2.2.2.2.2.2.2.2]
    exact key _ _
  · rw [c.2.2.2.2.2.2.2.2.2]
    exact h

/-- An error kind recorded before the retry loop is still recorded after
it. -/
theorem retryLoop_keeps_kinds (rng : Nat → ℚ) (st : RetryState) (kind : String)
    (h : (st.frame.errorDescription kind).isSome = true) :
    ((retryLoop rng st).frame.errorDescription kind).isSome = true := by
  induction st using retryLoop.induct rng with
  | case1 st hg ih =>
    rw [retryLoop, dif_pos hg]
    exact ih (attempt_keeps_kinds rng st kind h)
  | case2 st hg =>
    rw [retryLoop, dif_neg hg]
    exact h

/-- C24: `addErrorInfo(kind, description)` leaves the log mapping `kind` to
`description` and every entry under another kind unchanged; the other `Frame`
operations do not touch the log; and an error kind recorded for a frame stays
recorded through every pass of the retry loop, through the whole loop and
through the handling of the frame by `process`. -/
theorem C24_error_log_only_grows (f : Frame) (kind description : String) :
    (f.addErrorInfo kind description).errorDescription kind = some description ∧
    (∀ other : String, other ≠ kind →
      (f.addErrorInfo kind description).errorDescription other = f.errorDescription other) ∧
    (∀ (d : List UInt8) (c : String) (n : Int) (b : Bool),
      (f.setData d).errorInfo = f.errorInfo ∧ (f.setCRC c).errorInfo = f.errorInfo ∧
      (f.setFrameNumber n).errorInfo = f.errorInfo ∧ (f.setValid b).errorInfo = f.errorInfo ∧
      (f.setBitCount n).errorInfo = f.errorInfo ∧ (f.setLastFrame b).errorInfo = f.errorInfo ∧
      (f.setHasPadding b).errorInfo = f.errorInfo ∧ f.calculateCRC.errorInfo = f.errorInfo) ∧
    (∀ (rng : Nat → ℚ) (st : RetryState),
      (st.frame.errorDescription kind).isSome = true →
        ((attempt rng st).frame.errorDescription kind).isSome = true ∧
        ((retryLoop rng st).frame.errorDescription kind).isSome = true) ∧
    (∀ (rng : Nat → ℚ) (pos : Nat),
      (f.errorDescription kind).isSome = true →
        ((processFrame rng f pos).frame.errorDescription kind).isSome = true) := by
  refine ⟨?_, ?_, ?_, ?_, ?_⟩
  · rw [errorDescription_addErrorInfo, if_pos rfl]
  · intro other hne
    rw [errorDescription_addErrorInfo, if_neg (fun h => hne h.symm)]
  · intro d c n b
    exact ⟨rfl, rfl, rfl, rfl, rfl, rfl, rfl, rfl⟩
  · intro rng st h
    exact ⟨attempt_keeps_kinds rng st kind h, retryLoop_keeps_kinds rng st kind h⟩
  · intro rng pos h
    have hloop := retryLoop_keeps_kinds rng
      { frame := f, retryCount := 0, acked := false, pos := pos, events := [], attempts := [] }
      kind h
    unfold processFrame
    dsimp only
    split_ifs with hacked
    · exact isSome_errorDescription_addErrorInfo _ _ _ kind hloop
    · exact hloop

end ErrorLogGrows

section PayloadAcrossAttempts

open DataLinkWorker

/-- Stuffing `j` times makes a payload at least `2 * j` bytes longer. -/
theorem length_iterate_applyByteStuffing (x : List UInt8) (j : Nat) :
    x.length + 2 * j ≤ (Nat.iterate applyByteStuffing j x).length := by
  induction j with
  | zero => simp
  | succ j ih =>
    rw [Function.iterate_succ_apply', length_applyByteStuffing]
    omega

/-- The payload after one pass through the loop body: stuffed once more when
the pass is lost or corrupted, unchanged otherwise. -/
theorem attempt_data (rng : Nat → ℚ) (st : RetryState) :
    ∃ o : AttemptOutcome, (attempt rng st).attempts = st.attempts ++ [o] ∧
      (attempt rng st).frame.data =
        Nat.iterate applyByteStuffing (if o.delivered then 0 else 1) st.frame.data := by
  rcases attempt_cases rng st with c | c | c | c
  · exact ⟨AttemptOutcome.lost, c.2.1, c.2.2.2.2.2.1⟩
  · exact ⟨AttemptOutcome.corrupted, c.2.2.1, c.2.2.2.2.2.2.1⟩
  · exact ⟨AttemptOutcome.ackLost, c.2.2.2.1, c.2.2.2.2.2.2.2.1⟩
  · exact ⟨AttemptOutcome.acked, c.2.2.2.1, c.2.2.2.2.2.2.2.1⟩

/-- The payload after the retry loop: stuffed once for every pass that was
lost or corrupted. -/
theorem retryLoop_data (rng : Nat → ℚ) (st : RetryState) :
    ∃ os : List AttemptOutcome, (retryLoop rng st).attempts = st.attempts ++ os ∧
      (retryLoop rng st).frame.data =
        Nat.iterate applyByteStuffing (os.countP (fun a => !a.delivered)) st.frame.data := by
  induction st using retryLoop.induct rng with
  | case1 st hg ih =>
    rw [retryLoop, dif_pos hg]
    obtain ⟨o, h1, h2⟩ := attempt_data rng st
    obtain ⟨os, k1, k2⟩ := ih
    refine ⟨o :: os, by rw [k1, h1, List.append_assoc]; rfl, ?_⟩
    rw [k2, h2, ← Function.iterate_add_apply, List.countP_cons]
    cases o <;> rfl
  | case2 st hg =>
    rw [retryLoop, dif_neg hg]
    exact ⟨[], by simp, rfl⟩

/-- C25: a pass through the loop body that is Lost or Corrupted leaves the
payload stuffed (`applyByteStuffing p` for the payload `p` before the pass);
a pass that is ACK Lost or acknowledged leaves the payload `p`. Hence when the
handling of a frame ends, its payload is `applyByteStuffing` applied `j` times
to the original payload, `j` being the number of its lost or corrupted
attempts, and it is at least `2 * j` bytes longer than the original. -/
theorem C25_payload_stuffed_after_failed_attempt (rng : Nat → ℚ) :
    (∀ st : RetryState,
      (((attempt rng st).attempts = st.attempts ++ [AttemptOutcome.lost] ∨
          (attempt rng st).attempts = st.attempts ++ [AttemptOutcome.corrupted]) →
        (attempt rng st).frame.data = applyByteStuffing st.frame.data) ∧
      (((attempt rng st).attempts = st.attempts ++ [AttemptOutcome.ackLost] ∨
          (attempt rng st).attempts = st.attempts ++ [AttemptOutcome.acked]) →
        (attempt rng st).frame.data = st.frame.data)) ∧
    (∀ (frame : Frame) (pos : Nat),
      (processFrame rng frame pos).frame.data =
        Nat.iterate applyByteStuffing
          ((processFrame rng frame pos).attempts.countP
            (fun a => decide (a = AttemptOutcome.lost ∨ a = AttemptOutcome.corrupted)))
          frame.data ∧
      frame.data.length +
          2 * (processFrame rng frame pos).attempts.countP
            (fun a => decide (a = AttemptOutcome.lost ∨ a = AttemptOutcome.corrupted)) ≤
        (processFrame rng frame pos).frame.data.length) := by
  refine ⟨?_, ?_⟩
  · intro st
    obtain ⟨o, h1, h2⟩ := attempt_data rng st
    rw [h1, h2]
    refine ⟨?_, ?_⟩
    · intro h
      have ho : o = AttemptOutcome.lost ∨ o = AttemptOutcome.corrupted := by
        rcases h with h | h
        · exact Or.inl (by simpa using h)
        · exact Or.inr (by simpa using h)
      rcases ho with rfl | rfl <;> rfl
    · intro h
      have ho : o = AttemptOutcome.ackLost ∨ o = AttemptOutcome.acked := by
        rcases h with h | h
        · exact Or.inl (by simpa using h)
        · exact Or.inr (by simpa using h)
      rcases ho with rfl | rfl <;> rfl
  · intro frame pos
    have hfun : (fun a => decide (a = AttemptOutcome.lost ∨ a = AttemptOutcome.corrupted)) =
        (fun a : AttemptOutcome => !a.delivered) := by
      funext a
      cases a <;> rfl
    obtain ⟨os, k1, k2⟩ := retryLoop_data rng
      { frame := frame, retryCount := 0, acked := false, pos := pos, events := [],
        attempts := [] }
    rw [List.nil_append] at k1
    have hdata : (processFrame rng frame pos).frame.data =
        Nat.iterate applyByteStuffing
          ((processFrame rng frame pos).attempts.countP
            (fun a => decide (a = AttemptOutcome.lost ∨ a = AttemptOutcome.corrupted)))
          frame.data := by
      rw [hfun]
      unfold processFrame
      dsimp only
      split_ifs with hacked
      · show (retryLoop rng _).frame.data = _
        rw [k2, k1]
      · show (retryLoop rng _).frame.data = _
        rw [k2, k1]
    refine ⟨hdata, ?_⟩
    rw [hdata]
    exact length_iterate_applyByteStuffing _ _

end PayloadAcrossAttempts

section ValidFlag

open DataLinkWorker

/-- The valid flag after one pass through the loop body: kept when the pass is
acknowledged, false otherwise. -/
theorem attempt_valid (rng : Nat → ℚ) (st : RetryState) :
    ∃ o : AttemptOutcome, (attempt rng st).attempts = st.attempts ++ [o] ∧
      (attempt rng st).frame.valid = (st.frame.valid && decide (o = AttemptOutcome.acked)) := by
  rcases attempt_cases rng st with c | c | c | c
  · exact ⟨AttemptOutcome.lost, c.2.1, by rw [c.2.2.2.2.2.2.1]; simp⟩
  · exact ⟨AttemptOutcome.corrupted, c.2.2.1, by rw [c.2.2.2.2.2.2.2.1]; simp⟩
  · exact ⟨AttemptOutcome.ackLost, c.2.2.2.1, by rw [c.2.2.2.2.2.2.2.2.1]; simp⟩
  · exact ⟨AttemptOutcome.acked, c.2.2.2.1, by rw [c.2.2.2.2.2.2.2.2.1]; simp⟩

/-- The valid flag after the retry loop: true exactly when it was true before
and every pass made was acknowledged. -/
theorem retryLoop_valid (rng : Nat → ℚ) (st : RetryState) :
    ∃ os : List AttemptOutcome, (retryLoop rng st).attempts = st.attempts ++ os ∧
      (retryLoop rng st).frame.valid =
        (st.frame.valid && os.all (fun a => decide (a = AttemptOutcome.acked))) := by
  induction st using retryLoop.induct rng with
  | case1 st hg ih =>
    rw [retryLoop, dif_pos hg]
    obtain ⟨o, h1, h2⟩ := attempt_valid rng st
    obtain ⟨os, k1, k2⟩ := ih
    refine ⟨o :: os, by rw [k1, h1, List.append_assoc]; rfl, ?_⟩
    rw [k2, h2, List.all_cons, Bool.and_assoc]
  | case2 st hg =>
    rw [retryLoop, dif_neg hg]
    exact ⟨[], by simp, by simp⟩

/-- A snapshot emitted by a pass through the loop body carries the valid flag
the frame had before the pass. -/
theorem attempt_snapshot_valid (rng : Nat → ℚ) (st : RetryState) :
    ∃ new : List Event, (attempt rng st).events = st.events ++ new ∧
      ∀ snap : Frame, Event.frameProcessed snap ∈ new → snap.valid = st.frame.valid := by
  unfold attempt
  dsimp only
  split_ifs with hl hc ha
  · exact ⟨[_], rfl, by simp⟩
  · exact ⟨[_], rfl, by simp⟩
  · refine ⟨[Event.frameProcessed _, Event.statusUpdate _], List.append_assoc _ _ _, ?_⟩
    intro snap hsnap
    simp only [List.mem_cons, Event.frameProcessed.injEq, List.mem_singleton, reduceCtorEq,
      List.not_mem_nil, or_false] at hsnap
    rw [hsnap]
    rfl
  · refine ⟨[Event.frameProcessed _, Event.statusUpdate _], List.append_assoc _ _ _, ?_⟩
    intro snap hsnap
    simp only [List.mem_cons, Event.frameProcessed.injEq, List.mem_singleton, reduceCtorEq,
      List.not_mem_nil, or_false] at hsnap
    rw [hsnap]
    rfl

/-- Once the valid flag is false, every snapshot emitted by the rest of the
retry loop carries `valid == false`. -/
theorem retryLoop_snapshots_invalid (rng : Nat → ℚ) (st : RetryState)
    (hv : st.frame.valid = false) :
    ∃ later : List Event, (retryLoop rng st).events = st.events ++ later ∧
      ∀ snap : Frame, Event.frameProcessed snap ∈ later → snap.valid = false := by
  induction st using retryLoop.induct rng with
  | case1 st hg ih =>
    rw [retryLoop, dif_pos hg]
    obtain ⟨new, h1, h2⟩ := attempt_snapshot_valid rng st
    obtain ⟨o, _, h3⟩ := attempt_valid rng st
    rw [hv, Bool.false_and] at h3
    obtain ⟨later, k1, k2⟩ := ih h3
    refine ⟨new ++ later, by rw [k1, h1, List.append_assoc], ?_⟩
    intro snap hsnap
    rw [List.mem_append] at hsnap
    rcases hsnap with hs | hs
    · rw [h2 snap hs, hv]
    · exact k2 snap hs
  | case2 st hg =>
    rw [retryLoop, dif_neg hg]
    exact ⟨[], by simp, by simp⟩

/-- C26: `process` never sets a frame's valid flag back to true. When the
handling of a frame ends, the flag is true exactly when it was true before and
the frame was acknowledged on its first attempt; a frame acknowledged after a
retry ends invalid. After a pass through the loop body that was not
acknowledged the flag is false, and every `frameProcessed` snapshot emitted by
the later passes for the frame carries `valid == false`. -/
theorem C26_valid_flag_never_restored (rng : Nat → ℚ) (frame : Frame) (pos : Nat) :
    (processFrame rng frame pos).frame.valid =
      (frame.valid && decide ((processFrame rng frame pos).attempts = [AttemptOutcome.acked])) ∧
    (frame.valid = true →
      ((processFrame rng frame pos).frame.valid = true ↔
        (processFrame rng frame pos).attempts = [AttemptOutcome.acked])) ∧
    ((processFrame rng frame pos).acked = true →
      2 ≤ (processFrame rng frame pos).attempts.length →
        (processFrame rng frame pos).frame.valid = false) ∧
    (∀ (st : RetryState) (o : AttemptOutcome),
      (attempt rng st).attempts = st.attempts ++ [o] → o ≠ AttemptOutcome.acked →
        (attempt rng st).frame.valid = false ∧
        ∃ later : List Event,
          (retryLoop rng (attempt rng st)).events = (attempt rng st).events ++ later ∧
          ∀ snap : Frame, Event.frameProcessed snap ∈ later → snap.valid = false) ∧
    (∀ st : RetryState, st.frame.valid = false →
      (attempt rng st).frame.valid = false ∧ (retryLoop rng st).frame.valid = false) := by
  have hspec := processFrame_spec rng frame pos
  obtain ⟨os, k1, k2⟩ := retryLoop_valid rng
    { frame := frame, retryCount := 0, acked := false, pos := pos, events := [], attempts := [] }
  rw [List.nil_append] at k1
  have hmain : (processFrame rng frame pos).frame.valid =
      (frame.valid &&
        decide ((processFrame rng frame pos).attempts = [AttemptOutcome.acked])) := by
    cases hack : (processFrame rng frame pos).acked with
    | false =>
      obtain ⟨hlen, hall⟩ := hspec.2.1 hack
      have hne : (processFrame rng frame pos).attempts ≠ [AttemptOutcome.acked] := by
        intro h
        rw [h] at hlen
        exact absurd hlen (by decide)
      have hvalid : (processFrame rng frame pos).frame.valid = false := by
        unfold processFrame at hack ⊢
        dsimp only at hack ⊢
        split_ifs with hacked
        · rfl
        · rw [if_neg hacked] at hack
          simp only [Bool.not_eq_true, Bool.not_eq_false'] at hacked
          rw [hacked] at hack
          simp at hack
      rw [hvalid]
      simp [hne]
    | true =>
      obtain ⟨⟨init, hatt, _, hinit⟩, _⟩ := hspec.2.2.1 hack
      have hframe : (processFrame rng frame pos).frame.valid =
          (frame.valid && os.all (fun a => decide (a = AttemptOutcome.acked))) ∧
          (processFrame rng frame pos).attempts = os := by
        unfold processFrame at hack ⊢
        dsimp only at hack ⊢
        split_ifs with hacked
        · rw [if_pos hacked] at hack
          simp only [Bool.not_eq_true'] at hacked
          rw [hacked] at hack
          simp at hack
        · exact ⟨k2, k1⟩
      rw [hframe.1, ← hframe.2, hatt]
      congr 1
      cases init with
      | nil => rfl
      | cons a rest =>
        have ha : a ≠ AttemptOutcome.acked := hinit a (List.mem_cons_self _ _)
        have hne : a :: rest ++ [AttemptOutcome.acked] ≠ [AttemptOutcome.acked] := by
          intro h
          have := congrArg List.length h
          simp at this
        simp [ha, hne]
  refine ⟨hmain, ?_, ?_, ?_, ?_⟩
  · intro hv
    rw [hmain, hv]
    simp
  · intro hack hlen
    rw [hmain]
    have hne : (processFrame rng frame pos).attempts ≠ [AttemptOutcome.acked] := by
      intro h
      rw [h] at hlen
      exact absurd hlen (by decide)
    simp [hne]
  · intro st o hatt ho
    obtain ⟨o', h1, h2⟩ := attempt_valid rng st
    have hoo : o' = o := by
      rw [hatt] at h1
      simpa using h1.symm
    rw [hoo] at h2
    have hv : (attempt rng st).frame.valid = false := by
      rw [h2]
      simp [ho]
    exact ⟨hv, retryLoop_snapshots_invalid rng _ hv⟩
  · intro st hv
    obtain ⟨o, _, h2⟩ := attempt_valid rng st
    obtain ⟨os', _, k2'⟩ := retryLoop_valid rng st
    rw [hv, Bool.false_and] at h2 k2'
    exact ⟨h2, k2'⟩

end ValidFlag

section InterruptionFlag

open DataLinkWorker DataLinkLayer

/-- No operation clears the interruption flag. -/
theorem step_keeps_interruption (s : DataLinkSystem) (op : SystemOp)
    (h : s.interruptionRequested = true) : (s.step op).interruptionRequested = true := by
  cases op with
  | loadFile filePath contents => exact h
  | startTransmission =>
    show (startTransmission s).1.interruptionRequested = true
    unfold startTransmission
    split_ifs <;> exact h
  | stopTransmission =>
    show (stopTransmission s).interruptionRequested = true
    unfold stopTransmission
    split_ifs
    · rfl
    · exact h
  | runProcess rng raised pos =>
    show (if s.pendingRuns = 0 then s
      else (s.runProcess rng raised pos).1).interruptionRequested = true
    split_ifs
    · exact h
    · exact h

/-- No sequence of operations clears the interruption flag. -/
theorem steps_keep_interruption (ops : List SystemOp) :
    ∀ s : DataLinkSystem, s.interruptionRequested = true →
      (ops.foldl DataLinkSystem.step s).interruptionRequested = true := by
  induction ops with
  | nil => intro s h; exact h
  | cons op rest ih =>
    intro s h
    rw [List.foldl_cons]
    exact ih _ (step_keeps_interruption s op h)

/-- An invocation of `process` on a non-empty frame list whose first
interruption check reads a set flag returns there. -/
theorem process_interrupted_at_start (w : DataLinkWorker) (rng : Nat → ℚ)
    (interrupted : Nat → Bool) (pos : Nat) (hne : w.frames ≠ [])
    (h0 : interrupted 0 = true) :
    (process w rng interrupted pos).runs = [] ∧
    (process w rng interrupted pos).events =
      [Event.statusUpdate "Transmission stopped by user"] ∧
    (process w rng interrupted pos).cancelled = true ∧
    (process w rng interrupted pos).localFrames = w.frames ∧
    (process w rng interrupted pos).worker = w := by
  have hlen : 0 < w.frames.length := List.length_pos.mpr hne
  have hvis : visitedCount interrupted w.frames 0 = 0 :=
    visitedCount_eq_of_first interrupted w.frames 0 0 hlen (fun j hj => absurd hj (by omega)) h0
  have hlt : visitedCount interrupted w.frames 0 < w.frames.length := by
    rw [hvis]
    exact hlen
  obtain ⟨hev, hw, hloc⟩ := process_events_cancelled w rng interrupted pos hlt
  have hruns := process_runs w rng interrupted pos
  rw [hvis] at hev hloc hruns
  rw [List.take_zero] at hev hloc hruns
  refine ⟨hruns, ?_, ?_, ?_, hw⟩
  · rw [hev]
    rfl
  · rw [process_cancelled, hvis]
    simpa using hlen
  · rw [hloc]
    rfl

/-- C27: `stopTransmission` called while `transmitting` is true sets the
interruption flag of the worker thread, and no operation of the layer or the
worker clears it. Hence, after any further operations, an invocation of
`process` on a non-empty frame list returns at the check before the first
frame: no attempt is made, the frames are untouched, and the only event is the
status line "Transmission stopped by user" — no `checksumCalculated`, no
`checksumFrameSent`, no `transmissionComplete`. -/
theorem C27_interruption_never_reset (s : DataLinkSystem) (ops : List SystemOp)
    (rng : Nat → ℚ) (raised : Nat → Bool) (pos : Nat)
    (ht : s.layer.transmitting = true)
    (hne : (ops.foldl DataLinkSystem.step (stopTransmission s)).layer.worker.frames ≠ []) :
    (stopTransmission s).interruptionRequested = true ∧
    (ops.foldl DataLinkSystem.step (stopTransmission s)).interruptionRequested = true ∧
    ((ops.foldl DataLinkSystem.step (stopTransmission s)).runProcess rng raised pos).2.runs = [] ∧
    ((ops.foldl DataLinkSystem.step (stopTransmission s)).runProcess rng raised pos).2.events =
      [Event.statusUpdate "Transmission stopped by user"] ∧
    ((ops.foldl DataLinkSystem.step (stopTransmission s)).runProcess rng raised pos).2.localFrames =
      (ops.foldl DataLinkSystem.step (stopTransmission s)).layer.worker.frames ∧
    (∀ e ∈ ((ops.foldl DataLinkSystem.step (stopTransmission s)).runProcess
        rng raised pos).2.events, e.isSummary = false) := by
  have hstop : (stopTransmission s).interruptionRequested = true := by
    unfold stopTransmission
    rw [if_pos ht]
  have hflag := steps_keep_interruption ops _ hstop
  generalize ops.foldl DataLinkSystem.step (stopTransmission s) = s' at hne hflag ⊢
  have h0 : s'.interruptionSeen raised 0 = true := by
    unfold DataLinkSystem.interruptionSeen
    rw [hflag]
    rfl
  obtain ⟨hruns, hev, _, hloc, _⟩ :=
    process_interrupted_at_start s'.layer.worker rng (s'.interruptionSeen raised) pos hne h0
  refine ⟨hstop, hflag, hruns, hev, hloc, ?_⟩
  intro e he
  have he' : e ∈ [Event.statusUpdate "Transmission stopped by user"] := by
    rw [← hev]
    exact he
  rw [List.mem_singleton] at he'
  rw [he']
  rfl

set_option maxRecDepth 100000 in
/-- Witness for C27: a one-byte file is loaded and transmission is started and
stopped; the queued invocation runs, transmission is started again, and the
second invocation makes no attempt either. -/
theorem C27_interruption_never_reset_witness :
    (startTransmission (DataLinkSystem.loadFile DataLinkSystem.new "a.dat" (some [0x41])).2.1).1.layer.transmitting = true ∧
    (([SystemOp.runProcess (fun _ => 0.5) (fun _ => false) 0, SystemOp.startTransmission]).foldl DataLinkSystem.step
        (stopTransmission
          (startTransmission (DataLinkSystem.loadFile DataLinkSystem.new "a.dat" (some [0x41])).2.1).1)).layer.worker.frames ≠ [] ∧
    ((([SystemOp.runProcess (fun _ => 0.5) (fun _ => false) 0, SystemOp.startTransmission]).foldl DataLinkSystem.step
        (stopTransmission
          (startTransmission (DataLinkSystem.loadFile DataLinkSystem.new "a.dat" (some [0x41])).2.1).1)).runProcess
      (fun _ => 0.5) (fun _ => false) 0).2.events =
      [Event.statusUpdate "Transmission stopped by user"] :=
  ⟨by decide, by decide,
    (C27_interruption_never_reset
      (startTransmission (DataLinkSystem.loadFile DataLinkSystem.new "a.dat" (some [0x41])).2.1).1
      [SystemOp.runProcess (fun _ => 0.5) (fun _ => false) 0, SystemOp.startTransmission]
      (fun _ => 0.5) (fun _ => false) 0 (by decide) (by decide)).2.2.2.1⟩

end InterruptionFlag

section LocalCopy

open DataLinkWorker DataLinkLayer

/-- The slot `process` never assigns the member `frames` of the worker. -/
theorem process_worker_frames (w : DataLinkWorker) (rng : Nat → ℚ) (interrupted : Nat → Bool)
    (pos : Nat) : (process w rng interrupted pos).worker.frames = w.frames := by
  unfold process
  dsimp only
  split_ifs <;> rfl

/-- What `process` emits and does to its local copy depends on the worker
through the member `frames` only. -/
theorem process_congr_frames (w1 w2 : DataLinkWorker) (h : w1.frames = w2.frames)
    (rng : Nat → ℚ) (interrupted : Nat → Bool) (pos : Nat) :
    (process w1 rng interrupted pos).events = (process w2 rng interrupted pos).events ∧
    (process w1 rng interrupted pos).runs = (process w2 rng interrupted pos).runs ∧
    (process w1 rng interrupted pos).localFrames =
      (process w2 rng interrupted pos).localFrames ∧
    (process w1 rng interrupted pos).pos = (process w2 rng interrupted pos).pos ∧
    (process w1 rng interrupted pos).cancelled = (process w2 rng interrupted pos).cancelled := by
  unfold process prepareChecksumFrame
  dsimp only
  rw [h]
  split_ifs <;> exact ⟨rfl, rfl, rfl, rfl, rfl⟩

/-- The relay slots never assign the members `frames` and `worker` of the
layer. -/
theorem foldl_relay_frames (events : List Event) :
    ∀ layer : DataLinkLayer,
      (events.foldl relay layer).frames = layer.frames ∧
      (events.foldl relay layer).worker = layer.worker := by
  induction events with
  | nil => intro layer; exact ⟨rfl, rfl⟩
  | cons e rest ih =>
    intro layer
    rw [List.foldl_cons]
    obtain ⟨h1, h2⟩ := ih (relay layer e)
    rw [h1, h2]
    cases e <;> exact ⟨rfl, rfl⟩

/-- C28: `process` works on a local copy of the frames. Whatever the draws and
the interruption readings, the frame list stored in the worker is the same
after the call as before it, and so is the list returned by
`DataLinkLayer::getFrames()` once the signals of the run have been relayed;
a second call therefore emits the events, makes the attempts and leaves the
local copy that a first call with the same draws and readings would. -/
theorem C28_process_works_on_local_copy (w : DataLinkWorker) (rng : Nat → ℚ)
    (interrupted : Nat → Bool) (pos : Nat) :
    (process w rng interrupted pos).worker.frames = w.frames ∧
    (∀ (rng' : Nat → ℚ) (interrupted' : Nat → Bool) (pos' : Nat),
      (process (process w rng interrupted pos).worker rng' interrupted' pos').events =
        (process w rng' interrupted' pos').events ∧
      (process (process w rng interrupted pos).worker rng' interrupted' pos').runs =
        (process w rng' interrupted' pos').runs ∧
      (process (process w rng interrupted pos).worker rng' interrupted' pos').localFrames =
        (process w rng' interrupted' pos').localFrames) ∧
    (∀ (s : DataLinkSystem) (raised : Nat → Bool),
      (s.runProcess rng raised pos).1.layer.getFrames = s.layer.getFrames ∧
      (s.runProcess rng raised pos).1.layer.worker.frames = s.layer.worker.frames) ∧
    (∀ (layer : DataLinkLayer) (filePath : String) (fileData : List UInt8),
      (loadFile layer filePath (some fileData)).2.1.worker.frames =
        (loadFile layer filePath (some fileData)).2.1.getFrames) := by
  have hw := process_worker_frames w rng interrupted pos
  refine ⟨hw, ?_, ?_, ?_⟩
  · intro rng' interrupted' pos'
    obtain ⟨h1, h2, h3, _, _⟩ := process_congr_frames _ w hw rng' interrupted' pos'
    exact ⟨h1, h2, h3⟩
  · intro s raised
    unfold DataLinkSystem.runProcess getFrames
    dsimp only
    obtain ⟨h1, h2⟩ := foldl_relay_frames
      (process s.layer.worker rng (s.interruptionSeen raised) pos).events
      { s.layer with
        worker := (process s.layer.worker rng (s.interruptionSeen raised) pos).worker }
    rw [h1, h2]
    exact ⟨rfl, process_worker_frames _ _ _ _⟩
  · intro layer filePath fileData
    rfl

end LocalCopy

section FullPattern

open MainFrame

/-- Bits of the full 17-bit pattern `0x11021`. -/
theorem testBit_fullPattern (m : Nat) :
    (bitsetOfValue 17 0x11021).testBit m =
      (decide (m = 0) || decide (m = 5) || decide (m = 12) || decide (m = 16)) := by
  by_cases h : m < 17
  · have hall : ∀ k : Nat, k < 17 → (bitsetOfValue 17 0x11021).testBit k =
        (decide (k = 0) || decide (k = 5) || decide (k = 12) || decide (k = 16)) := by decide
    exact hall m h
  · have h1 : (bitsetOfValue 17 0x11021).testBit m = false :=
      Nat.testBit_lt_two_pow (Nat.lt_of_lt_of_le (by decide : bitsetOfValue 17 0x11021 < 2 ^ 17)
        (Nat.pow_le_pow_right (by decide) (by omega)))
    rw [h1]
    have e0 : ¬ m = 0 := by omega
    have e5 : ¬ m = 5 := by omega
    have e12 : ¬ m = 12 := by omega
    have e16 : ¬ m = 16 := by omega
    simp [e0, e5, e12, e16]

/-- With the full pattern the inner loop at position `i` toggles the bits `i`,
`i - 4`, `i - 11` and `i - 16`. -/
theorem xorPolyAt_fullPattern (bits i : Nat) :
    xorPolyAt (bitsetOfValue 17 0x11021) bits i =
      bits ^^^ (1 <<< i) ^^^ (1 <<< (i - 4)) ^^^ (1 <<< (i - 11)) ^^^ (1 <<< (i - 16)) := by
  unfold xorPolyAt
  have hr : List.range 17 = [0, 1, 2, 3, 4, 5, 6, 7, 8, 9, 10, 11, 12, 13, 14, 15, 16] := by
    decide
  rw [hr]
  simp [bitsetAssign_xor, testBit_fullPattern]

/-- The two patterns lead to states that agree on every bit below the
position of the iteration. -/
theorem divisionStep_fullPattern (bits bits' i m : Nat) (hm : m < i)
    (htop : bits.testBit i = bits'.testBit i) (hbit : bits.testBit m = bits'.testBit m) :
    (if bits.testBit i then xorPolyAt (bitsetOfValue 17 CRC_POLY) bits i else bits).testBit m =
      (if bits'.testBit i then xorPolyAt (bitsetOfValue 17 0x11021) bits' i
        else bits').testBit m := by
  rw [← htop]
  by_cases hb : bits.testBit i = true
  · rw [if_pos hb, if_pos hb, xorPolyAt_eq, xorPolyAt_fullPattern]
    simp only [Nat.testBit_xor, Nat.one_shiftLeft, Nat.testBit_two_pow, hbit]
    have e0 : decide (i = m) = false := by
      apply decide_eq_false; omega
    rw [e0, Bool.xor_false]
  · rw [if_neg hb, if_neg hb]
    exact hbit

/-- After `n` iterations the states reached with the two patterns agree on the
bits not yet visited. -/
theorem divisionLoop_fullPattern (D n : Nat) (hn : n ≤ 100) :
    ∀ m, m + n ≤ 115 →
      ((List.range n).foldl
          (fun bits k =>
            let i := 115 - k
            if bits.testBit i then xorPolyAt (bitsetOfValue 17 CRC_POLY) bits i else bits)
          D).testBit m =
      ((List.range n).foldl
          (fun bits k =>
            let i := 115 - k
            if bits.testBit i then xorPolyAt (bitsetOfValue 17 0x11021) bits i else bits)
          D).testBit m := by
  induction n with
  | zero => intro m _; rfl
  | succ n ih =>
    intro m hm
    rw [List.range_succ n, List.foldl_append, List.foldl_append]
    simp only [List.foldl_cons, List.foldl_nil]
    exact divisionStep_fullPattern _ _ (115 - n) m (by omega)
      (ih (by omega) (115 - n) (by omega)) (ih (by omega) m (by omega))

/-- The sixteen bits copied out are the same for the two patterns. -/
theorem lowSixteen_divisionLoop_fullPattern (D : Nat) :
    lowSixteen (divisionLoop (bitsetOfValue 17 0x11021) D) =
      lowSixteen (divisionLoop (bitsetOfValue 17 CRC_POLY) D) := by
  rw [lowSixteen_eq, lowSixteen_eq]
  apply Nat.eq_of_testBit_eq
  intro m
  rw [Nat.testBit_mod_two_pow, Nat.testBit_mod_two_pow]
  by_cases hm : m < 16
  · simp only [hm, decide_True, Bool.true_and]
    exact (divisionLoop_fullPattern D 100 (le_refl _) m (by omega)).symm
  · simp [hm]

/-- C29: the 17-bit pattern that `MainFrame::CalculateCRC` builds from the
16-bit constant 0x1021 has bit 16 clear, so an iteration of the division loop
leaves the bit it has just visited as it was, while with the full pattern
0x11021 the visited bit is cleared. For every frame the string returned is
nevertheless the one returned by the same function run with the pattern
0x11021. -/
theorem C29_truncated_pattern_same_crc (frame : List Char) :
    (bitsetOfValue 17 CRC_POLY).testBit 16 = false ∧
    (bitsetOfValue 17 0x11021).testBit 16 = true ∧
    MainFrame.CalculateCRCWithPattern CRC_POLY frame = MainFrame.CalculateCRC frame ∧
    MainFrame.CalculateCRCWithPattern 0x11021 frame = MainFrame.CalculateCRC frame ∧
    (∀ bits i : Nat, 16 ≤ i →
      (xorPolyAt (bitsetOfValue 17 CRC_POLY) bits i).testBit i = bits.testBit i) ∧
    (∀ bits i : Nat, 16 ≤ i → bits.testBit i = true →
      (xorPolyAt (bitsetOfValue 17 0x11021) bits i).testBit i = false) := by
  refine ⟨by decide, by decide, rfl, ?_, ?_, ?_⟩
  · unfold MainFrame.CalculateCRCWithPattern MainFrame.CalculateCRC
    dsimp only
    generalize bitsetOfString 116 (frame ++ List.replicate 16 '0') = parsed
    cases parsed with
    | none => rfl
    | some bits =>
      dsimp only
      rw [lowSixteen_divisionLoop_fullPattern]
  · intro bits i hi
    rw [xorPolyAt_eq]
    simp only [Nat.testBit_xor, Nat.one_shiftLeft, Nat.testBit_two_pow]
    have e1 : decide (i - 4 = i) = false := by
      apply decide_eq_false; omega
    have e2 : decide (i - 11 = i) = false := by
      apply decide_eq_false; omega
    have e3 : decide (i - 16 = i) = false := by
      apply decide_eq_false; omega
    rw [e1, e2, e3]
    simp
  · intro bits i hi hb
    rw [xorPolyAt_fullPattern]
    simp only [Nat.testBit_xor, Nat.one_shiftLeft, Nat.testBit_two_pow, hb]
    have e1 : decide (i - 4 = i) = false := by
      apply decide_eq_false; omega
    have e2 : decide (i - 11 = i) = false := by
      apply decide_eq_false; omega
    have e3 : decide (i - 16 = i) = false := by
      apply decide_eq_false; omega
    rw [e1, e2, e3]
    simp

end FullPattern

section CreatedFrames

open MainFrame

/-- A loop that appends one string per byte builds the concatenation. -/
theorem foldl_bitStream (data : List UInt8) (acc : List Char) :
    data.foldl (fun bitStream c => bitStream ++ bitsetToString 8 (bitsetOfValue 8 c.toNat)) acc =
      acc ++ data.flatMap (fun c => bitsetToString 8 (bitsetOfValue 8 c.toNat)) := by
  induction data generalizing acc with
  | nil => simp
  | cons c r ih => rw [List.foldl_cons, ih, List.flatMap_cons, List.append_assoc]

/-- The bit stream of `CreateFrames` has eight characters per byte, each `'0'`
or `'1'`. -/
theorem bitStream_shape (data : List UInt8) :
    (data.flatMap (fun c => bitsetToString 8 (bitsetOfValue 8 c.toNat))).length =
      8 * data.length ∧
    ∀ ch ∈ data.flatMap (fun c => bitsetToString 8 (bitsetOfValue 8 c.toNat)),
      ch = '0' ∨ ch = '1' := by
  induction data with
  | nil => simp
  | cons c r ih =>
    rw [List.flatMap_cons]
    refine ⟨?_, ?_⟩
    · rw [List.length_append, ih.1, List.length_cons]
      simp only [bitsetToString, List.length_map, List.length_range]
      omega
    · intro ch hch
      rw [List.mem_append] at hch
      rcases hch with h | h
      · unfold bitsetToString at h
        rw [List.mem_map] at h
        obtain ⟨k, _, rfl⟩ := h
        split
        · exact Or.inr rfl
        · exact Or.inl rfl
      · exact ih.2 ch h

/-- A loop that appends one item per iteration builds the mapped list. -/
theorem foldl_append_singleton {α β : Type} (g : α → β) (l : List α) (init : List β) :
    l.foldl (fun acc i => acc ++ [g i]) init = init ++ l.map g := by
  induction l generalizing init with
  | nil => simp
  | cons x xs ih => rw [List.foldl_cons, ih, List.map_cons, List.append_assoc]; rfl

/-- The frames made by `CreateFrames`: their number, and that each has 100
characters `'0'` or `'1'`. -/
theorem CreateFrames_shape (data : List UInt8) :
    (CreateFrames data).length = (8 * data.length + 99) / 100 ∧
    ∀ f ∈ CreateFrames data, f.length = 100 ∧ ∀ c ∈ f, c = '0' ∨ c = '1' := by
  obtain ⟨hlen, hbin⟩ := bitStream_shape data
  unfold CreateFrames
  dsimp only
  rw [foldl_bitStream, List.nil_append, foldl_append_singleton, List.nil_append]
  generalize data.flatMap (fun c => bitsetToString 8 (bitsetOfValue 8 c.toNat)) = B at hlen hbin ⊢
  have hcomplete : ∀ f ∈ (List.range (B.length / FRAME_SIZE_BITS)).map
      (fun i => substr B (i * FRAME_SIZE_BITS) FRAME_SIZE_BITS),
      f.length = 100 ∧ ∀ c ∈ f, c = '0' ∨ c = '1' := by
    intro f hf
    rw [List.mem_map] at hf
    obtain ⟨i, hi, rfl⟩ := hf
    rw [List.mem_range] at hi
    unfold substr FRAME_SIZE_BITS at *
    refine ⟨?_, ?_⟩
    · rw [List.length_take, List.length_drop]
      omega
    · intro c hc
      exact hbin c (List.mem_of_mem_drop (List.mem_of_mem_take hc))
  unfold FRAME_SIZE_BITS at *
  split_ifs with hrem
  · refine ⟨?_, ?_⟩
    · rw [List.length_append, List.length_map, List.length_range, List.length_singleton, hlen]
      rw [hlen] at hrem
      omega
    · intro f hf
      rw [List.mem_append, List.mem_singleton] at hf
      rcases hf with hf | rfl
      · exact hcomplete f hf
      · refine ⟨?_, ?_⟩
        · rw [List.length_append, List.length_drop, List.length_replicate]
          omega
        · intro c hc
          rw [List.mem_append, List.mem_replicate] at hc
          rcases hc with h | h
          · exact hbin c (List.mem_of_mem_drop h)
          · exact Or.inl h.2
  · refine ⟨?_, hcomplete⟩
    rw [List.length_map, List.length_range, hlen]
    rw [hlen] at hrem
    omega

/-- C30: for every byte sequence of length `n`, `CreateFrames` returns
`ceil(8n / 100)` strings (none for the empty input), each of exactly 100
characters `'0'` or `'1'`. For every such frame the 116-character string given
to the bitset constructor of `CalculateCRC` has only `'0'` and `'1'`, so the
constructor does not throw and `CalculateCRC` returns a string; and in its
loops (`i = 115 - k` for `k < 100`, `j < 17`) every index `i - j` lies in
`0 .. 115` and every index `16 - j` in `0 .. 16`. -/
theorem C30_created_frames_meet_crc_preconditions (data : List UInt8) :
    (MainFrame.CreateFrames data).length = (8 * data.length) ⌈/⌉ 100 ∧
    MainFrame.CreateFrames [] = [] ∧
    (∀ f ∈ MainFrame.CreateFrames data,
      f.length = 100 ∧ (∀ c ∈ f, c = '0' ∨ c = '1') ∧
      (f ++ List.replicate 16 '0').length = 116 ∧
      (∃ bits : Nat, bitsetOfString 116 (f ++ List.replicate 16 '0') = some bits) ∧
      (∃ crc : List Char, MainFrame.CalculateCRC f = some crc ∧ crc.length = 16)) ∧
    (∀ k ∈ List.range 100, ∀ j ∈ List.range 17,
      (0 : Int) ≤ ((115 - k : Nat) : Int) - (j : Int) ∧
      ((115 - k : Nat) : Int) - (j : Int) < 116 ∧
      (0 : Int) ≤ 16 - (j : Int) ∧ (16 : Int) - (j : Int) < 17 ∧
      16 ≤ 115 - k ∧ 115 - k ≤ 115) := by
  obtain ⟨hcount, hshape⟩ := CreateFrames_shape data
  refine ⟨?_, rfl, ?_, ?_⟩
  · rw [hcount, Nat.ceilDiv_eq_add_pred_div]
    rfl
  · intro f hf
    obtain ⟨hlen, hbits⟩ := hshape f hf
    obtain ⟨crc, _, hcalc, hcrclen, _, _, _⟩ := CalculateCRC_division f hlen hbits
    refine ⟨hlen, hbits, by rw [List.length_append, hlen, List.length_replicate], ?_,
      ⟨crc, hcalc, hcrclen⟩⟩
    have hall : (f ++ List.replicate 16 '0').all (fun c => decide (c = '0' ∨ c = '1')) = true := by
      rw [List.all_eq_true]
      intro c hc
      rw [List.mem_append, List.mem_replicate] at hc
      rcases hc with h | h
      · simpa using hbits c h
      · simp [h.2]
    unfold bitsetOfString
    rw [hall, if_pos rfl]
    exact ⟨_, rfl⟩
  · intro k hk j hj
    rw [List.mem_range] at hk hj
    omega

end CreatedFrames

section EveryFrameHandled

open DataLinkWorker

/-- What one pass through the loop body does that can be observed: the events
it emits, the draws it makes, and how its outcome follows from the values
drawn. -/
theorem attempt_trace (rng : Nat → ℚ) (st : RetryState) :
    ∃ (new : List Event) (o : AttemptOutcome),
      (attempt rng st).events = st.events ++ new ∧
      (attempt rng st).attempts = st.attempts ++ [o] ∧
      new.length = o.eventCount ∧
      (attempt rng st).pos = st.pos + o.draws ∧
      (attempt rng st).acked = (decide (o = AttemptOutcome.acked) || st.acked) ∧
      (attempt rng st).frame.frameNumber = st.frame.frameNumber ∧
      (o = AttemptOutcome.acked →
        new.getLast? = some (Event.statusUpdate
          ("Frame " ++ toString st.frame.frameNumber ++
            " successfully transmitted and acknowledged"))) ∧
      o = (if rng st.pos < 0.10 then AttemptOutcome.lost
        else if rng (st.pos + 1) < 0.20 then AttemptOutcome.corrupted
        else if rng (st.pos + 2) < 0.15 then AttemptOutcome.ackLost
        else AttemptOutcome.acked) := by
  unfold attempt simulateDataLoss simulateDataCorruption simulateAckLoss
  dsimp only
  by_cases hl : rng st.pos < 0.10
  · have hl' : decide (rng st.pos < 0.10) = true := by simpa using hl
    rw [if_pos hl', if_pos hl]
    exact ⟨[_], AttemptOutcome.lost, rfl, rfl, rfl, rfl, rfl, rfl,
      fun h => AttemptOutcome.noConfusion h, rfl⟩
  · have hl' : ¬ decide (rng st.pos < 0.10) = true := by simpa using hl
    rw [if_neg hl', if_neg hl]
    by_cases hc : rng (st.pos + 1) < 0.20
    · have hc' : decide (rng (st.pos + 1) < 0.20) = true := by simpa using hc
      rw [if_pos hc', if_pos hc]
      exact ⟨[_], AttemptOutcome.corrupted, rfl, rfl, rfl, rfl, rfl, rfl,
        fun h => AttemptOutcome.noConfusion h, rfl⟩
    · have hc' : ¬ decide (rng (st.pos + 1) < 0.20) = true := by simpa using hc
      rw [if_neg hc', if_neg hc]
      by_cases ha : rng (st.pos + 2) < 0.15
      · have ha' : decide (rng (st.pos + 1 + 1) < 0.15) = true := by simpa using ha
        rw [if_pos ha', if_pos ha]
        exact ⟨[Event.frameProcessed _, Event.statusUpdate _], AttemptOutcome.ackLost,
          List.append_assoc _ _ _, rfl, rfl, rfl, rfl, rfl,
          fun h => AttemptOutcome.noConfusion h, rfl⟩
      · have ha' : ¬ decide (rng (st.pos + 1 + 1) < 0.15) = true := by simpa using ha
        rw [if_neg ha', if_neg ha]
        exact ⟨[Event.frameProcessed _, Event.statusUpdate _], AttemptOutcome.acked,
          List.append_assoc _ _ _, rfl, rfl, rfl, rfl, rfl, fun _ => rfl, rfl⟩

/-- What the retry loop does that can be observed: the events it emits and the
draws it makes, pass by pass, and the status line that ends it when the frame
is acknowledged. -/
theorem retryLoop_trace (rng : Nat → ℚ) (st : RetryState) :
    ∃ (new : List Event) (os : List AttemptOutcome),
      (retryLoop rng st).events = st.events ++ new ∧
      (retryLoop rng st).attempts = st.attempts ++ os ∧
      new.length = (os.map AttemptOutcome.eventCount).sum ∧
      (retryLoop rng st).pos = st.pos + (os.map AttemptOutcome.draws).sum ∧
      (st.acked = false → (retryLoop rng st).acked = true →
        new.getLast? = some (Event.statusUpdate
          ("Frame " ++ toString st.frame.frameNumber ++
            " successfully transmitted and acknowledged"))) := by
  induction st using retryLoop.induct rng with
  | case1 st hg ih =>
    have hst : st.acked = false := by
      simp only [Bool.and_eq_true, Bool.not_eq_true', decide_eq_true_eq] at hg
      exact hg.1
    obtain ⟨new1, o, h1, h2, h3, h4, h5, h6, h7, _⟩ := attempt_trace rng st
    rw [hst, Bool.or_false] at h5
    rw [retryLoop, dif_pos hg]
    by_cases hacked : (attempt rng st).acked = true
    · have hstop : retryLoop rng (attempt rng st) = attempt rng st := by
        rw [retryLoop, dif_neg (by simp [hacked])]
      have ho : o = AttemptOutcome.acked := by
        rw [h5] at hacked
        simpa using hacked
      rw [hstop]
      exact ⟨new1, [o], h1, h2, by simp [h3], by simp [h4], fun _ _ => h7 ho⟩
    · rw [Bool.not_eq_true] at hacked
      obtain ⟨new2, os, k1, k2, k3, k4, k5⟩ := ih
      refine ⟨new1 ++ new2, o :: os, by rw [k1, h1, List.append_assoc],
        by rw [k2, h2, List.append_assoc]; rfl, ?_, ?_, ?_⟩
      · rw [List.length_append, h3, k3, List.map_cons, List.sum_cons]
      · rw [k4, h4, List.map_cons, List.sum_cons, Nat.add_assoc]
      · intro _ hfin
        have hlast := k5 hacked hfin
        rw [List.getLast?_append, hlast, h6]
        rfl
  | case2 st hg =>
    rw [retryLoop, dif_neg hg]
    refine ⟨[], [], by simp, by simp, rfl, rfl, ?_⟩
    intro h0 h1
    rw [h0] at h1
    exact absurd h1 (by decide)

/-- What the handling of one frame does that can be observed: its first pass
is made and ends as the values drawn say, every pass draws from the random
source and emits its signals, and the last signal tells how the frame ended. -/
theorem processFrame_trace (rng : Nat → ℚ) (f : Frame) (p : Nat) :
    (processFrame rng f p).attempts.head? =
      some (if rng p < 0.10 then AttemptOutcome.lost
        else if rng (p + 1) < 0.20 then AttemptOutcome.corrupted
        else if rng (p + 2) < 0.15 then AttemptOutcome.ackLost
        else AttemptOutcome.acked) ∧
    (processFrame rng f p).pos =
      p + ((processFrame rng f p).attempts.map AttemptOutcome.draws).sum ∧
    (processFrame rng f p).events.length =
      ((processFrame rng f p).attempts.map AttemptOutcome.eventCount).sum +
        (if (processFrame rng f p).failed then 1 else 0) ∧
    ((processFrame rng f p).acked = true →
      (processFrame rng f p).events.getLast? = some (Event.statusUpdate
        ("Frame " ++ toString f.frameNumber ++
          " successfully transmitted and acknowledged"))) ∧
    ((processFrame rng f p).failed = true →
      (processFrame rng f p).events.getLast? = some (Event.statusUpdate
        ("Frame " ++ toString f.frameNumber ++ " transmission failed after " ++
          toString MAX_RETRIES ++ " attempts")) ∧
      (processFrame rng f p).frame.valid = false) := by
  obtain ⟨new, os, h1, h2, h3, h4, h5⟩ := retryLoop_trace rng
    { frame := f, retryCount := 0, acked := false, pos := p, events := [], attempts := [] }
  rw [List.nil_append] at h1 h2
  rw [← h2] at h3 h4
  have hnum := (retryLoop_numbers rng
    { frame := f, retryCount := 0, acked := false, pos := p, events := [],
      attempts := [] }).1
  have hhead : (retryLoop rng
      { frame := f, retryCount := 0, acked := false, pos := p, events := [],
        attempts := [] }).attempts.head? =
      some (if rng p < 0.10 then AttemptOutcome.lost
        else if rng (p + 1) < 0.20 then AttemptOutcome.corrupted
        else if rng (p + 2) < 0.15 then AttemptOutcome.ackLost
        else AttemptOutcome.acked) := by
    obtain ⟨_, o, _, a2, _, _, _, _, _, a8⟩ := attempt_trace rng
      { frame := f, retryCount := 0, acked := false, pos := p, events := [], attempts := [] }
    obtain ⟨_, os', _, b2, _⟩ := retryLoop_trace rng (attempt rng
      { frame := f, retryCount := 0, acked := false, pos := p, events := [], attempts := [] })
    rw [retryLoop, dif_pos (by rfl), b2, a2, ← a8]
    rfl
  cases hack : (retryLoop rng
      { frame := f, retryCount := 0, acked := false, pos := p, events := [],
        attempts := [] }).acked with
  | false =>
    have hrun : processFrame rng f p =
        { frame := ((retryLoop rng
              { frame := f, retryCount := 0, acked := false, pos := p, events := [],
                attempts := [] }).frame.setValid false).addErrorInfo "Transmission Failed"
              ("Maximum retry attempts (" ++ toString MAX_RETRIES ++ ") reached"),
          acked := false, failed := true,
          pos := (retryLoop rng
            { frame := f, retryCount := 0, acked := false, pos := p, events := [],
              attempts := [] }).pos,
          events := (retryLoop rng
              { frame := f, retryCount := 0, acked := false, pos := p, events := [],
                attempts := [] }).events ++
            [Event.statusUpdate ("Frame " ++ toString (retryLoop rng
                { frame := f, retryCount := 0, acked := false, pos := p, events := [],
                  attempts := [] }).frame.frameNumber ++ " transmission failed after " ++
              toString MAX_RETRIES ++ " attempts")],
          attempts := (retryLoop rng
            { frame := f, retryCount := 0, acked := false, pos := p, events := [],
              attempts := [] }).attempts } := by
      unfold processFrame
      dsimp only
      rw [hack]
      rfl
    rw [hrun]
    dsimp only
    refine ⟨hhead, h4, ?_, fun h => absurd h (by decide), fun _ => ⟨?_, rfl⟩⟩
    · rw [List.length_append, h1, h3]
      rfl
    · rw [List.getLast?_append, hnum]
      rfl
  | true =>
    have hrun : processFrame rng f p =
        { frame := (retryLoop rng
            { frame := f, retryCount := 0, acked := false, pos := p, events := [],
              attempts := [] }).frame,
          acked := true, failed := false,
          pos := (retryLoop rng
            { frame := f, retryCount := 0, acked := false, pos := p, events := [],
              attempts := [] }).pos,
          events := (retryLoop rng
            { frame := f, retryCount := 0, acked := false, pos := p, events := [],
              attempts := [] }).events,
          attempts := (retryLoop rng
            { frame := f, retryCount := 0, acked := false, pos := p, events := [],
              attempts := [] }).attempts } := by
      unfold processFrame
      dsimp only
      rw [hack]
      rfl
    rw [hrun]
    dsimp only
    refine ⟨hhead, h4, ?_, fun _ => ?_, fun h => absurd h (by decide)⟩
    · rw [h1, h3]
      rfl
    · rw [h1]
      exact h5 rfl hack

/-- Every run of `frameRuns` is the handling of the frame at the same index,
started where the run before it stopped drawing. -/
theorem frameRuns_getElem_start (rng : Nat → ℚ) (frames : List Frame) :
    ∀ (pos i : Nat) (f : Frame) (run : FrameRun), frames[i]? = some f →
      (frameRuns rng frames pos)[i]? = some run →
      run = processFrame rng f (runsEndPos ((frameRuns rng frames pos).take i) pos) := by
  induction frames with
  | nil =>
    intro pos i f run hf
    simp at hf
  | cons g rest ih =>
    intro pos i f run hf hr
    cases i with
    | zero =>
      simp only [frameRuns, List.getElem?_cons_zero, Option.some.injEq] at hf hr
      rw [← hr, ← hf]
      rfl
    | succ i =>
      simp only [frameRuns, List.getElem?_cons_succ] at hf hr
      have h := ih _ i f run hf hr
      rw [frameRuns, List.take_succ_cons]
      exact h

/-- The local copy of a call on a non-empty frame list that visited every
frame holds the frames as their runs left them. -/
theorem process_localFrames_completed (w : DataLinkWorker) (rng : Nat → ℚ)
    (interrupted : Nat → Bool) (pos : Nat) (hne : w.frames ≠ [])
    (h : visitedCount interrupted w.frames 0 = w.frames.length) :
    (process w rng interrupted pos).localFrames =
      (frameRuns rng w.frames pos).map FrameRun.frame := by
  have hemp : w.frames.isEmpty = false := by
    cases hw : w.frames with
    | nil => exact absurd hw hne
    | cons _ _ => rfl
  unfold process
  simp only [hemp, Bool.false_eq_true, if_false, processFrames_eq, h, lt_irrefl, decide_False,
    Bool.or_false, List.take_length, List.append_nil, List.nil_append, frameRuns_length,
    List.drop_length]

/-- C10: in every uncancelled run of `process` over a non-empty frame list,
whatever the channel outcomes, every frame is visited and gets at least one
attempt, and ends either acked (its last attempt was acknowledged) or failed
("Transmission Failed" recorded after three failed attempts), never both; the
number of acked frames plus the number of failed frames is the number of
frames, and the run ends with `transmissionComplete`. The attempts are real:
the handling of frame `i` starts drawing where frame `i - 1` stopped, its
first pass ends as the values drawn there say (below 0.10 lost, else below
0.20 corrupted, else below 0.15 ACK lost, else acknowledged), every pass makes
its draws and emits its signals, the last signal of the frame is the status
line of its terminal outcome, the frame as left by its handling is what the
local copy holds, and the signals of the frames, in frame order, followed by
the closing signals are the whole trace of the run. -/
theorem C10_every_frame_acked_or_failed (w : DataLinkWorker) (rng : Nat → ℚ)
    (interrupted : Nat → Bool) (pos : Nat) (hne : w.frames ≠ [])
    (hrun : ∀ k, k < w.frames.length → interrupted k = false) :
    (DataLinkWorker.process w rng interrupted pos).cancelled = false ∧
    (DataLinkWorker.process w rng interrupted pos).runs.length = w.frames.length ∧
    (∀ (i : Nat) (f : Frame) (run : FrameRun), w.frames[i]? = some f →
      (DataLinkWorker.process w rng interrupted pos).runs[i]? = some run →
        1 ≤ run.attempts.length ∧
        run.frame.frameNumber = f.frameNumber ∧
        ((run.acked = true ∧ run.failed = false) ∨ (run.acked = false ∧ run.failed = true)) ∧
        (run.acked = true → run.attempts.getLast? = some AttemptOutcome.acked) ∧
        (run.failed = true → run.attempts.length = 3 ∧
          (∀ a ∈ run.attempts, a ≠ AttemptOutcome.acked) ∧
          run.frame.errorDescription "Transmission Failed" =
            some "Maximum retry attempts (3) reached") ∧
        run.attempts.head? =
          some (if rng (runsEndPos ((DataLinkWorker.process w rng interrupted pos).runs.take i) pos) < 0.10 then
              AttemptOutcome.lost
            else if rng (runsEndPos ((DataLinkWorker.process w rng interrupted pos).runs.take i) pos + 1) < 0.20 then
              AttemptOutcome.corrupted
            else if rng (runsEndPos ((DataLinkWorker.process w rng interrupted pos).runs.take i) pos + 2) < 0.15 then
              AttemptOutcome.ackLost
            else AttemptOutcome.acked) ∧
        run.pos = runsEndPos ((DataLinkWorker.process w rng interrupted pos).runs.take i) pos +
          (run.attempts.map AttemptOutcome.draws).sum ∧
        runsEndPos ((DataLinkWorker.process w rng interrupted pos).runs.take i) pos + 1 ≤ run.pos ∧
        run.events.length = (run.attempts.map AttemptOutcome.eventCount).sum +
          (if run.failed then 1 else 0) ∧
        1 ≤ run.events.length ∧
        (run.acked = true →
          run.events.getLast? = some (Event.statusUpdate
            ("Frame " ++ toString f.frameNumber ++
              " successfully transmitted and acknowledged"))) ∧
        (run.failed = true →
          run.events.getLast? = some (Event.statusUpdate
            ("Frame " ++ toString f.frameNumber ++ " transmission failed after " ++
              toString MAX_RETRIES ++ " attempts")) ∧
          run.frame.valid = false) ∧
        (DataLinkWorker.process w rng interrupted pos).localFrames[i]? = some run.frame) ∧
    ((DataLinkWorker.process w rng interrupted pos).runs.countP (fun run => run.acked) +
        (DataLinkWorker.process w rng interrupted pos).runs.countP (fun run => run.failed) =
      w.frames.length) ∧
    (DataLinkWorker.process w rng interrupted pos).events.getLast? =
      some Event.transmissionComplete ∧
    (DataLinkWorker.process w rng interrupted pos).events =
      (DataLinkWorker.process w rng interrupted pos).runs.flatMap FrameRun.events ++
        ([Event.checksumCalculated (calculateChecksum w.frames),
          Event.checksumFrameSent
            (prepareChecksumFrame { w with checksum := calculateChecksum w.frames })] ++
          ((if rng (runsEndPos (DataLinkWorker.process w rng interrupted pos).runs pos) < 0.05
              then [Event.errorOccurred "Checksum error detected"] else []) ++
            [Event.transmissionComplete])) := by
  have hvis : visitedCount interrupted w.frames 0 = w.frames.length :=
    visitedCount_eq_length interrupted w.frames 0
      (fun k hk => by rw [Nat.zero_add]; exact hrun k hk)
  have hr : (process w rng interrupted pos).runs = frameRuns rng w.frames pos := by
    rw [process_runs, hvis, List.take_length]
  have hcanc : (process w rng interrupted pos).cancelled = false := by
    rw [process_cancelled, hvis]
    simp
  have hev := process_events_completed w rng interrupted pos hne hvis
  have hloc := process_localFrames_completed w rng interrupted pos hne hvis
  have hlen : (frameRuns rng w.frames pos).length = w.frames.length := frameRuns_length _ _ _
  have hlast : (process w rng interrupted pos).events.getLast? =
      some Event.transmissionComplete := by
    rw [hev, List.getLast?_append, List.getLast?_append, List.getLast?_append]
    rfl
  have hrunspec : ∀ (i : Nat) (f : Frame) (run : FrameRun),
      w.frames[i]? = some f → (frameRuns rng w.frames pos)[i]? = some run →
      run.failed = (!run.acked) ∧ 1 ≤ run.attempts.length ∧
      run.frame.frameNumber = f.frameNumber ∧
      (run.acked = true → run.attempts.getLast? = some AttemptOutcome.acked) ∧
      (run.failed = true → run.attempts.length = 3 ∧
        (∀ a ∈ run.attempts, a ≠ AttemptOutcome.acked) ∧
        run.frame.errorDescription "Transmission Failed" =
          some "Maximum retry attempts (3) reached") := by
    intro i f run hf hrn
    obtain ⟨p, rfl⟩ := frameRuns_getElem? rng w.frames pos i f run hf hrn
    obtain ⟨h1, h2, h3, h4⟩ := processFrame_spec rng f p
    refine ⟨h1, ?_, h4, ?_, ?_⟩
    · by_cases ha : (processFrame rng f p).acked = true
      · obtain ⟨⟨init, hi, _, _⟩, _⟩ := h3 ha
        rw [hi]; simp
      · rw [Bool.not_eq_true] at ha
        rw [(h2 ha).1]
        decide
    · intro ha
      obtain ⟨⟨init, hi, _, _⟩, _⟩ := h3 ha
      rw [hi]; simp
    · intro hfl
      rw [h1] at hfl
      have ha : (processFrame rng f p).acked = false := by simpa using hfl
      exact h2 ha
  rw [hr]
  refine ⟨hcanc, hlen, ?_, ?_, hlast, hev⟩
  · intro i f run hf hrn
    obtain ⟨h1, h2, h3, h4, h5⟩ := hrunspec i f run hf hrn
    have hstart := frameRuns_getElem_start rng w.frames pos i f run hf hrn
    obtain ⟨t1, t2, t3, t4, t5⟩ :=
      processFrame_trace rng f (runsEndPos ((frameRuns rng w.frames pos).take i) pos)
    rw [← hstart] at t1 t2 t3 t4 t5
    have hdraw : 1 ≤ (run.attempts.map AttemptOutcome.draws).sum := by
      cases hatt : run.attempts with
      | nil => rw [hatt] at h2; exact absurd h2 (by decide)
      | cons a rest =>
        rw [List.map_cons, List.sum_cons]
        have ha : 1 ≤ a.draws := by cases a <;> decide
        omega
    have hevs : 1 ≤ (run.attempts.map AttemptOutcome.eventCount).sum := by
      cases hatt : run.attempts with
      | nil => rw [hatt] at h2; exact absurd h2 (by decide)
      | cons a rest =>
        rw [List.map_cons, List.sum_cons]
        have ha : 1 ≤ a.eventCount := by cases a <;> decide
        omega
    refine ⟨h2, h3, ?_, h4, h5, t1, t2, by omega, t3, by omega, t4, t5, ?_⟩
    · rw [h1]
      cases run.acked <;> simp
    · rw [hloc, List.getElem?_map, hrn]
      rfl
  · rw [← hlen]
    apply countP_acked_add_failed
    intro run hmem
    obtain ⟨i, hi, hget⟩ := List.getElem_of_mem hmem
    have hi' : i < w.frames.length := by omega
    exact (hrunspec i w.frames[i] run (List.getElem?_eq_getElem hi')
      (by rw [List.getElem?_eq_getElem hi, hget])).1

/-- C10 (witness): three frames, no interruption, and a random source whose
first three values are 0.05 and whose later values are 0.5. The first frame is
lost three times and ends failed; the two frames after it are each handled and
acknowledged on their first attempt, drawing the values 3 to 8. -/
theorem C10_every_frame_acked_or_failed_witness :
    (({ frames := [Frame.ofData [1], Frame.ofData [2], Frame.ofData [3]],
                      checksum := "", checksumFrame := "" } : DataLinkWorker).frames ≠ []) ∧
    (DataLinkWorker.process
        { frames := [Frame.ofData [1], Frame.ofData [2], Frame.ofData [3]],
                      checksum := "", checksumFrame := "" }
        (fun k => if k < 3 then 0.05 else 0.5) (fun _ => false) 0).cancelled = false ∧
    (DataLinkWorker.process
        { frames := [Frame.ofData [1], Frame.ofData [2], Frame.ofData [3]],
                      checksum := "", checksumFrame := "" }
        (fun k => if k < 3 then 0.05 else 0.5) (fun _ => false) 0).runs.countP (fun run => run.acked) +
      (DataLinkWorker.process
        { frames := [Frame.ofData [1], Frame.ofData [2], Frame.ofData [3]],
                      checksum := "", checksumFrame := "" }
        (fun k => if k < 3 then 0.05 else 0.5) (fun _ => false) 0).runs.countP (fun run => run.failed) =
      ({ frames := [Frame.ofData [1], Frame.ofData [2], Frame.ofData [3]],
                      checksum := "", checksumFrame := "" } : DataLinkWorker).frames.length ∧
    (DataLinkWorker.process
        { frames := [Frame.ofData [1], Frame.ofData [2], Frame.ofData [3]],
                      checksum := "", checksumFrame := "" }
        (fun k => if k < 3 then 0.05 else 0.5) (fun _ => false) 0).runs.map
        (fun run => (run.acked, run.failed, run.attempts, run.pos, run.events.length)) =
      [(false, true, [AttemptOutcome.lost, AttemptOutcome.lost, AttemptOutcome.lost], 3, 4),
       (true, false, [AttemptOutcome.acked], 6, 2),
       (true, false, [AttemptOutcome.acked], 9, 2)] :=
  ⟨by simp,
   (C10_every_frame_acked_or_failed
      { frames := [Frame.ofData [1], Frame.ofData [2], Frame.ofData [3]],
                      checksum := "", checksumFrame := "" }
      (fun k => if k < 3 then 0.05 else 0.5) (fun _ => false) 0 (by simp) (fun _ _ => rfl)).1,
   (C10_every_frame_acked_or_failed
      { frames := [Frame.ofData [1], Frame.ofData [2], Frame.ofData [3]],
                      checksum := "", checksumFrame := "" }
      (fun k => if k < 3 then 0.05 else 0.5) (fun _ => false) 0 (by simp) (fun _ _ => rfl)).2.2.2.1,
   by decide!⟩

end EveryFrameHandled
